import Mathlib

/-!
# Effect registry of vkBasalt_overlay

A shallow embedding of `src/effect_registry.cpp`, `src/reshade_parser.cpp`,
`src/effect_params.cpp` and `saveConfig` of `src/config_serializer.cpp`.

* `std::vector` is `List`, `push_back` is appending one element at the end.
* `std::string` is `String`.
* A C `float` is represented by a rational number: a literal by its decimal value. The
  cast `(float)` of an `int` rounds to the nearest single-precision value (`intToFloat`)
  and the cast `(int)` of a float truncates towards zero (`floatToInt`); the code under
  study stores, copies and casts such values and does no arithmetic on them.
* `std::filesystem::exists` is the predicate `Env.pathExists` in the runs where the call
  returns; its exit by `std::filesystem::filesystem_error`, which nothing in the registry
  catches, is modelled for `initialize` by `initializeThrowing`.
* `int`/`int32_t` members are `Int`; the registry only stores and copies them.
* The mutex and the logger are not part of the registry state: every operation is
  modelled as the sequential effect of its body on the instance list. The scope of the
  lock inside `initialize` and `ensureEffect` is modelled apart (`Guarded`).
-/

namespace vkBasalt

/-! ## Data model (`effect_config.hpp`, `imgui_overlay.hpp`) -/

/-- Kind tag of a parameter (`ParamType`, declared in `imgui_overlay.hpp`): the three
enumerators the sources use. -/
inductive ParamType where
  | Float
  | Int
  | Bool
  deriving DecidableEq

/-- Origin of an effect instance (`EffectType` in `effect_config.hpp`). -/
inductive EffectType where
  | BuiltIn
  | ReShade
  deriving DecidableEq

/-- One tunable (`EffectParameter`). The struct is declared in `imgui_overlay.hpp`; the
fields are the members that the sources under study read or write. -/
structure EffectParameter where
  effectName : String
  name : String
  label : String
  type : ParamType
  valueFloat : Rat
  valueInt : Int
  valueBool : Bool
  defaultFloat : Rat
  defaultInt : Int
  defaultBool : Bool
  minFloat : Rat
  maxFloat : Rat
  minInt : Int
  maxInt : Int
  step : Rat
  uiType : String
  items : List String
  deriving DecidableEq

/-- One effect instance (`EffectConfig` in `effect_config.hpp`). -/
structure EffectConfig where
  name : String
  effectType : String
  filePath : String
  type : EffectType
  enabled : Bool
  parameters : List EffectParameter
  deriving DecidableEq

/-- A default-constructed `EffectConfig config;` with the member initialisers of
`effect_config.hpp`. -/
def EffectConfig.fresh : EffectConfig :=
  { name := "", effectType := "", filePath := "", type := EffectType.BuiltIn,
    enabled := true, parameters := [] }

/-! ## External collaborators -/

/-- Modelled from the spec: the `Config` class (`config.hpp`) is a key/value accessor
supporting typed reads with a default, `get(key, default) -> value`, for strings,
booleans, 32-bit integers, floating-point numbers and one ordered sequence of strings.
Each typed view maps a key to the value a read of that type finds, if any. -/
structure Config where
  strings : String → Option String
  floats : String → Option Rat
  ints : String → Option Int
  bools : String → Option Bool
  lists : String → Option (List String)

namespace Config

/-- Typed read `getOption<std::string>(key, dflt)`. -/
def getOptionString (c : Config) (key dflt : String) : String :=
  (c.strings key).getD dflt

/-- Typed read `getOption<float>(key, dflt)`. -/
def getOptionFloat (c : Config) (key : String) (dflt : Rat) : Rat :=
  (c.floats key).getD dflt

/-- Typed read `getOption<int32_t>(key, dflt)`. -/
def getOptionInt (c : Config) (key : String) (dflt : Int) : Int :=
  (c.ints key).getD dflt

/-- Typed read `getOption<bool>(key, dflt)`. -/
def getOptionBool (c : Config) (key : String) (dflt : Bool) : Bool :=
  (c.bools key).getD dflt

/-- Typed read `getOption<std::vector<std::string>>(key)`. -/
def getOptionList (c : Config) (key : String) : List String :=
  (c.lists key).getD []

end Config

/-- Scalar type of a declaration in the lowered module (`reshadefx::type`), seen through
the three predicates the extractor asks. -/
structure FxType where
  is_floating_point : Bool
  is_integral : Bool
  is_boolean : Bool
  deriving DecidableEq

/-- A constant of the lowered module (`reshadefx::constant`): first component under each
view of the value union, and the string payload. -/
structure FxConstant where
  as_float : Rat
  as_int : Int
  as_uint : Nat
  string_data : String
  deriving DecidableEq

/-- A name/value annotation attached to a declaration. -/
structure FxAnnotation where
  type : FxType
  name : String
  value : FxConstant
  deriving DecidableEq

/-- An entry of `module.spec_constants` (`reshadefx::uniform_info`). -/
structure FxUniform where
  name : String
  type : FxType
  initializer_value : FxConstant
  annotations : List FxAnnotation
  deriving DecidableEq

/-- Outcome of the preprocess, parse and lower stages of the external `reshadefx`
library on one source file. -/
inductive LoadResult where
  | appendFailed
  | parseFailed
  | module (spec_constants : List FxUniform)

/-- The environment outside the registry: the filesystem existence predicate (the answer of
`std::filesystem::exists` where the call returns; the paths on which it throws instead are
a separate argument of `existsProbe` and `initializeThrowing`), the `reshadefx` front end
applied to the file at a path with a given include path, and the value of a
default-constructed `EffectParameter p;` (its member initialisers are declared outside the
sources under study). -/
structure Env where
  pathExists : String → Bool
  loadModule : String → String → LoadResult
  defaultParameter : EffectParameter

/-- Modelled from the spec: the class declaration (`effect_registry.hpp`) is not among the
sources; the state is "an ordered sequence of EffectInstance, a reference to the external
configuration source", the two members `effects` and `pConfig` that the methods use. The
reference always designates a configuration: a call of `ensureEffect` on a registry whose
`pConfig` was never set is outside the model. -/
structure EffectRegistry where
  effects : List EffectConfig
  pConfig : Config

/-! ## Built-in effects (`effect_registry.cpp`, lines 11 to 258) -/

/-- The static list `builtInEffects`. -/
def builtInEffects : List String := ["cas", "dls", "fxaa", "smaa", "deband", "lut"]

/-- Membership test `EffectRegistry::isBuiltInEffect` (`std::find` over the list). -/
def isBuiltInEffect (name : String) : Bool :=
  builtInEffects.contains name

/-- A float parameter as the branches of `initBuiltInEffect` fill it in: effect name, name,
label, type, default, configured value with the default as fallback, minimum, maximum. -/
def builtInFloat (env : Env) (cfg : Config) (effectName name label : String)
    (dflt lo hi : Rat) : EffectParameter :=
  { env.defaultParameter with
    effectName := effectName, name := name, label := label, type := ParamType.Float,
    defaultFloat := dflt, valueFloat := cfg.getOptionFloat name dflt,
    minFloat := lo, maxFloat := hi }

/-- An integer parameter as the branches of `initBuiltInEffect` fill it in. -/
def builtInInt (env : Env) (cfg : Config) (effectName name label : String)
    (dflt lo hi : Int) : EffectParameter :=
  { env.defaultParameter with
    effectName := effectName, name := name, label := label, type := ParamType.Int,
    defaultInt := dflt, valueInt := cfg.getOptionInt name dflt,
    minInt := lo, maxInt := hi }

/-- The parameter list that `initBuiltInEffect` pushes into `config.parameters`, one branch
per name of the `if`/`else if` chain; a name outside the chain gets no parameter. -/
def builtInParameters (env : Env) (cfg : Config) (name : String) : List EffectParameter :=
  if name = "cas" then
    [builtInFloat env cfg "cas" "casSharpness" "Sharpness" 0.4 0.0 1.0]
  else if name = "dls" then
    [builtInFloat env cfg "dls" "dlsSharpness" "Sharpness" 0.5 0.0 1.0,
     builtInFloat env cfg "dls" "dlsDenoise" "Denoise" 0.17 0.0 1.0]
  else if name = "fxaa" then
    [builtInFloat env cfg "fxaa" "fxaaQualitySubpix" "Quality Subpix" 0.75 0.0 1.0,
     builtInFloat env cfg "fxaa" "fxaaQualityEdgeThreshold" "Edge Threshold" 0.125 0.0 0.5,
     builtInFloat env cfg "fxaa" "fxaaQualityEdgeThresholdMin" "Edge Threshold Min"
       0.0312 0.0 0.1]
  else if name = "smaa" then
    [builtInFloat env cfg "smaa" "smaaThreshold" "Threshold" 0.05 0.0 0.5,
     builtInInt env cfg "smaa" "smaaMaxSearchSteps" "Max Search Steps" 32 0 112,
     builtInInt env cfg "smaa" "smaaMaxSearchStepsDiag" "Max Search Steps Diag" 16 0 20,
     builtInInt env cfg "smaa" "smaaCornerRounding" "Corner Rounding" 25 0 100]
  else if name = "deband" then
    [builtInFloat env cfg "deband" "debandAvgdiff" "Avg Diff" 3.4 0.0 255.0,
     builtInFloat env cfg "deband" "debandMaxdiff" "Max Diff" 6.8 0.0 255.0,
     builtInFloat env cfg "deband" "debandMiddiff" "Mid Diff" 3.3 0.0 255.0,
     builtInFloat env cfg "deband" "debandRange" "Range" 16.0 1.0 64.0,
     builtInInt env cfg "deband" "debandIterations" "Iterations" 4 1 16]
  else if name = "lut" then
    [{ env.defaultParameter with
       effectName := "lut", name := "lutFile", label := "LUT File",
       type := ParamType.Float, valueFloat := 0 }]
  else
    []

/-- The method `EffectRegistry::initBuiltInEffect`: build a built-in instance, enabled,
with the parameters of its branch, and push it at the end of the instance list. -/
def initBuiltInEffect (env : Env) (reg : EffectRegistry) (name : String) : EffectRegistry :=
  let config : EffectConfig :=
    { EffectConfig.fresh with
      name := name, type := EffectType.BuiltIn, enabled := true,
      parameters := builtInParameters env reg.pConfig name }
  { reg with effects := reg.effects ++ [config] }

/-! ## Shader metadata extraction (`reshade_parser.cpp`) -/

/-- The search `std::find_if(annotations.begin(), annotations.end(), a.name == key)`: the
first annotation with the given name, if any. -/
def findAnnotationNamed (annotations : List FxAnnotation) (key : String) : Option FxAnnotation :=
  annotations.find? (fun a => a.name == key)

/-- Number of low-order bits a magnitude `m` loses when it is stored in the 24-bit
significand of a single-precision float: the least `e` with `m / 2 ^ e < 2 ^ 24`. The first
argument bounds the number of halvings; `m` itself is always enough. -/
def floatShift : Nat → Nat → Nat
  | 0, _ => 0
  | fuel + 1, m => if m < 2 ^ 24 then 0 else floatShift fuel (m / 2) + 1

/-- The cast `(float)` applied to an `int`: the nearest single-precision float (24-bit
significand), a tie going to the even significand. The magnitude is split into the
significand `q` and the `e` bits that do not fit; every `int` is within the exponent range
of `float`. -/
def intToFloat (n : Int) : Rat :=
  let m := n.natAbs
  let e := floatShift m m
  let q := m / 2 ^ e
  let r := m % 2 ^ e
  let q := if 2 ^ e < 2 * r ∨ (2 * r = 2 ^ e ∧ q % 2 = 1) then q + 1 else q
  ((Int.sign n * ((q * 2 ^ e : Nat) : Int) : Int) : Rat)

/-- The cast `(int)` applied to a float: the value truncated towards zero when that fits the
32-bit `int`. Outside that range the cast is undefined in C++; the value taken here is the
one the x86-64 conversion instruction produces (`INT_MIN`), and no property below rests on
it. -/
def floatToInt (q : Rat) : Int :=
  let t := q.num.tdiv q.den
  if -2147483648 ≤ t ∧ t ≤ 2147483647 then t else -2147483648

/-- Value of a numeric annotation read as a float:
`type.is_floating_point() ? value.as_float[0] : (float)value.as_int[0]`. -/
def annotationAsFloat (a : FxAnnotation) : Rat :=
  if a.type.is_floating_point then a.value.as_float else intToFloat a.value.as_int

/-- Value of a numeric annotation read as an integer:
`type.is_integral() ? value.as_int[0] : (int)value.as_float[0]`. -/
def annotationAsInt (a : FxAnnotation) : Int :=
  if a.type.is_integral then a.value.as_int else floatToInt a.value.as_float

/-- The loop splitting the `ui_items` string at NUL characters. `cur` holds the characters
since `start`, so `i > start` is `cur ≠ []`; the first clause is the pass `i == size`. -/
def splitItemsLoop : List Char → List Char → List String → List String
  | [], cur, items => if cur ≠ [] then items ++ [String.mk cur] else items
  | c :: rest, cur, items =>
    if c = Char.ofNat 0 then
      splitItemsLoop rest [] (if cur ≠ [] then items ++ [String.mk cur] else items)
    else
      splitItemsLoop rest (cur ++ [c]) items

/-- The `ui_items` block: split the annotation string at NUL characters, keeping the
non-empty pieces in order, appended to the items the parameter already has. -/
def splitItems (itemsStr : String) (items : List String) : List String :=
  splitItemsLoop itemsStr.data [] items

/-- The type-dependent block of the extractor loop (lines 99 to 139): kind, default,
current value and bounds from the scalar type of the constant. -/
def classifySpecConstant (cfg : Config) (spec : FxUniform) (hasConfig : Bool)
    (p : EffectParameter) : EffectParameter :=
  if spec.type.is_floating_point then
    let p := { p with type := ParamType.Float, defaultFloat := spec.initializer_value.as_float }
    let p := { p with
      valueFloat := if hasConfig then cfg.getOptionFloat spec.name 0 else p.defaultFloat }
    let p := match findAnnotationNamed spec.annotations "ui_min" with
      | some a => { p with minFloat := annotationAsFloat a }
      | none => p
    match findAnnotationNamed spec.annotations "ui_max" with
    | some a => { p with maxFloat := annotationAsFloat a }
    | none => p
  else if spec.type.is_integral then
    if spec.type.is_boolean then
      let p := { p with
        type := ParamType.Bool, defaultBool := decide (spec.initializer_value.as_uint ≠ 0) }
      { p with
        valueBool := if hasConfig then cfg.getOptionBool spec.name false else p.defaultBool }
    else
      let p := { p with type := ParamType.Int, defaultInt := spec.initializer_value.as_int }
      let p := { p with
        valueInt := if hasConfig then cfg.getOptionInt spec.name 0 else p.defaultInt }
      let p := match findAnnotationNamed spec.annotations "ui_min" with
        | some a => { p with minInt := annotationAsInt a }
        | none => p
      match findAnnotationNamed spec.annotations "ui_max" with
      | some a => { p with maxInt := annotationAsInt a }
      | none => p
  else
    p

/-- One pass of the extractor loop over `module.spec_constants` (lines 73 to 172): `none`
for a constant that is skipped (`continue`), otherwise the parameter that is pushed. -/
def parseSpecConstant (env : Env) (cfg : Config) (effectName : String) (spec : FxUniform) :
    Option EffectParameter :=
  if (findAnnotationNamed spec.annotations "source").isSome then
    none
  else if spec.name = "" then
    none
  else
    let p := { env.defaultParameter with effectName := effectName, name := spec.name }
    let p := { p with
      label := match findAnnotationNamed spec.annotations "ui_label" with
        | some a => a.value.string_data
        | none => spec.name }
    let configVal := cfg.getOptionString spec.name ""
    let hasConfig := decide (configVal ≠ "")
    let p := classifySpecConstant cfg spec hasConfig p
    let p := match findAnnotationNamed spec.annotations "ui_step" with
      | some a => { p with step := annotationAsFloat a }
      | none => p
    let p := match findAnnotationNamed spec.annotations "ui_type" with
      | some a => { p with uiType := a.value.string_data }
      | none => p
    let p := match findAnnotationNamed spec.annotations "ui_items" with
      | some a => { p with items := splitItems a.value.string_data p.items }
      | none => p
    some p

/-- The function `parseReshadeEffect(effectName, effectPath, pConfig)`: an empty list when
the file cannot be loaded or parsed, otherwise the parameters of the kept constants in
declaration order. -/
def parseReshadeEffect (env : Env) (effectName effectPath : String) (cfg : Config) :
    List EffectParameter :=
  let includePath := cfg.getOptionString "reshadeIncludePath" ""
  match env.loadModule effectPath includePath with
  | LoadResult.appendFailed => []
  | LoadResult.parseFailed => []
  | LoadResult.module spec_constants =>
    spec_constants.foldl
      (fun params spec =>
        match parseSpecConstant env cfg effectName spec with
        | some p => params ++ [p]
        | none => params)
      []

/-! ## The registry (`effect_registry.cpp`) -/

/-- The method `EffectRegistry::initReshadeEffect`: build a shader instance with the given
source path, enabled, with the extracted parameters, and push it at the end of the list. -/
def initReshadeEffect (env : Env) (reg : EffectRegistry) (name path : String) :
    EffectRegistry :=
  let config : EffectConfig :=
    { EffectConfig.fresh with
      name := name, filePath := path, type := EffectType.ReShade, enabled := true,
      parameters := parseReshadeEffect env name path reg.pConfig }
  { reg with effects := reg.effects ++ [config] }

/-- Body of the loop of `initialize` for one effect name (lines 29 to 57), in the runs where
the existence probes of lines 44 and 49 return; `initializeStepThrowing` adds their exit by
exception. -/
def initializeStep (env : Env) (pConfig : Config) (reg : EffectRegistry) (name : String) :
    EffectRegistry :=
  if isBuiltInEffect name then
    initBuiltInEffect env reg name
  else
    let effectPath := pConfig.getOptionString name ""
    let effectPath :=
      if effectPath = "" then
        let includePath := pConfig.getOptionString "reshadeIncludePath" ""
        if includePath ≠ "" then
          let effectPath := includePath ++ "/" ++ name ++ ".fx"
          if !env.pathExists effectPath then includePath ++ "/" ++ name else effectPath
        else
          effectPath
      else
        effectPath
    if effectPath ≠ "" ∧ env.pathExists effectPath then
      initReshadeEffect env reg name effectPath
    else
      reg

/-- The method `EffectRegistry::initialize(pConfig)`: store the configuration, clear the
instance list, then process the configured effect names in order. It describes the runs
where every existence probe returns; `initializeThrowing` adds the exit by exception. -/
def initializeRegistry (env : Env) (reg : EffectRegistry) (pConfig : Config) :
    EffectRegistry :=
  let reg := { reg with pConfig := pConfig }
  let reg := { reg with effects := [] }
  let effectNames := pConfig.getOptionList "effects"
  effectNames.foldl (initializeStep env pConfig) reg

/-- One call of the throwing overload `std::filesystem::exists(path)`, the overload that
`initialize` calls: `none` when the status query on the path fails with an error other than
"not found" (`fails path`, e.g. a component without search permission or a name that is too
long), in which case the overload throws `std::filesystem::filesystem_error`; otherwise the
answer. -/
def existsProbe (env : Env) (fails : String → Bool) (path : String) : Option Bool :=
  if fails path then none else some (env.pathExists path)

/-- How a call of `initialize` ends: it returns, or a `filesystem_error` thrown by an
existence probe leaves the method (nothing in `initialize` or the methods it calls catches
it). Either way `reg` is the registry state the call leaves behind. -/
inductive InitOutcome where
  | returned (reg : EffectRegistry)
  | threw (reg : EffectRegistry)

/-- The registry state a call leaves behind. -/
def InitOutcome.registry : InitOutcome → EffectRegistry
  | InitOutcome.returned reg => reg
  | InitOutcome.threw reg => reg

/-- Whether the call was left by an exception. -/
def InitOutcome.hasThrown : InitOutcome → Bool
  | InitOutcome.returned _ => false
  | InitOutcome.threw _ => true

/-- Body of the loop of `initialize` for one effect name (lines 29 to 57), with the exit by
exception of the two probes at lines 44 and 49. `resolved` is the value of `effectPath`
before line 49, or `none` when the probe of line 44 threw; the probe of line 49 is not
evaluated when `effectPath` is empty (`&&` short-circuits). -/
def initializeStepThrowing (env : Env) (fails : String → Bool) (pConfig : Config)
    (reg : EffectRegistry) (name : String) : InitOutcome :=
  if isBuiltInEffect name then
    InitOutcome.returned (initBuiltInEffect env reg name)
  else
    let effectPath := pConfig.getOptionString name ""
    let resolved : Option String :=
      if effectPath = "" then
        let includePath := pConfig.getOptionString "reshadeIncludePath" ""
        if includePath ≠ "" then
          let effectPath := includePath ++ "/" ++ name ++ ".fx"
          match existsProbe env fails effectPath with
          | none => none
          | some found => some (if !found then includePath ++ "/" ++ name else effectPath)
        else
          some effectPath
      else
        some effectPath
    match resolved with
    | none => InitOutcome.threw reg
    | some effectPath =>
      if effectPath = "" then
        InitOutcome.returned reg
      else
        match existsProbe env fails effectPath with
        | none => InitOutcome.threw reg
        | some true => InitOutcome.returned (initReshadeEffect env reg name effectPath)
        | some false => InitOutcome.returned reg

/-- The loop of `initialize` over the effect names: an exception thrown in the body for one
name ends the loop, and the names after it are not processed. -/
def initializeLoopThrowing (env : Env) (fails : String → Bool) (pConfig : Config) :
    List String → EffectRegistry → InitOutcome
  | [], reg => InitOutcome.returned reg
  | name :: rest, reg =>
    match initializeStepThrowing env fails pConfig reg name with
    | InitOutcome.returned reg => initializeLoopThrowing env fails pConfig rest reg
    | InitOutcome.threw reg => InitOutcome.threw reg

/-- The method `EffectRegistry::initialize(pConfig)` with the exit by exception of its
existence probes: store the configuration, clear the instance list, then process the
configured effect names in order until the list ends or a probe throws. -/
def initializeThrowing (env : Env) (fails : String → Bool) (reg : EffectRegistry)
    (pConfig : Config) : InitOutcome :=
  let reg := { reg with pConfig := pConfig }
  let reg := { reg with effects := [] }
  let effectNames := pConfig.getOptionList "effects"
  initializeLoopThrowing env fails pConfig effectNames reg

/-- The method `EffectRegistry::getEnabledEffects`: the loop pushing every enabled instance
into a fresh vector. -/
def getEnabledEffects (reg : EffectRegistry) : List EffectConfig :=
  reg.effects.foldl (fun enabled effect => if effect.enabled then enabled ++ [effect] else enabled)
    []

/-- The method `EffectRegistry::getAllParameters`: the nested loops pushing every parameter
of every instance into a fresh vector. -/
def getAllParameters (reg : EffectRegistry) : List EffectParameter :=
  reg.effects.foldl
    (fun params effect => effect.parameters.foldl (fun params param => params ++ [param]) params)
    []

/-- The loop of `setEffectEnabled` over the instance list: the first instance with the
given name gets the flag and the loop returns. -/
def setEnabledLoop (effectName : String) (enabled : Bool) : List EffectConfig → List EffectConfig
  | [] => []
  | effect :: rest =>
    if effect.name = effectName then
      { effect with enabled := enabled } :: rest
    else
      effect :: setEnabledLoop effectName enabled rest

/-- The method `EffectRegistry::setEffectEnabled`. -/
def setEffectEnabled (reg : EffectRegistry) (effectName : String) (enabled : Bool) :
    EffectRegistry :=
  { reg with effects := setEnabledLoop effectName enabled reg.effects }

/-- Inner loop of the `setParameterValue` overloads over the parameters of one instance:
`some` of the updated list when a parameter with the given name is met (the assignment
`write` is applied to it and the method returns), `none` when the loop runs to its end. -/
def setParamLoop (write : EffectParameter → EffectParameter) (paramName : String) :
    List EffectParameter → Option (List EffectParameter)
  | [] => none
  | param :: rest =>
    if param.name = paramName then
      some (write param :: rest)
    else
      (setParamLoop write paramName rest).map (fun rest => param :: rest)

/-- Outer loop of the `setParameterValue` overloads over the instance list. -/
def setEffectParamLoop (write : EffectParameter → EffectParameter)
    (effectName paramName : String) : List EffectConfig → List EffectConfig
  | [] => []
  | effect :: rest =>
    if effect.name = effectName then
      match setParamLoop write paramName effect.parameters with
      | some parameters => { effect with parameters := parameters } :: rest
      | none => effect :: setEffectParamLoop write effectName paramName rest
    else
      effect :: setEffectParamLoop write effectName paramName rest

/-- The overload `setParameterValue(effectName, paramName, float value)`: the assignment is
`param.valueFloat = value`. -/
def setParameterValueFloat (reg : EffectRegistry) (effectName paramName : String)
    (value : Rat) : EffectRegistry :=
  { reg with
    effects := setEffectParamLoop (fun param => { param with valueFloat := value })
      effectName paramName reg.effects }

/-- The overload `setParameterValue(effectName, paramName, int value)`: the assignment is
`param.valueInt = value`. -/
def setParameterValueInt (reg : EffectRegistry) (effectName paramName : String)
    (value : Int) : EffectRegistry :=
  { reg with
    effects := setEffectParamLoop (fun param => { param with valueInt := value })
      effectName paramName reg.effects }

/-- The overload `setParameterValue(effectName, paramName, bool value)`: the assignment is
`param.valueBool = value`. -/
def setParameterValueBool (reg : EffectRegistry) (effectName paramName : String)
    (value : Bool) : EffectRegistry :=
  { reg with
    effects := setEffectParamLoop (fun param => { param with valueBool := value })
      effectName paramName reg.effects }

/-- Inner loop of `getParameter` over the parameters of one instance. -/
def getParamLoop (paramName : String) : List EffectParameter → Option EffectParameter
  | [] => none
  | param :: rest => if param.name = paramName then some param else getParamLoop paramName rest

/-- Outer loop of `getParameter` over the instance list. -/
def getEffectParamLoop (effectName paramName : String) :
    List EffectConfig → Option EffectParameter
  | [] => none
  | effect :: rest =>
    if effect.name = effectName then
      match getParamLoop paramName effect.parameters with
      | some param => some param
      | none => getEffectParamLoop effectName paramName rest
    else
      getEffectParamLoop effectName paramName rest

/-- The `const` overload of `EffectRegistry::getParameter`: the parameter the returned
pointer refers to, `none` for `nullptr`. -/
def getParameter (reg : EffectRegistry) (effectName paramName : String) :
    Option EffectParameter :=
  getEffectParamLoop effectName paramName reg.effects

/-- The non-`const` overload of `EffectRegistry::getParameter`, in state-passing form: the
parameter found and the registry after the call (the body has no assignment). -/
def getParameterMut (reg : EffectRegistry) (effectName paramName : String) :
    Option EffectParameter × EffectRegistry :=
  (getEffectParamLoop effectName paramName reg.effects, reg)

/-- The loop of `hasEffect` (and of the existence check of `ensureEffect`). -/
def hasEffectLoop (name : String) : List EffectConfig → Bool
  | [] => false
  | effect :: rest => if effect.name = name then true else hasEffectLoop name rest

/-- The method `EffectRegistry::hasEffect`. -/
def hasEffect (reg : EffectRegistry) (name : String) : Bool :=
  hasEffectLoop name reg.effects

/-- The method `EffectRegistry::ensureEffect(name, effectPath)`: nothing when an instance
with the name exists; otherwise a built-in is built, or a shader path is taken from the
argument, the per-name option or the include directory, and the instance is built when a
file exists at that path. It describes the runs where the existence probes of lines 447 and
453 return. -/
def ensureEffect (env : Env) (reg : EffectRegistry) (name effectPath : String) :
    EffectRegistry :=
  if hasEffectLoop name reg.effects then
    reg
  else if isBuiltInEffect name then
    initBuiltInEffect env reg name
  else
    let path := effectPath
    let path :=
      if path = "" then
        let path := reg.pConfig.getOptionString name ""
        if path = "" then
          let includePath := reg.pConfig.getOptionString "reshadeIncludePath" ""
          if includePath ≠ "" then
            let path := includePath ++ "/" ++ name ++ ".fx"
            if !env.pathExists path then includePath ++ "/" ++ name else path
          else
            path
        else
          path
      else
        path
    if path ≠ "" ∧ env.pathExists path then
      initReshadeEffect env reg name path
    else
      reg

/-! ## The parameter collection of `effect_params.cpp` -/

/-- Body of the outer loop of `collectEffectParameters` for one effect name (lines 14 to
211): the pushes of the branch of the name, or, for a name outside the chain, the pushes of
the parameters carrying that effect name among those the effects report. An entry of
`effects` is the list an effect returns from `getParameters()`. -/
def collectStep (env : Env) (cfg : Config) (effects : List (List EffectParameter))
    (parameters : List EffectParameter) (effectName : String) : List EffectParameter :=
  if effectName = "cas" then
    parameters ++ [builtInFloat env cfg "cas" "casSharpness" "Sharpness" 0.4 0.0 1.0]
  else if effectName = "dls" then
    parameters ++
      [builtInFloat env cfg "dls" "dlsSharpness" "Sharpness" 0.5 0.0 1.0,
       builtInFloat env cfg "dls" "dlsDenoise" "Denoise" 0.17 0.0 1.0]
  else if effectName = "fxaa" then
    parameters ++
      [builtInFloat env cfg "fxaa" "fxaaQualitySubpix" "Quality Subpix" 0.75 0.0 1.0,
       builtInFloat env cfg "fxaa" "fxaaQualityEdgeThreshold" "Edge Threshold" 0.125 0.0 0.5,
       builtInFloat env cfg "fxaa" "fxaaQualityEdgeThresholdMin" "Edge Threshold Min"
         0.0312 0.0 0.1]
  else if effectName = "smaa" then
    parameters ++
      [builtInFloat env cfg "smaa" "smaaThreshold" "Threshold" 0.05 0.0 0.5,
       builtInInt env cfg "smaa" "smaaMaxSearchSteps" "Max Search Steps" 32 0 112,
       builtInInt env cfg "smaa" "smaaMaxSearchStepsDiag" "Max Search Steps Diag" 16 0 20,
       builtInInt env cfg "smaa" "smaaCornerRounding" "Corner Rounding" 25 0 100]
  else if effectName = "deband" then
    parameters ++
      [builtInFloat env cfg "deband" "debandAvgdiff" "Avg Diff" 3.4 0.0 255.0,
       builtInFloat env cfg "deband" "debandMaxdiff" "Max Diff" 6.8 0.0 255.0,
       builtInFloat env cfg "deband" "debandMiddiff" "Mid Diff" 3.3 0.0 255.0,
       builtInFloat env cfg "deband" "debandRange" "Range" 16.0 1.0 64.0,
       builtInInt env cfg "deband" "debandIterations" "Iterations" 4 1 16]
  else if effectName = "lut" then
    parameters ++
      [{ env.defaultParameter with
         effectName := "lut", name := "lutFile", label := "LUT File",
         type := ParamType.Float, valueFloat := 0 }]
  else
    effects.foldl
      (fun parameters params =>
        params.foldl
          (fun parameters param =>
            if param.effectName = effectName then parameters ++ [param] else parameters)
          parameters)
      parameters

/-- The function `collectEffectParameters(pConfig, effectNames, effects)`. -/
def collectEffectParameters (env : Env) (cfg : Config) (effectNames : List String)
    (effects : List (List EffectParameter)) : List EffectParameter :=
  effectNames.foldl (collectStep env cfg effects) []

/-! ## Specification-side definitions -/

/-- Path resolution in the words of the specification: an explicit per-name override is
tried first; without one, given a non-empty search directory `D`, `D/N.fx` is tried, then
`D/N`; the result is the path chosen when a file exists there. -/
def resolvedPath (env : Env) (cfg : Config) (name : String) : Option String :=
  let override := cfg.getOptionString name ""
  let dir := cfg.getOptionString "reshadeIncludePath" ""
  if override ≠ "" then
    if env.pathExists override then some override else none
  else if dir = "" then
    none
  else if env.pathExists (dir ++ "/" ++ name ++ ".fx") then
    some (dir ++ "/" ++ name ++ ".fx")
  else if env.pathExists (dir ++ "/" ++ name) then
    some (dir ++ "/" ++ name)
  else
    none

/-- The built-in instance for a name: kind BuiltIn, enabled, no source path, the parameters
of the catalog read against the configuration. -/
def builtInInstance (env : Env) (cfg : Config) (name : String) : EffectConfig :=
  { EffectConfig.fresh with
    name := name, type := EffectType.BuiltIn, enabled := true,
    parameters := builtInParameters env cfg name }

/-- The shader instance for a name and a source path: kind ReShade, enabled, the parameters
extracted from the file. -/
def shaderInstance (env : Env) (cfg : Config) (name path : String) : EffectConfig :=
  { EffectConfig.fresh with
    name := name, filePath := path, type := EffectType.ReShade, enabled := true,
    parameters := parseReshadeEffect env name path cfg }

/-- The instance the specification prescribes for one configured name: the built-in
instance for a built-in name, the shader instance at the resolved path otherwise, none when
no path resolves. -/
def instanceFor (env : Env) (cfg : Config) (name : String) : Option EffectConfig :=
  if isBuiltInEffect name then
    some (builtInInstance env cfg name)
  else
    (resolvedPath env cfg name).map (shaderInstance env cfg name)

/-- The constants the extractor keeps, in the words of the specification: those that carry
no annotation named `source` and have a name. -/
def keepsConstant (spec : FxUniform) : Bool :=
  !(spec.annotations.any (fun a => a.name == "source")) && spec.name != ""

/-- The label the specification prescribes for a constant: the string value of its first
`ui_label` annotation when there is one, its name otherwise. -/
def labelOf (spec : FxUniform) : String :=
  match spec.annotations.find? (fun a => a.name == "ui_label") with
  | some a => a.value.string_data
  | none => spec.name

/-- Registry states reachable from an empty registry by calls of `initialize`,
`ensureEffect`, `setEffectEnabled` and the three overloads of `setParameterValue`, with any
arguments. -/
inductive Reachable (env : Env) : EffectRegistry → Prop where
  | empty (cfg : Config) : Reachable env { effects := [], pConfig := cfg }
  | init (reg : EffectRegistry) (cfg : Config) :
      Reachable env reg → Reachable env (initializeRegistry env reg cfg)
  | ensure (reg : EffectRegistry) (name path : String) :
      Reachable env reg → Reachable env (ensureEffect env reg name path)
  | setEnabled (reg : EffectRegistry) (name : String) (b : Bool) :
      Reachable env reg → Reachable env (setEffectEnabled reg name b)
  | setFloat (reg : EffectRegistry) (effectName paramName : String) (v : Rat) :
      Reachable env reg → Reachable env (setParameterValueFloat reg effectName paramName v)
  | setInt (reg : EffectRegistry) (effectName paramName : String) (v : Int) :
      Reachable env reg → Reachable env (setParameterValueInt reg effectName paramName v)
  | setBool (reg : EffectRegistry) (effectName paramName : String) (v : Bool) :
      Reachable env reg → Reachable env (setParameterValueBool reg effectName paramName v)

/-! ## Concrete inputs used by the witnesses and counterexamples -/

/-- A default-constructed parameter with every member zero or empty. -/
def zeroParameter : EffectParameter :=
  { effectName := "", name := "", label := "", type := ParamType.Float,
    valueFloat := 0, valueInt := 0, valueBool := false,
    defaultFloat := 0, defaultInt := 0, defaultBool := false,
    minFloat := 0, maxFloat := 0, minInt := 0, maxInt := 0,
    step := 0, uiType := "", items := [] }

/-- A configuration with no key at all. -/
def emptyConfig : Config :=
  { strings := fun _ => none, floats := fun _ => none, ints := fun _ => none,
    bools := fun _ => none, lists := fun _ => none }

/-- An environment with an empty filesystem. -/
def emptyEnv : Env :=
  { pathExists := fun _ => false, loadModule := fun _ _ => LoadResult.appendFailed,
    defaultParameter := zeroParameter }

/-- A sample float parameter named `f`. -/
def floatParameter : EffectParameter :=
  { zeroParameter with effectName := "fx", name := "f", label := "F", type := ParamType.Float }

/-- A sample integer parameter named `i`. -/
def intParameter : EffectParameter :=
  { zeroParameter with effectName := "fx", name := "i", label := "I", type := ParamType.Int }

/-- A sample boolean parameter named `b`. -/
def boolParameter : EffectParameter :=
  { zeroParameter with effectName := "fx", name := "b", label := "B", type := ParamType.Bool }

/-- A disabled built-in instance without parameters. -/
def lutEffect : EffectConfig :=
  { EffectConfig.fresh with name := "lut", enabled := false }

/-- A shader instance with one parameter of each kind. -/
def sampleEffect : EffectConfig :=
  { EffectConfig.fresh with
    name := "fx", filePath := "/inc/fx.fx", type := EffectType.ReShade,
    parameters := [floatParameter, intParameter, boolParameter] }

/-- A registry holding `lutEffect` then `sampleEffect`. -/
def sampleRegistry : EffectRegistry :=
  { effects := [lutEffect, sampleEffect], pConfig := emptyConfig }

/-- A configuration whose effect list is `cas` then `nonexistent_shader`. -/
def casConfig : Config :=
  { emptyConfig with
    lists := fun key => if key = "effects" then some ["cas", "nonexistent_shader"] else none }

/-- An environment where both `/inc/foo.fx` and `/inc/foo` exist. -/
def bothEnv : Env :=
  { emptyEnv with pathExists := fun path => path == "/inc/foo.fx" || path == "/inc/foo" }

/-- A configuration whose effect list is `cas` alone. -/
def casOnlyConfig : Config :=
  { emptyConfig with lists := fun key => if key = "effects" then some ["cas"] else none }

/-- A configuration whose effect list is `cas`, `broken`, `dls` and whose search directory
is `/inc`. -/
def brokenConfig : Config :=
  { emptyConfig with
    strings := fun key => if key = "reshadeIncludePath" then some "/inc" else none
    lists := fun key => if key = "effects" then some ["cas", "broken", "dls"] else none }

/-- A filesystem on which the status query of `/inc/broken.fx` fails, as it does when `/inc`
may not be searched. -/
def brokenProbe : String → Bool :=
  fun path => path == "/inc/broken.fx"

/-- A configuration whose effect list names `cas` twice. -/
def dupConfig : Config :=
  { emptyConfig with lists := fun key => if key = "effects" then some ["cas", "cas"] else none }

/-- An empty registry. -/
def emptyRegistry : EffectRegistry :=
  { effects := [], pConfig := emptyConfig }

/-- An integer literal annotation. -/
def intLiteral (name : String) (n : Int) : FxAnnotation :=
  { type := { is_floating_point := false, is_integral := true, is_boolean := false },
    name := name,
    value := { as_float := 0, as_int := n, as_uint := n.toNat, string_data := "" } }

/-- A float literal annotation. -/
def floatLiteral (name : String) (q : Rat) : FxAnnotation :=
  { type := { is_floating_point := true, is_integral := false, is_boolean := false },
    name := name,
    value := { as_float := q, as_int := 0, as_uint := 0, string_data := "" } }

/-- A string annotation. -/
def stringLiteral (name value : String) : FxAnnotation :=
  { type := { is_floating_point := false, is_integral := false, is_boolean := false },
    name := name,
    value := { as_float := 0, as_int := 0, as_uint := 0, string_data := value } }

/-- A float uniform `Strength` annotated `ui_min=0`, `ui_max=10`, `ui_label="Foo"`, with
integer literals for the bounds. -/
def fooUniform : FxUniform :=
  { name := "Strength",
    type := { is_floating_point := true, is_integral := false, is_boolean := false },
    initializer_value := { as_float := 5, as_int := 0, as_uint := 0, string_data := "" },
    annotations :=
      [intLiteral "ui_min" 0, intLiteral "ui_max" 10, stringLiteral "ui_label" "Foo"] }

/-- The uniform `fooUniform` additionally annotated `source="frametime"`. -/
def frametimeUniform : FxUniform :=
  { fooUniform with
    annotations := fooUniform.annotations ++ [stringLiteral "source" "frametime"] }

/-- An environment where every file lowers to the module declaring `fooUniform`. -/
def fooModuleEnv : Env :=
  { emptyEnv with loadModule := fun _ _ => LoadResult.module [fooUniform] }

/-- An environment where every file lowers to the module declaring `frametimeUniform`. -/
def frametimeModuleEnv : Env :=
  { emptyEnv with loadModule := fun _ _ => LoadResult.module [frametimeUniform] }

/-- A boolean uniform `Toggle` initialised to true. -/
def toggleUniform : FxUniform :=
  { name := "Toggle",
    type := { is_floating_point := false, is_integral := true, is_boolean := true },
    initializer_value := { as_float := 0, as_int := 1, as_uint := 1, string_data := "" },
    annotations := [] }

/-- An integer uniform `Count` initialised to 4, annotated `ui_min=1.0` (float literal),
`ui_max=16` (integer literal) and `ui_step=0.5` (float literal). -/
def countUniform : FxUniform :=
  { name := "Count",
    type := { is_floating_point := false, is_integral := true, is_boolean := false },
    initializer_value := { as_float := 0, as_int := 4, as_uint := 4, string_data := "" },
    annotations :=
      [floatLiteral "ui_min" 1, intLiteral "ui_max" 16, floatLiteral "ui_step" (1 / 2)] }

/-- An environment where every file lowers to the module declaring `fooUniform`,
`toggleUniform` and `countUniform`. -/
def mixedModuleEnv : Env :=
  { emptyEnv with
    loadModule := fun _ _ => LoadResult.module [fooUniform, toggleUniform, countUniform] }

/-- An environment where every path exists and every file lowers to a module declaring the
uniform `fooUniform` twice. -/
def dupModuleEnv : Env :=
  { emptyEnv with
    pathExists := fun _ => true
    loadModule := fun _ _ => LoadResult.module [fooUniform, fooUniform] }

/-- A configuration that holds the float 1 under the key `lutFile`. -/
def lutConfig : Config :=
  { emptyConfig with floats := fun key => if key = "lutFile" then some 1 else none }

/-- A configuration that holds the float 1 under `smaaThreshold` and the integer 8 under
`smaaMaxSearchSteps`. -/
def smaaConfig : Config :=
  { emptyConfig with
    floats := fun key => if key = "smaaThreshold" then some 1 else none
    ints := fun key => if key = "smaaMaxSearchSteps" then some 8 else none }

/-- A configuration whose effect list is `foo`, whose search directory is `/inc` and which
holds the per-name path override `/missing/foo.fx` for `foo`. -/
def overrideConfig : Config :=
  { emptyConfig with
    strings := fun key =>
      if key = "reshadeIncludePath" then some "/inc"
      else if key = "foo" then some "/missing/foo.fx"
      else none
    lists := fun key => if key = "effects" then some ["foo"] else none }

/-- A configuration that holds `7` under the key `Strength`, as a string and as a float. -/
def strengthConfig : Config :=
  { emptyConfig with
    strings := fun key => if key = "Strength" then some "7" else none
    floats := fun key => if key = "Strength" then some 7 else none }

/-- The items the specification prescribes for a `ui_items` string: the segments obtained by
splitting the string at the NUL separator character, without the empty segments, in
order. -/
def nonEmptySegments (s : String) : List String :=
  ((s.data.splitOn (Char.ofNat 0)).filter (fun seg => !seg.isEmpty)).map String.mk

/-- An integer uniform `Mode` with the `ui_items` string `a`, NUL, `b`, NUL, NUL, `cd`,
NUL. -/
def comboUniform : FxUniform :=
  { name := "Mode",
    type := { is_floating_point := false, is_integral := true, is_boolean := false },
    initializer_value := { as_float := 0, as_int := 0, as_uint := 0, string_data := "" },
    annotations := [stringLiteral "ui_items" "a\x00b\x00\x00cd\x00"] }

/-- An environment where every file lowers to the module declaring `comboUniform`. -/
def comboModuleEnv : Env :=
  { emptyEnv with loadModule := fun _ _ => LoadResult.module [comboUniform] }

/-! ## The configuration serializer (`config_serializer.cpp`) -/

/-- One saved parameter (`EffectParam` in `config_serializer.hpp`). -/
structure EffectParam where
  effectName : String
  paramName : String
  value : String
  deriving DecidableEq

/-- The function `ConfigSerializer::getConfigsDir`; `home` is the result of
`getenv("HOME")`, `none` for a null pointer. -/
def getConfigsDir (home : Option String) : String :=
  match home with
  | some h => h ++ "/.config/vkBasalt/configs"
  | none => ""

/-- The statement `paramsByEffect[key].push_back(param)` on a `std::map`, kept as the list of
its entries in key order (the order of `std::string`, lexicographic on the characters): the
parameter is pushed at the end of the entry of the key, and an entry is created at its
place in the order when there is none. -/
def mapPush : List (String × List EffectParam) → String → EffectParam →
    List (String × List EffectParam)
  | [], key, param => [(key, [param])]
  | (k, v) :: rest, key, param =>
    if key = k then (k, v ++ [param]) :: rest
    else if key.data < k.data then (key, [param]) :: (k, v) :: rest
    else (k, v) :: mapPush rest key param

/-- The grouping loop of `saveConfig` (lines 67 to 69). -/
def groupParams (params : List EffectParam) : List (String × List EffectParam) :=
  params.foldl (fun paramsByEffect param => mapPush paramsByEffect param.effectName param) []

/-- The loop of `saveConfig` that writes the parameters grouped by effect (lines 72 to 78),
as the text it appends to the text written so far. -/
def writeParams (paramsByEffect : List (String × List EffectParam)) (text : String) : String :=
  paramsByEffect.foldl
    (fun text entry =>
      let text := text ++ "# " ++ entry.1 ++ "\n"
      let text := entry.2.foldl
        (fun text param => text ++ param.paramName ++ " = " ++ param.value ++ "\n") text
      text ++ "\n")
    text

/-- The loop of `saveConfig` that builds `effectsList` (lines 82 to 87); `i` is the loop
index of the first name of the list. -/
def joinEffectsLoop : List String → Nat → String → String
  | [], _, effectsList => effectsList
  | effect :: rest, i, effectsList =>
    let effectsList := if i > 0 then effectsList ++ ":" else effectsList
    joinEffectsLoop rest (i + 1) (effectsList ++ effect)

/-- The function `ConfigSerializer::saveConfig(configName, effects, params)`: the returned
flag, and the path and the text of the file it writes, if any. `home` is the value of the
`HOME` variable and `canOpen` tells whether a file can be opened for writing. -/
def saveConfig (home : Option String) (canOpen : String → Bool) (configName : String)
    (effects : List String) (params : List EffectParam) : Bool × Option (String × String) :=
  let configsDir := getConfigsDir home
  if configsDir = "" then
    (false, none)
  else
    let filePath := configsDir ++ "/" ++ configName ++ ".conf"
    if !canOpen filePath then
      (false, none)
    else
      let paramsByEffect := groupParams params
      let text := writeParams paramsByEffect ""
      let effectsList := joinEffectsLoop effects 0 ""
      let text := text ++ "effects = " ++ effectsList ++ "\n"
      (true, some (filePath, text))

/-- One saved parameter of `smaa` and one of `cas`. -/
def sampleParams : List EffectParam :=
  [{ effectName := "smaa", paramName := "smaaThreshold", value := "0.05" },
   { effectName := "cas", paramName := "casSharpness", value := "0.4" }]

/-! ## Lock discipline of `initialize` and `ensureEffect`

The same two methods with the scope of their `std::lock_guard` made explicit, for one call
run on its own: the state records whether the mutex is held and counts the accesses to the
instance list made while it is not held. -/

/-- A registry together with the state of its mutex and the number of accesses to `effects`
made so far while the mutex was not held. -/
structure Guarded where
  reg : EffectRegistry
  locked : Bool
  unguarded : Nat

namespace Guarded

/-- Construction of a `std::lock_guard` on the mutex. -/
def lock (s : Guarded) : Guarded := { s with locked := true }

/-- Destruction of the `std::lock_guard` at the end of its scope. -/
def unlock (s : Guarded) : Guarded := { s with locked := false }

/-- One read or write of `effects`: counted when the mutex is not held. -/
def touch (s : Guarded) : Guarded :=
  if s.locked then s else { s with unguarded := s.unguarded + 1 }

end Guarded

/-- The method `initialize` with its lock scope: the `lock_guard` is the first statement of
the body and lives until the method returns; the list is cleared and filled in between. -/
def initializeGuarded (env : Env) (pConfig : Config) (s : Guarded) : Guarded :=
  let s := s.lock
  let s := s.touch
  let s := { s with reg := initializeRegistry env s.reg pConfig }
  s.unlock

/-- The method `ensureEffect` with its lock scope: the `lock_guard` lives in the block of
the existence loop only (lines 420 to 427) and is destroyed when the block is left, by
`return` or at its end; `initBuiltInEffect` and `initReshadeEffect`, which push onto
`effects`, are called after the block. -/
def ensureEffectGuarded (env : Env) (name effectPath : String) (s : Guarded) : Guarded :=
  let s := s.lock
  let s := s.touch
  let found := hasEffectLoop name s.reg.effects
  let s := s.unlock
  if found then
    s
  else if isBuiltInEffect name then
    let s := s.touch
    { s with reg := initBuiltInEffect env s.reg name }
  else
    let path := effectPath
    let path :=
      if path = "" then
        let path := s.reg.pConfig.getOptionString name ""
        if path = "" then
          let includePath := s.reg.pConfig.getOptionString "reshadeIncludePath" ""
          if includePath ≠ "" then
            let path := includePath ++ "/" ++ name ++ ".fx"
            if !env.pathExists path then includePath ++ "/" ++ name else path
          else
            path
        else
          path
      else
        path
    if path ≠ "" ∧ env.pathExists path then
      let s := s.touch
      { s with reg := initReshadeEffect env s.reg name path }
    else
      s

/-! ## Properties of the snapshot operations -/

/-- Pushing the elements that pass a test, in order, onto `acc` gives `acc` followed by the
filtered list. -/
theorem foldl_push_if_eq_filter {α : Type} (p : α → Bool) (l : List α) (acc : List α) :
    l.foldl (fun acc x => if p x then acc ++ [x] else acc) acc = acc ++ l.filter p := by
  induction l generalizing acc with
  | nil => simp
  | cons x xs ih =>
    simp only [List.foldl_cons, ih, List.filter_cons]
    by_cases h : p x <;> simp [h]

/-- Pushing every element of `l`, in order, onto `acc` gives `acc ++ l`. -/
theorem foldl_push_eq_append {α : Type} (l : List α) (acc : List α) :
    l.foldl (fun acc x => acc ++ [x]) acc = acc ++ l := by
  induction l generalizing acc with
  | nil => simp
  | cons x xs ih => simp [ih]

/-- The nested push loops of `getAllParameters` started from `acc` give `acc` followed by
the concatenation of the parameter lists. -/
theorem foldl_push_all_eq_flatten (l : List EffectConfig) (acc : List EffectParameter) :
    l.foldl
      (fun params effect =>
        effect.parameters.foldl (fun params param => params ++ [param]) params) acc
      = acc ++ (l.map (fun e => e.parameters)).flatten := by
  induction l generalizing acc with
  | nil => simp
  | cons x xs ih =>
    rw [List.foldl_cons, ih, foldl_push_eq_append]
    simp

/-- C3: `getEnabledEffects` returns exactly the instances whose `enabled` flag is true, in
registry order and unchanged; it is a sub-sequence of the instance list, contains no disabled
instance and omits no enabled one. -/
theorem getEnabledEffects_eq_filter (reg : EffectRegistry) :
    getEnabledEffects reg = reg.effects.filter (fun e => e.enabled) ∧
    List.Sublist (getEnabledEffects reg) reg.effects ∧
    (∀ e ∈ getEnabledEffects reg, e.enabled = true) ∧
    (∀ e ∈ reg.effects, e.enabled = true → e ∈ getEnabledEffects reg) := by
  have h : getEnabledEffects reg = reg.effects.filter (fun e => e.enabled) := by
    unfold getEnabledEffects
    rw [foldl_push_if_eq_filter (fun e : EffectConfig => e.enabled)]
    simp
  refine ⟨h, ?_, ?_, ?_⟩
  · rw [h]; exact List.filter_sublist _
  · intro e he
    rw [h] at he
    exact (List.mem_filter.mp he).2
  · intro e he hen
    rw [h]
    exact List.mem_filter.mpr ⟨he, hen⟩

/-- C4: `getAllParameters` is the concatenation of the parameter lists of the instances, in
instance order, each list in its own order; its length is the sum of the parameter counts. -/
theorem getAllParameters_eq_flatten (reg : EffectRegistry) :
    getAllParameters reg = (reg.effects.map (fun e => e.parameters)).flatten ∧
    (getAllParameters reg).length = (reg.effects.map (fun e => e.parameters.length)).sum := by
  have h : getAllParameters reg = (reg.effects.map (fun e => e.parameters)).flatten := by
    unfold getAllParameters
    rw [foldl_push_all_eq_flatten]
    simp
  refine ⟨h, ?_⟩
  rw [h, List.length_flatten, List.map_map]
  rfl

/-! ## Lookup and update by (effect name, parameter name) -/

/-- The inner update loop returns nothing exactly when no parameter has the name. -/
theorem setParamLoop_eq_none (write : EffectParameter → EffectParameter) (paramName : String)
    (ps : List EffectParameter) (h : ∀ q ∈ ps, q.name ≠ paramName) :
    setParamLoop write paramName ps = none := by
  induction ps with
  | nil => rfl
  | cons q qs ih =>
    have hq : q.name ≠ paramName := h q (List.mem_cons_self _ _)
    have hqs : ∀ r ∈ qs, r.name ≠ paramName := fun r hr => h r (List.mem_cons_of_mem _ hr)
    simp [setParamLoop, hq, ih hqs]

/-- The inner update loop rewrites the first parameter that has the name. -/
theorem setParamLoop_located (write : EffectParameter → EffectParameter) (paramName : String)
    (ps1 : List EffectParameter) (p : EffectParameter) (ps2 : List EffectParameter)
    (hp : p.name = paramName) (h1 : ∀ q ∈ ps1, q.name ≠ paramName) :
    setParamLoop write paramName (ps1 ++ p :: ps2) = some (ps1 ++ write p :: ps2) := by
  induction ps1 with
  | nil => simp [setParamLoop, hp]
  | cons q qs ih =>
    have hq : q.name ≠ paramName := h1 q (List.mem_cons_self _ _)
    have hqs : ∀ r ∈ qs, r.name ≠ paramName := fun r hr => h1 r (List.mem_cons_of_mem _ hr)
    simp [setParamLoop, hq, ih hqs]

/-- The outer update loop changes nothing when no instance with the effect name has a
parameter with the parameter name. -/
theorem setEffectParamLoop_not_found (write : EffectParameter → EffectParameter)
    (effectName paramName : String) (es : List EffectConfig)
    (h : ∀ e ∈ es, e.name = effectName → ∀ q ∈ e.parameters, q.name ≠ paramName) :
    setEffectParamLoop write effectName paramName es = es := by
  induction es with
  | nil => rfl
  | cons e rest ih =>
    have hrest : ∀ x ∈ rest, x.name = effectName → ∀ q ∈ x.parameters, q.name ≠ paramName :=
      fun x hx => h x (List.mem_cons_of_mem _ hx)
    by_cases he : e.name = effectName
    · have hnone := setParamLoop_eq_none write paramName e.parameters
        (h e (List.mem_cons_self _ _) he)
      simp [setEffectParamLoop, he, hnone, ih hrest]
    · simp [setEffectParamLoop, he, ih hrest]

/-- The outer update loop rewrites exactly the first parameter named `paramName` of the
first instance named `effectName` that has one. -/
theorem setEffectParamLoop_located (write : EffectParameter → EffectParameter)
    (effectName paramName : String) (pre : List EffectConfig) (e : EffectConfig)
    (post : List EffectConfig) (ps1 : List EffectParameter) (p : EffectParameter)
    (ps2 : List EffectParameter)
    (he : e.name = effectName) (hpar : e.parameters = ps1 ++ p :: ps2)
    (hp : p.name = paramName) (h1 : ∀ q ∈ ps1, q.name ≠ paramName)
    (h2 : ∀ x ∈ pre, x.name = effectName → ∀ q ∈ x.parameters, q.name ≠ paramName) :
    setEffectParamLoop write effectName paramName (pre ++ e :: post)
      = pre ++ { e with parameters := ps1 ++ write p :: ps2 } :: post := by
  induction pre with
  | nil =>
    have hsome := setParamLoop_located write paramName ps1 p ps2 hp h1
    simp [setEffectParamLoop, he, hpar, hsome]
  | cons x xs ih =>
    have hxs : ∀ y ∈ xs, y.name = effectName → ∀ q ∈ y.parameters, q.name ≠ paramName :=
      fun y hy => h2 y (List.mem_cons_of_mem _ hy)
    by_cases hx : x.name = effectName
    · have hnone := setParamLoop_eq_none write paramName x.parameters
        (h2 x (List.mem_cons_self _ _) hx)
      simp [setEffectParamLoop, hx, hnone, ih hxs]
    · simp [setEffectParamLoop, hx, ih hxs]

/-- The inner lookup loop returns nothing when no parameter has the name. -/
theorem getParamLoop_eq_none (paramName : String) (ps : List EffectParameter)
    (h : ∀ q ∈ ps, q.name ≠ paramName) : getParamLoop paramName ps = none := by
  induction ps with
  | nil => rfl
  | cons q qs ih =>
    have hq : q.name ≠ paramName := h q (List.mem_cons_self _ _)
    have hqs : ∀ r ∈ qs, r.name ≠ paramName := fun r hr => h r (List.mem_cons_of_mem _ hr)
    simp [getParamLoop, hq, ih hqs]

/-- A parameter returned by the inner lookup loop is in the list and has the name. -/
theorem getParamLoop_eq_some (paramName : String) (ps : List EffectParameter)
    (p : EffectParameter) (h : getParamLoop paramName ps = some p) :
    p ∈ ps ∧ p.name = paramName := by
  induction ps with
  | nil => simp [getParamLoop] at h
  | cons q qs ih =>
    by_cases hq : q.name = paramName
    · simp [getParamLoop, hq] at h
      subst h
      exact ⟨List.mem_cons_self _ _, hq⟩
    · simp [getParamLoop, hq] at h
      exact ⟨List.mem_cons_of_mem _ (ih h).1, (ih h).2⟩

/-- The inner lookup loop returns the first parameter that has the name. -/
theorem getParamLoop_located (paramName : String) (ps1 : List EffectParameter)
    (p : EffectParameter) (ps2 : List EffectParameter)
    (hp : p.name = paramName) (h1 : ∀ q ∈ ps1, q.name ≠ paramName) :
    getParamLoop paramName (ps1 ++ p :: ps2) = some p := by
  induction ps1 with
  | nil => simp [getParamLoop, hp]
  | cons q qs ih =>
    have hq : q.name ≠ paramName := h1 q (List.mem_cons_self _ _)
    have hqs : ∀ r ∈ qs, r.name ≠ paramName := fun r hr => h1 r (List.mem_cons_of_mem _ hr)
    simp [getParamLoop, hq, ih hqs]

/-- The outer lookup loop returns the first parameter named `paramName` of the first
instance named `effectName` that has one. -/
theorem getEffectParamLoop_located (effectName paramName : String) (pre : List EffectConfig)
    (e : EffectConfig) (post : List EffectConfig) (ps1 : List EffectParameter)
    (p : EffectParameter) (ps2 : List EffectParameter)
    (he : e.name = effectName) (hpar : e.parameters = ps1 ++ p :: ps2)
    (hp : p.name = paramName) (h1 : ∀ q ∈ ps1, q.name ≠ paramName)
    (h2 : ∀ x ∈ pre, x.name = effectName → ∀ q ∈ x.parameters, q.name ≠ paramName) :
    getEffectParamLoop effectName paramName (pre ++ e :: post) = some p := by
  induction pre with
  | nil =>
    have hsome := getParamLoop_located paramName ps1 p ps2 hp h1
    simp [getEffectParamLoop, he, hpar, hsome]
  | cons x xs ih =>
    have hxs : ∀ y ∈ xs, y.name = effectName → ∀ q ∈ y.parameters, q.name ≠ paramName :=
      fun y hy => h2 y (List.mem_cons_of_mem _ hy)
    by_cases hx : x.name = effectName
    · have hnone := getParamLoop_eq_none paramName x.parameters
        (h2 x (List.mem_cons_self _ _) hx)
      simp [getEffectParamLoop, hx, hnone, ih hxs]
    · simp [getEffectParamLoop, hx, ih hxs]

/-- A parameter returned by the outer lookup loop has the name and sits in an instance with
the effect name. -/
theorem getEffectParamLoop_eq_some (effectName paramName : String) (es : List EffectConfig)
    (p : EffectParameter) (h : getEffectParamLoop effectName paramName es = some p) :
    p.name = paramName ∧ ∃ e ∈ es, e.name = effectName ∧ p ∈ e.parameters := by
  induction es with
  | nil => simp [getEffectParamLoop] at h
  | cons e rest ih =>
    have lift : (p.name = paramName ∧ ∃ x ∈ rest, x.name = effectName ∧ p ∈ x.parameters) →
        p.name = paramName ∧ ∃ x ∈ e :: rest, x.name = effectName ∧ p ∈ x.parameters := by
      rintro ⟨hn, x, hx, hxn, hpx⟩
      exact ⟨hn, x, List.mem_cons_of_mem _ hx, hxn, hpx⟩
    by_cases he : e.name = effectName
    · cases hin : getParamLoop paramName e.parameters with
      | none =>
        simp [getEffectParamLoop, he, hin] at h
        exact lift (ih h)
      | some q =>
        simp [getEffectParamLoop, he, hin] at h
        subst h
        have hq := getParamLoop_eq_some paramName e.parameters q hin
        exact ⟨hq.2, e, List.mem_cons_self _ _, he, hq.1⟩
    · simp [getEffectParamLoop, he] at h
      exact lift (ih h)

/-- The outer lookup loop returns nothing when no instance with the effect name has a
parameter with the parameter name. -/
theorem getEffectParamLoop_eq_none (effectName paramName : String) (es : List EffectConfig)
    (h : ∀ e ∈ es, e.name = effectName → ∀ q ∈ e.parameters, q.name ≠ paramName) :
    getEffectParamLoop effectName paramName es = none := by
  induction es with
  | nil => rfl
  | cons e rest ih =>
    have hrest : ∀ x ∈ rest, x.name = effectName → ∀ q ∈ x.parameters, q.name ≠ paramName :=
      fun x hx => h x (List.mem_cons_of_mem _ hx)
    by_cases he : e.name = effectName
    · have hnone := getParamLoop_eq_none paramName e.parameters
        (h e (List.mem_cons_self _ _) he)
      simp [getEffectParamLoop, he, hnone, ih hrest]
    · simp [getEffectParamLoop, he, ih hrest]

/-- Every overload writes with an assignment that keeps the parameter name, so the
parameter written by an update is the one the lookup finds afterwards. -/
theorem getEffectParamLoop_after_set (write : EffectParameter → EffectParameter)
    (hw : ∀ q, (write q).name = q.name)
    (effectName paramName : String) (pre : List EffectConfig) (e : EffectConfig)
    (post : List EffectConfig) (ps1 : List EffectParameter) (p : EffectParameter)
    (ps2 : List EffectParameter)
    (he : e.name = effectName) (hpar : e.parameters = ps1 ++ p :: ps2)
    (hp : p.name = paramName) (h1 : ∀ q ∈ ps1, q.name ≠ paramName)
    (h2 : ∀ x ∈ pre, x.name = effectName → ∀ q ∈ x.parameters, q.name ≠ paramName) :
    getEffectParamLoop effectName paramName
      (setEffectParamLoop write effectName paramName (pre ++ e :: post)) = some (write p) := by
  rw [setEffectParamLoop_located write effectName paramName pre e post ps1 p ps2 he hpar hp h1 h2]
  exact getEffectParamLoop_located effectName paramName pre
    { e with parameters := ps1 ++ write p :: ps2 } post ps1 (write p) ps2 he rfl
    ((hw p).trans hp) h1 h2

/-- When the inner lookup loop returns nothing, no parameter has the name. -/
theorem getParamLoop_none_imp (paramName : String) (ps : List EffectParameter)
    (h : getParamLoop paramName ps = none) : ∀ q ∈ ps, q.name ≠ paramName := by
  induction ps with
  | nil => intro q hq; cases hq
  | cons r rs ih =>
    by_cases hr : r.name = paramName
    · simp [getParamLoop, hr] at h
    · simp only [getParamLoop, hr, if_false] at h
      intro q hq
      rcases List.mem_cons.mp hq with rfl | hq
      · exact hr
      · exact ih h q hq

/-- When the outer lookup loop returns nothing, no instance with the effect name has a
parameter with the parameter name. -/
theorem getEffectParamLoop_none_imp (effectName paramName : String) (es : List EffectConfig)
    (h : getEffectParamLoop effectName paramName es = none) :
    ∀ e ∈ es, e.name = effectName → ∀ q ∈ e.parameters, q.name ≠ paramName := by
  induction es with
  | nil => intro e he; cases he
  | cons x xs ih =>
    by_cases hx : x.name = effectName
    · cases hin : getParamLoop paramName x.parameters with
      | some r => simp [getEffectParamLoop, hx, hin] at h
      | none =>
        simp only [getEffectParamLoop, hx, hin, if_true] at h
        intro e he hen
        rcases List.mem_cons.mp he with rfl | he
        · exact getParamLoop_none_imp paramName e.parameters hin
        · exact ih h e he hen
    · simp only [getEffectParamLoop, hx, if_false] at h
      intro e he hen
      rcases List.mem_cons.mp he with rfl | he
      · exact absurd hen hx
      · exact ih h e he hen

/-! ## `setParameterValue` and `getParameter` -/

/-- The float overload of `setParameterValue` overwrites `valueFloat` of the first parameter
named `paramName` of the first instance named `effectName` that has one, whatever the kind
of that parameter, and changes nothing else; the lookup then returns the updated
parameter. -/
theorem setParameterValueFloat_located (reg : EffectRegistry) (effectName paramName : String)
    (pre : List EffectConfig) (e : EffectConfig) (post : List EffectConfig)
    (ps1 : List EffectParameter) (p : EffectParameter) (ps2 : List EffectParameter)
    (hreg : reg.effects = pre ++ e :: post) (he : e.name = effectName)
    (hpar : e.parameters = ps1 ++ p :: ps2) (hp : p.name = paramName)
    (h1 : ∀ q ∈ ps1, q.name ≠ paramName)
    (h2 : ∀ x ∈ pre, x.name = effectName → ∀ q ∈ x.parameters, q.name ≠ paramName)
    (v : Rat) :
    setParameterValueFloat reg effectName paramName v =
      { reg with effects :=
          pre ++ { e with parameters := ps1 ++ { p with valueFloat := v } :: ps2 } :: post } ∧
    getParameter (setParameterValueFloat reg effectName paramName v) effectName paramName
      = some { p with valueFloat := v } := by
  constructor
  · simp only [setParameterValueFloat, hreg]
    rw [setEffectParamLoop_located _ effectName paramName pre e post ps1 p ps2 he hpar hp h1 h2]
  · simp only [setParameterValueFloat, getParameter, hreg]
    exact getEffectParamLoop_after_set (fun param => { param with valueFloat := v })
      (fun _ => rfl) effectName paramName pre e post ps1 p ps2 he hpar hp h1 h2

/-- The int overload of `setParameterValue` overwrites `valueInt` of the first parameter
named `paramName` of the first instance named `effectName` that has one, whatever the kind
of that parameter, and changes nothing else; the lookup then returns the updated
parameter. -/
theorem setParameterValueInt_located (reg : EffectRegistry) (effectName paramName : String)
    (pre : List EffectConfig) (e : EffectConfig) (post : List EffectConfig)
    (ps1 : List EffectParameter) (p : EffectParameter) (ps2 : List EffectParameter)
    (hreg : reg.effects = pre ++ e :: post) (he : e.name = effectName)
    (hpar : e.parameters = ps1 ++ p :: ps2) (hp : p.name = paramName)
    (h1 : ∀ q ∈ ps1, q.name ≠ paramName)
    (h2 : ∀ x ∈ pre, x.name = effectName → ∀ q ∈ x.parameters, q.name ≠ paramName)
    (v : Int) :
    setParameterValueInt reg effectName paramName v =
      { reg with effects :=
          pre ++ { e with parameters := ps1 ++ { p with valueInt := v } :: ps2 } :: post } ∧
    getParameter (setParameterValueInt reg effectName paramName v) effectName paramName
      = some { p with valueInt := v } := by
  constructor
  · simp only [setParameterValueInt, hreg]
    rw [setEffectParamLoop_located _ effectName paramName pre e post ps1 p ps2 he hpar hp h1 h2]
  · simp only [setParameterValueInt, getParameter, hreg]
    exact getEffectParamLoop_after_set (fun param => { param with valueInt := v })
      (fun _ => rfl) effectName paramName pre e post ps1 p ps2 he hpar hp h1 h2

/-- The bool overload of `setParameterValue` overwrites `valueBool` of the first parameter
named `paramName` of the first instance named `effectName` that has one, whatever the kind
of that parameter, and changes nothing else; the lookup then returns the updated
parameter. -/
theorem setParameterValueBool_located (reg : EffectRegistry) (effectName paramName : String)
    (pre : List EffectConfig) (e : EffectConfig) (post : List EffectConfig)
    (ps1 : List EffectParameter) (p : EffectParameter) (ps2 : List EffectParameter)
    (hreg : reg.effects = pre ++ e :: post) (he : e.name = effectName)
    (hpar : e.parameters = ps1 ++ p :: ps2) (hp : p.name = paramName)
    (h1 : ∀ q ∈ ps1, q.name ≠ paramName)
    (h2 : ∀ x ∈ pre, x.name = effectName → ∀ q ∈ x.parameters, q.name ≠ paramName)
    (v : Bool) :
    setParameterValueBool reg effectName paramName v =
      { reg with effects :=
          pre ++ { e with parameters := ps1 ++ { p with valueBool := v } :: ps2 } :: post } ∧
    getParameter (setParameterValueBool reg effectName paramName v) effectName paramName
      = some { p with valueBool := v } := by
  constructor
  · simp only [setParameterValueBool, hreg]
    rw [setEffectParamLoop_located _ effectName paramName pre e post ps1 p ps2 he hpar hp h1 h2]
  · simp only [setParameterValueBool, getParameter, hreg]
    exact getEffectParamLoop_after_set (fun param => { param with valueBool := v })
      (fun _ => rfl) effectName paramName pre e post ps1 p ps2 he hpar hp h1 h2

/-- C5: when the parameter found by (effectName, paramName) has kind Float, the float
overload of `setParameterValue` replaces its `valueFloat` by the given value and changes
nothing else (other fields of the parameter, other parameters, other instances, enabled
flags, order, configuration reference), and the lookup then returns the updated parameter;
likewise the integer overload on an Int parameter and the boolean overload on a Bool
parameter. -/
theorem setParameterValue_matching_kind (reg : EffectRegistry) (effectName paramName : String)
    (pre : List EffectConfig) (e : EffectConfig) (post : List EffectConfig)
    (ps1 : List EffectParameter) (p : EffectParameter) (ps2 : List EffectParameter)
    (hreg : reg.effects = pre ++ e :: post) (he : e.name = effectName)
    (hpar : e.parameters = ps1 ++ p :: ps2) (hp : p.name = paramName)
    (h1 : ∀ q ∈ ps1, q.name ≠ paramName)
    (h2 : ∀ x ∈ pre, x.name = effectName → ∀ q ∈ x.parameters, q.name ≠ paramName) :
    (p.type = ParamType.Float → ∀ v : Rat,
      setParameterValueFloat reg effectName paramName v =
        { reg with effects :=
            pre ++ { e with parameters := ps1 ++ { p with valueFloat := v } :: ps2 } :: post } ∧
      getParameter (setParameterValueFloat reg effectName paramName v) effectName paramName
        = some { p with valueFloat := v }) ∧
    (p.type = ParamType.Int → ∀ v : Int,
      setParameterValueInt reg effectName paramName v =
        { reg with effects :=
            pre ++ { e with parameters := ps1 ++ { p with valueInt := v } :: ps2 } :: post } ∧
      getParameter (setParameterValueInt reg effectName paramName v) effectName paramName
        = some { p with valueInt := v }) ∧
    (p.type = ParamType.Bool → ∀ v : Bool,
      setParameterValueBool reg effectName paramName v =
        { reg with effects :=
            pre ++ { e with parameters := ps1 ++ { p with valueBool := v } :: ps2 } :: post } ∧
      getParameter (setParameterValueBool reg effectName paramName v) effectName paramName
        = some { p with valueBool := v }) := by
  exact ⟨fun _ v => setParameterValueFloat_located reg effectName paramName pre e post ps1 p
      ps2 hreg he hpar hp h1 h2 v,
    fun _ v => setParameterValueInt_located reg effectName paramName pre e post ps1 p
      ps2 hreg he hpar hp h1 h2 v,
    fun _ v => setParameterValueBool_located reg effectName paramName pre e post ps1 p
      ps2 hreg he hpar hp h1 h2 v⟩

/-- Witness of C5 on `sampleRegistry`: the float overload on `f`, the integer overload on
`i` and the boolean overload on `b`. -/
theorem setParameterValue_matching_kind_witness :
    (floatParameter.type = ParamType.Float ∧
      setParameterValueFloat sampleRegistry "fx" "f" 3 =
        { sampleRegistry with effects :=
            [lutEffect] ++ { sampleEffect with parameters :=
              [] ++ { floatParameter with valueFloat := 3 }
                :: [intParameter, boolParameter] } :: [] }) ∧
    (intParameter.type = ParamType.Int ∧
      setParameterValueInt sampleRegistry "fx" "i" 7 =
        { sampleRegistry with effects :=
            [lutEffect] ++ { sampleEffect with parameters :=
              [floatParameter] ++ { intParameter with valueInt := 7 }
                :: [boolParameter] } :: [] }) ∧
    (boolParameter.type = ParamType.Bool ∧
      setParameterValueBool sampleRegistry "fx" "b" true =
        { sampleRegistry with effects :=
            [lutEffect] ++ { sampleEffect with parameters :=
              [floatParameter, intParameter] ++ { boolParameter with valueBool := true }
                :: [] } :: [] }) :=
  ⟨⟨rfl, ((setParameterValue_matching_kind sampleRegistry "fx" "f" [lutEffect] sampleEffect []
      [] floatParameter [intParameter, boolParameter] rfl rfl rfl rfl (by simp)
      (by decide)).1 rfl 3).1⟩,
   ⟨rfl, ((setParameterValue_matching_kind sampleRegistry "fx" "i" [lutEffect] sampleEffect []
      [floatParameter] intParameter [boolParameter] rfl rfl rfl rfl (by decide)
      (by decide)).2.1 rfl 7).1⟩,
   ⟨rfl, ((setParameterValue_matching_kind sampleRegistry "fx" "b" [lutEffect] sampleEffect []
      [floatParameter, intParameter] boolParameter [] rfl rfl rfl rfl (by decide)
      (by decide)).2.2 rfl true).1⟩⟩

/-- C6: when no instance is named `effectName`, or the instances named `effectName` have no
parameter named `paramName`, each overload of `setParameterValue` leaves the registry
unchanged. -/
theorem setParameterValue_not_found (reg : EffectRegistry) (effectName paramName : String)
    (h : (∀ e ∈ reg.effects, e.name ≠ effectName) ∨
      (∀ e ∈ reg.effects, e.name = effectName → ∀ q ∈ e.parameters, q.name ≠ paramName)) :
    (∀ v : Rat, setParameterValueFloat reg effectName paramName v = reg) ∧
    (∀ v : Int, setParameterValueInt reg effectName paramName v = reg) ∧
    (∀ v : Bool, setParameterValueBool reg effectName paramName v = reg) := by
  have h' : ∀ e ∈ reg.effects, e.name = effectName →
      ∀ q ∈ e.parameters, q.name ≠ paramName := by
    rcases h with h | h
    · intro e he hn
      exact absurd hn (h e he)
    · exact h
  refine ⟨fun v => ?_, fun v => ?_, fun v => ?_⟩
  · simp only [setParameterValueFloat]
    rw [setEffectParamLoop_not_found _ effectName paramName reg.effects h']
  · simp only [setParameterValueInt]
    rw [setEffectParamLoop_not_found _ effectName paramName reg.effects h']
  · simp only [setParameterValueBool]
    rw [setEffectParamLoop_not_found _ effectName paramName reg.effects h']

/-- Witness of C6: `sampleRegistry` has no instance named `cas`, and its instance `fx` has
no parameter named `gamma`. -/
theorem setParameterValue_not_found_witness :
    ((∀ e ∈ sampleRegistry.effects, e.name ≠ "cas") ∧
      setParameterValueFloat sampleRegistry "cas" "f" 1 = sampleRegistry) ∧
    ((∀ e ∈ sampleRegistry.effects, e.name = "fx" → ∀ q ∈ e.parameters, q.name ≠ "gamma") ∧
      setParameterValueInt sampleRegistry "fx" "gamma" 5 = sampleRegistry) :=
  ⟨⟨by decide,
    (setParameterValue_not_found sampleRegistry "cas" "f" (Or.inl (by decide))).1 1⟩,
   ⟨by decide,
    (setParameterValue_not_found sampleRegistry "fx" "gamma" (Or.inr (by decide))).2.1 5⟩⟩

/-- C7 (as stated, refuted): on `sampleRegistry` the parameter `i` of `fx` has kind Int and
`valueFloat` 0; the float overload of `setParameterValue` applied to it stores 1 into its
`valueFloat`, so the registry is not left unchanged. -/
theorem setParameterValueFloat_writes_int_parameter :
    (getParameter sampleRegistry "fx" "i").map (fun p => p.type) = some ParamType.Int ∧
    (getParameter sampleRegistry "fx" "i").map (fun p => p.valueFloat) = some 0 ∧
    (getParameter (setParameterValueFloat sampleRegistry "fx" "i" 1) "fx" "i").map
      (fun p => p.valueFloat) = some 1 ∧
    setParameterValueFloat sampleRegistry "fx" "i" 1 ≠ sampleRegistry := by
  refine ⟨by decide, by decide, by decide, ?_⟩
  intro h
  have h2 : (setParameterValueFloat sampleRegistry "fx" "i" 1).effects = sampleRegistry.effects :=
    congrArg EffectRegistry.effects h
  revert h2
  decide

/-- C7 (amended): when the parameter found by (effectName, paramName) has a kind other than
the one of the overload used, `setParameterValue` still overwrites the value field of the
overload (`valueFloat`, `valueInt` or `valueBool`) of that parameter; the kind of the
parameter, its two other value fields, its default and bounds, and the rest of the registry
are unchanged. -/
theorem setParameterValue_kind_mismatch (reg : EffectRegistry) (effectName paramName : String)
    (pre : List EffectConfig) (e : EffectConfig) (post : List EffectConfig)
    (ps1 : List EffectParameter) (p : EffectParameter) (ps2 : List EffectParameter)
    (hreg : reg.effects = pre ++ e :: post) (he : e.name = effectName)
    (hpar : e.parameters = ps1 ++ p :: ps2) (hp : p.name = paramName)
    (h1 : ∀ q ∈ ps1, q.name ≠ paramName)
    (h2 : ∀ x ∈ pre, x.name = effectName → ∀ q ∈ x.parameters, q.name ≠ paramName) :
    (p.type ≠ ParamType.Float → ∀ v : Rat,
      setParameterValueFloat reg effectName paramName v =
        { reg with effects :=
            pre ++ { e with parameters := ps1 ++ { p with valueFloat := v } :: ps2 } :: post }) ∧
    (p.type ≠ ParamType.Int → ∀ v : Int,
      setParameterValueInt reg effectName paramName v =
        { reg with effects :=
            pre ++ { e with parameters := ps1 ++ { p with valueInt := v } :: ps2 } :: post }) ∧
    (p.type ≠ ParamType.Bool → ∀ v : Bool,
      setParameterValueBool reg effectName paramName v =
        { reg with effects :=
            pre ++ { e with parameters := ps1 ++ { p with valueBool := v } :: ps2 } :: post }) :=
  ⟨fun _ v => (setParameterValueFloat_located reg effectName paramName pre e post ps1 p
      ps2 hreg he hpar hp h1 h2 v).1,
    fun _ v => (setParameterValueInt_located reg effectName paramName pre e post ps1 p
      ps2 hreg he hpar hp h1 h2 v).1,
    fun _ v => (setParameterValueBool_located reg effectName paramName pre e post ps1 p
      ps2 hreg he hpar hp h1 h2 v).1⟩

/-- Witness of the amended C7 on `sampleRegistry`: the float overload on the Int parameter
`i`, the integer overload on the Bool parameter `b`, the boolean overload on the Float
parameter `f`. -/
theorem setParameterValue_kind_mismatch_witness :
    (intParameter.type ≠ ParamType.Float ∧
      setParameterValueFloat sampleRegistry "fx" "i" 3 =
        { sampleRegistry with effects :=
            [lutEffect] ++ { sampleEffect with parameters :=
              [floatParameter] ++ { intParameter with valueFloat := 3 }
                :: [boolParameter] } :: [] }) ∧
    (boolParameter.type ≠ ParamType.Int ∧
      setParameterValueInt sampleRegistry "fx" "b" 7 =
        { sampleRegistry with effects :=
            [lutEffect] ++ { sampleEffect with parameters :=
              [floatParameter, intParameter] ++ { boolParameter with valueInt := 7 }
                :: [] } :: [] }) ∧
    (floatParameter.type ≠ ParamType.Bool ∧
      setParameterValueBool sampleRegistry "fx" "f" true =
        { sampleRegistry with effects :=
            [lutEffect] ++ { sampleEffect with parameters :=
              [] ++ { floatParameter with valueBool := true }
                :: [intParameter, boolParameter] } :: [] }) :=
  ⟨⟨by decide, (setParameterValue_kind_mismatch sampleRegistry "fx" "i" [lutEffect] sampleEffect
      [] [floatParameter] intParameter [boolParameter] rfl rfl rfl rfl (by decide)
      (by decide)).1 (by decide) 3⟩,
   ⟨by decide, (setParameterValue_kind_mismatch sampleRegistry "fx" "b" [lutEffect] sampleEffect
      [] [floatParameter, intParameter] boolParameter [] rfl rfl rfl rfl (by decide)
      (by decide)).2.1 (by decide) 7⟩,
   ⟨by decide, (setParameterValue_kind_mismatch sampleRegistry "fx" "f" [lutEffect] sampleEffect
      [] [] floatParameter [intParameter, boolParameter] rfl rfl rfl rfl (by simp)
      (by decide)).2.2 (by decide) true⟩⟩

/-- C9: `getParameter` returns a parameter exactly when some instance named `effectName` has
a parameter named `paramName`; a returned parameter has the name `paramName` and is a
parameter of an instance named `effectName`; the non-`const` overload returns the same
parameter and leaves the registry as it was. -/
theorem getParameter_found_iff (reg : EffectRegistry) (effectName paramName : String) :
    ((∃ p, getParameter reg effectName paramName = some p) ↔
      ∃ e ∈ reg.effects, e.name = effectName ∧ ∃ q ∈ e.parameters, q.name = paramName) ∧
    (getParameter reg effectName paramName = none ↔
      ∀ e ∈ reg.effects, e.name = effectName → ∀ q ∈ e.parameters, q.name ≠ paramName) ∧
    (∀ p, getParameter reg effectName paramName = some p →
      p.name = paramName ∧ ∃ e ∈ reg.effects, e.name = effectName ∧ p ∈ e.parameters) ∧
    getParameterMut reg effectName paramName = (getParameter reg effectName paramName, reg) := by
  have hsome : ∀ p, getParameter reg effectName paramName = some p →
      p.name = paramName ∧ ∃ e ∈ reg.effects, e.name = effectName ∧ p ∈ e.parameters :=
    fun p hp => getEffectParamLoop_eq_some effectName paramName reg.effects p hp
  have hnone : getParameter reg effectName paramName = none ↔
      ∀ e ∈ reg.effects, e.name = effectName → ∀ q ∈ e.parameters, q.name ≠ paramName := by
    constructor
    · exact getEffectParamLoop_none_imp effectName paramName reg.effects
    · exact getEffectParamLoop_eq_none effectName paramName reg.effects
  refine ⟨?_, hnone, hsome, rfl⟩
  constructor
  · rintro ⟨p, hp⟩
    obtain ⟨hn, e, he, hen, hmem⟩ := hsome p hp
    exact ⟨e, he, hen, p, hmem, hn⟩
  · rintro ⟨e, he, hen, q, hq, hqn⟩
    cases hget : getParameter reg effectName paramName with
    | some p => exact ⟨p, rfl⟩
    | none => exact absurd hqn (hnone.mp hget e he hen q hq)

/-! ## `setEffectEnabled` -/

/-- The loop of `setEffectEnabled` changes nothing when no instance has the name. -/
theorem setEnabledLoop_not_found (name : String) (b : Bool) (es : List EffectConfig)
    (h : ∀ e ∈ es, e.name ≠ name) : setEnabledLoop name b es = es := by
  induction es with
  | nil => rfl
  | cons e rest ih =>
    have he : e.name ≠ name := h e (List.mem_cons_self _ _)
    have hrest : ∀ x ∈ rest, x.name ≠ name := fun x hx => h x (List.mem_cons_of_mem _ hx)
    simp [setEnabledLoop, he, ih hrest]

/-- The loop of `setEffectEnabled` sets the flag of the first instance with the name. -/
theorem setEnabledLoop_located (name : String) (b : Bool) (pre : List EffectConfig)
    (e : EffectConfig) (post : List EffectConfig) (he : e.name = name)
    (hpre : ∀ x ∈ pre, x.name ≠ name) :
    setEnabledLoop name b (pre ++ e :: post) = pre ++ { e with enabled := b } :: post := by
  induction pre with
  | nil => simp [setEnabledLoop, he]
  | cons x xs ih =>
    have hx : x.name ≠ name := hpre x (List.mem_cons_self _ _)
    have hxs : ∀ y ∈ xs, y.name ≠ name := fun y hy => hpre y (List.mem_cons_of_mem _ hy)
    simp [setEnabledLoop, hx, ih hxs]

/-- A list with an element named `name` splits at the first such element. -/
theorem exists_first_named (name : String) (es : List EffectConfig)
    (h : ∃ e ∈ es, e.name = name) :
    ∃ pre e post, es = pre ++ e :: post ∧ e.name = name ∧ ∀ x ∈ pre, x.name ≠ name := by
  induction es with
  | nil =>
    obtain ⟨e, he, _⟩ := h
    cases he
  | cons x xs ih =>
    by_cases hx : x.name = name
    · exact ⟨[], x, xs, rfl, hx, fun y hy => by cases hy⟩
    · obtain ⟨e, he, hen⟩ := h
      rcases List.mem_cons.mp he with rfl | he
      · exact absurd hen hx
      · obtain ⟨pre, e1, post, hsplit, hn, hpre⟩ := ih ⟨e, he, hen⟩
        refine ⟨x :: pre, e1, post, by simp [hsplit], hn, ?_⟩
        intro y hy
        rcases List.mem_cons.mp hy with rfl | hy
        · exact hx
        · exact hpre y hy

/-- Running the loop of `setEffectEnabled` twice with the same arguments is running it
once. -/
theorem setEnabledLoop_idem (name : String) (b : Bool) (es : List EffectConfig) :
    setEnabledLoop name b (setEnabledLoop name b es) = setEnabledLoop name b es := by
  induction es with
  | nil => rfl
  | cons e rest ih =>
    by_cases he : e.name = name
    · simp [setEnabledLoop, he]
    · simp [setEnabledLoop, he, ih]

/-- C8: `setEffectEnabled(name, b)` leaves the registry unchanged when no instance is named
`name`; otherwise it sets `enabled` of the first instance named `name` to `b` and keeps the
name, kind, source path and parameters of that instance, every other instance, the order and
the length of the list; applying it twice gives the same registry as applying it once. -/
theorem setEffectEnabled_frame (reg : EffectRegistry) (name : String) (b : Bool) :
    ((∀ e ∈ reg.effects, e.name ≠ name) → setEffectEnabled reg name b = reg) ∧
    ((∃ e ∈ reg.effects, e.name = name) →
      ∃ pre e post, reg.effects = pre ++ e :: post ∧ e.name = name ∧
        (∀ x ∈ pre, x.name ≠ name) ∧
        setEffectEnabled reg name b =
          { reg with effects := pre ++ { e with enabled := b } :: post }) ∧
    (setEffectEnabled reg name b).effects.length = reg.effects.length ∧
    (setEffectEnabled reg name b).effects.map (fun e => e.name)
      = reg.effects.map (fun e => e.name) ∧
    setEffectEnabled (setEffectEnabled reg name b) name b = setEffectEnabled reg name b := by
  have hcases : (∀ e ∈ reg.effects, e.name ≠ name) ∨ (∃ e ∈ reg.effects, e.name = name) := by
    by_cases h : ∃ e ∈ reg.effects, e.name = name
    · exact Or.inr h
    · exact Or.inl (fun e he hn => h ⟨e, he, hn⟩)
  have hnot : (∀ e ∈ reg.effects, e.name ≠ name) → setEffectEnabled reg name b = reg := by
    intro h
    simp only [setEffectEnabled, setEnabledLoop_not_found name b reg.effects h]
  have hfound : (∃ e ∈ reg.effects, e.name = name) →
      ∃ pre e post, reg.effects = pre ++ e :: post ∧ e.name = name ∧
        (∀ x ∈ pre, x.name ≠ name) ∧
        setEffectEnabled reg name b =
          { reg with effects := pre ++ { e with enabled := b } :: post } := by
    intro h
    obtain ⟨pre, e, post, hsplit, hn, hpre⟩ := exists_first_named name reg.effects h
    refine ⟨pre, e, post, hsplit, hn, hpre, ?_⟩
    simp only [setEffectEnabled, hsplit, setEnabledLoop_located name b pre e post hn hpre]
  refine ⟨hnot, hfound, ?_, ?_, ?_⟩
  · rcases hcases with h | h
    · rw [hnot h]
    · obtain ⟨pre, e, post, hsplit, _, _, hset⟩ := hfound h
      rw [hset, hsplit]
      simp
  · rcases hcases with h | h
    · rw [hnot h]
    · obtain ⟨pre, e, post, hsplit, _, _, hset⟩ := hfound h
      rw [hset, hsplit]
      simp
  · simp only [setEffectEnabled, setEnabledLoop_idem]

/-- Witness of C8 on `sampleRegistry`: no instance is named `cas`; the instance `lut` is the
first with its name and gets enabled. -/
theorem setEffectEnabled_frame_witness :
    ((∀ e ∈ sampleRegistry.effects, e.name ≠ "cas") ∧
      setEffectEnabled sampleRegistry "cas" true = sampleRegistry) ∧
    ((∃ e ∈ sampleRegistry.effects, e.name = "lut") ∧
      ∃ pre e post, sampleRegistry.effects = pre ++ e :: post ∧ e.name = "lut" ∧
        (∀ x ∈ pre, x.name ≠ "lut") ∧
        setEffectEnabled sampleRegistry "lut" true =
          { sampleRegistry with effects := pre ++ { e with enabled := true } :: post }) :=
  ⟨⟨by decide, (setEffectEnabled_frame sampleRegistry "cas" true).1 (by decide)⟩,
   ⟨by decide, (setEffectEnabled_frame sampleRegistry "lut" true).2.1 (by decide)⟩⟩

/-! ## `initialize` and `ensureEffect` -/

/-- A string that starts with a non-empty string is not empty. -/
theorem append_ne_empty (a b : String) (h : a ≠ "") : a ++ b ≠ "" := by
  intro hab
  apply h
  have hdata := congrArg String.data hab
  simp at hdata
  exact String.ext (by simpa using hdata.1)

/-- A candidate path under a non-empty directory, with the extension, is not empty. -/
theorem fx_path_ne_empty (dir name : String) (h : dir ≠ "") :
    dir ++ "/" ++ name ++ ".fx" ≠ "" :=
  append_ne_empty _ _ (append_ne_empty _ _ (append_ne_empty _ _ h))

/-- A candidate path under a non-empty directory, without extension, is not empty. -/
theorem plain_path_ne_empty (dir name : String) (h : dir ≠ "") : dir ++ "/" ++ name ≠ "" :=
  append_ne_empty _ _ (append_ne_empty _ _ h)

/-- One pass of the loop of `initialize` appends the instance prescribed for the name, or
nothing when there is none. -/
theorem initializeStep_eq (env : Env) (cfg : Config) (reg : EffectRegistry) (name : String)
    (h : reg.pConfig = cfg) :
    initializeStep env cfg reg name
      = { reg with effects := reg.effects ++ (instanceFor env cfg name).toList } := by
  unfold initializeStep instanceFor resolvedPath
  by_cases hb : isBuiltInEffect name = true
  · simp [hb, initBuiltInEffect, builtInInstance, h]
  · by_cases ho : cfg.getOptionString name "" = ""
    · by_cases hd : cfg.getOptionString "reshadeIncludePath" "" = ""
      · simp [hb, ho, hd]
      · by_cases h1 : env.pathExists (cfg.getOptionString "reshadeIncludePath" "" ++ "/"
            ++ name ++ ".fx") = true
        · have hne := fx_path_ne_empty _ name hd
          simp [hb, ho, hd, h1, hne, initReshadeEffect, shaderInstance, h]
        · by_cases h2 : env.pathExists (cfg.getOptionString "reshadeIncludePath" "" ++ "/"
              ++ name) = true
          · have hne := plain_path_ne_empty _ name hd
            simp [hb, ho, hd, h1, h2, hne, initReshadeEffect, shaderInstance, h]
          · simp [hb, ho, hd, h1, h2]
    · by_cases h1 : env.pathExists (cfg.getOptionString name "") = true
      · simp [hb, ho, h1, initReshadeEffect, shaderInstance, h]
      · simp [hb, ho, h1]

/-- The loop of `initialize` appends, in order, the instances prescribed for the names. -/
theorem initialize_foldl_eq (env : Env) (cfg : Config) (names : List String)
    (reg : EffectRegistry) (h : reg.pConfig = cfg) :
    names.foldl (initializeStep env cfg) reg
      = { reg with effects := reg.effects ++ names.filterMap (instanceFor env cfg) } := by
  induction names generalizing reg with
  | nil => simp
  | cons n ns ih =>
    rw [List.foldl_cons, initializeStep_eq env cfg reg n h,
      ih { reg with effects := reg.effects ++ (instanceFor env cfg n).toList } h]
    cases hi : instanceFor env cfg n <;> simp [List.filterMap_cons, hi]

/-- After `initialize` the registry holds the configuration and, in order, the instances
prescribed for the configured names. -/
theorem initializeRegistry_eq (env : Env) (reg : EffectRegistry) (cfg : Config) :
    initializeRegistry env reg cfg
      = { effects := (cfg.getOptionList "effects").filterMap (instanceFor env cfg),
          pConfig := cfg } := by
  unfold initializeRegistry
  rw [initialize_foldl_eq env cfg _ _ rfl]
  simp

/-- The name of a prescribed instance is the configured name. -/
theorem instanceFor_name (env : Env) (cfg : Config) (name : String) (e : EffectConfig)
    (h : instanceFor env cfg name = some e) : e.name = name := by
  unfold instanceFor at h
  by_cases hb : isBuiltInEffect name = true
  · simp [hb] at h
    subst h
    rfl
  · simp [hb] at h
    obtain ⟨path, _, rfl⟩ := h
    rfl

/-- The names of the prescribed instances are the names for which one is prescribed. -/
theorem filterMap_instanceFor_names (env : Env) (cfg : Config) (names : List String) :
    (names.filterMap (instanceFor env cfg)).map (fun e => e.name)
      = names.filter (fun n => (instanceFor env cfg n).isSome) := by
  induction names with
  | nil => rfl
  | cons n ns ih =>
    cases hi : instanceFor env cfg n with
    | none => simp [List.filterMap_cons, List.filter_cons, hi, ih]
    | some e =>
      have hn := instanceFor_name env cfg n e hi
      simp [List.filterMap_cons, List.filter_cons, hi, ih, hn]

/-- An instance is prescribed for a name exactly when the name is built-in or a path
resolves for it. -/
theorem instanceFor_isSome (env : Env) (cfg : Config) (name : String) :
    (instanceFor env cfg name).isSome
      = (isBuiltInEffect name || (resolvedPath env cfg name).isSome) := by
  unfold instanceFor
  cases isBuiltInEffect name <;> simp

/-- In the runs where every existence probe returns, the registry after
`initialize(config)` does not depend on the prior registry state
(it is the one obtained from the empty registry); the names of its instances are the
configured effect names, in configured order, without the names that are not built-in and
for which no existing file path resolves; for the list `cas`, `nonexistent_shader`, where
`nonexistent_shader` resolves to no file, the instance list has length 1 and holds only the
`cas` instance. -/
theorem initialize_instance_names (env : Env) (reg : EffectRegistry) (cfg : Config) :
    (∀ cfg0 : Config,
      initializeRegistry env reg cfg
        = initializeRegistry env { effects := [], pConfig := cfg0 } cfg) ∧
    (initializeRegistry env reg cfg).effects.map (fun e => e.name)
      = (cfg.getOptionList "effects").filter
          (fun n => isBuiltInEffect n || (resolvedPath env cfg n).isSome) ∧
    (cfg.getOptionList "effects" = ["cas", "nonexistent_shader"] →
      resolvedPath env cfg "nonexistent_shader" = none →
      (initializeRegistry env reg cfg).effects = [builtInInstance env cfg "cas"] ∧
      (initializeRegistry env reg cfg).effects.length = 1) := by
  refine ⟨fun cfg0 => ?_, ?_, ?_⟩
  · rw [initializeRegistry_eq, initializeRegistry_eq]
  · rw [initializeRegistry_eq]
    simp only [filterMap_instanceFor_names, instanceFor_isSome]
  · intro hlist hnone
    have hcas : instanceFor env cfg "cas" = some (builtInInstance env cfg "cas") := by
      have hb : isBuiltInEffect "cas" = true := by decide
      simp [instanceFor, hb]
    have hnon : instanceFor env cfg "nonexistent_shader" = none := by
      have hb : isBuiltInEffect "nonexistent_shader" = false := by decide
      simp [instanceFor, hb, hnone]
    rw [initializeRegistry_eq]
    simp [hlist, List.filterMap_cons, hcas, hnon]

/-- With an empty filesystem and the effect list `cas`, `nonexistent_shader`,
re-initialising `sampleRegistry` leaves exactly the `cas` instance. -/
theorem initialize_instance_names_witness :
    casConfig.getOptionList "effects" = ["cas", "nonexistent_shader"] ∧
    resolvedPath emptyEnv casConfig "nonexistent_shader" = none ∧
    (initializeRegistry emptyEnv sampleRegistry casConfig).effects
      = [builtInInstance emptyEnv casConfig "cas"] ∧
    (initializeRegistry emptyEnv sampleRegistry casConfig).effects.length = 1 :=
  ⟨rfl, rfl, (initialize_instance_names emptyEnv sampleRegistry casConfig).2.2 rfl rfl⟩

/-- One pass of the loop of `initialize` on a filesystem where no status query fails returns,
with the registry `initializeStep` computes. -/
theorem initializeStepThrowing_of_no_failure (env : Env) (fails : String → Bool)
    (cfg : Config) (reg : EffectRegistry) (name : String)
    (hfails : ∀ path, fails path = false) :
    initializeStepThrowing env fails cfg reg name
      = InitOutcome.returned (initializeStep env cfg reg name) := by
  unfold initializeStepThrowing initializeStep existsProbe
  by_cases hb : isBuiltInEffect name = true
  · simp [hb]
  · by_cases ho : cfg.getOptionString name "" = ""
    · by_cases hd : cfg.getOptionString "reshadeIncludePath" "" = ""
      · simp [hb, ho, hd]
      · by_cases h1 : env.pathExists (cfg.getOptionString "reshadeIncludePath" "" ++ "/"
            ++ name ++ ".fx") = true
        · have hne := fx_path_ne_empty _ name hd
          simp [hb, ho, hd, h1, hne, hfails]
        · by_cases h2 : env.pathExists (cfg.getOptionString "reshadeIncludePath" "" ++ "/"
              ++ name) = true
          · have hne := plain_path_ne_empty _ name hd
            simp [hb, ho, hd, h1, h2, hne, hfails]
          · have hne := plain_path_ne_empty _ name hd
            simp [hb, ho, hd, h1, h2, hne, hfails]
    · by_cases h1 : env.pathExists (cfg.getOptionString name "") = true
      · simp [hb, ho, h1, hfails]
      · simp [hb, ho, h1, hfails]

/-- The loop of `initialize` on a filesystem where no status query fails returns, with the
registry the loop over `initializeStep` computes. -/
theorem initializeLoopThrowing_of_no_failure (env : Env) (fails : String → Bool)
    (cfg : Config) (names : List String) (reg : EffectRegistry)
    (hfails : ∀ path, fails path = false) :
    initializeLoopThrowing env fails cfg names reg
      = InitOutcome.returned (names.foldl (initializeStep env cfg) reg) := by
  induction names generalizing reg with
  | nil => rfl
  | cons n ns ih =>
    unfold initializeLoopThrowing
    rw [initializeStepThrowing_of_no_failure env fails cfg reg n hfails]
    exact ih (initializeStep env cfg reg n)

/-- On a filesystem where no status query fails, `initialize` returns and leaves the
registry `initializeRegistry` describes. -/
theorem initializeThrowing_of_no_failure (env : Env) (fails : String → Bool)
    (reg : EffectRegistry) (cfg : Config) (hfails : ∀ path, fails path = false) :
    initializeThrowing env fails reg cfg
      = InitOutcome.returned (initializeRegistry env reg cfg) := by
  unfold initializeThrowing initializeRegistry
  exact initializeLoopThrowing_of_no_failure env fails cfg _ _ hfails

/-- Once the body of the loop of `initialize` throws for a name, the loop is left with the
registry as it was before that name, whatever names follow. -/
theorem initializeLoopThrowing_threw (env : Env) (fails : String → Bool) (cfg : Config)
    (name : String) (rest : List String) (reg : EffectRegistry)
    (h : initializeStepThrowing env fails cfg reg name = InitOutcome.threw reg) :
    initializeLoopThrowing env fails cfg (name :: rest) reg = InitOutcome.threw reg := by
  unfold initializeLoopThrowing
  rw [h]

/-- C1 (the code diverges): with the effect list `cas`, `broken`, `dls` and the search
directory `/inc`, on a filesystem where the status query of `/inc/broken.fx` fails, the call
of `initialize` is left by the exception of the probe at line 44: the registry is left with
the `cas` instance alone and `dls` is never processed, where the claim prescribes the
instances `cas`, `dls` (the configured names without `broken`, which is not built-in and
resolves to no existing file). Where the query answers "not found" instead, the call
returns with exactly these two instances. -/
theorem initialize_aborts_on_failing_probe :
    brokenConfig.getOptionList "effects" = ["cas", "broken", "dls"] ∧
    (initializeThrowing emptyEnv brokenProbe sampleRegistry brokenConfig).hasThrown = true ∧
    (initializeThrowing emptyEnv brokenProbe sampleRegistry brokenConfig).registry.effects.map
      (fun e => e.name) = ["cas"] ∧
    (brokenConfig.getOptionList "effects").filter
      (fun n => isBuiltInEffect n || (resolvedPath emptyEnv brokenConfig n).isSome)
      = ["cas", "dls"] ∧
    (initializeThrowing emptyEnv (fun _ => false) sampleRegistry brokenConfig).hasThrown
      = false ∧
    (initializeThrowing emptyEnv (fun _ => false) sampleRegistry
      brokenConfig).registry.effects.map (fun e => e.name) = ["cas", "dls"] := by
  refine ⟨rfl, ?_, ?_, ?_, ?_, ?_⟩ <;> decide

/-- The existence loop answers true exactly when some instance has the name. -/
theorem hasEffectLoop_iff (name : String) (es : List EffectConfig) :
    hasEffectLoop name es = true ↔ ∃ e ∈ es, e.name = name := by
  induction es with
  | nil => simp [hasEffectLoop]
  | cons x xs ih =>
    by_cases hx : x.name = name
    · simp [hasEffectLoop, hx]
    · simp [hasEffectLoop, hx, ih]

/-- After an instance with the name is pushed, the existence loop answers true. -/
theorem hasEffectLoop_push (name : String) (es : List EffectConfig) (c : EffectConfig)
    (hc : c.name = name) : hasEffectLoop name (es ++ [c]) = true :=
  (hasEffectLoop_iff name (es ++ [c])).mpr ⟨c, by simp, hc⟩

/-- The method `ensureEffect` either leaves the registry as it is or pushes one instance
that has the requested name. -/
theorem ensureEffect_cases (env : Env) (reg : EffectRegistry) (name path : String) :
    ensureEffect env reg name path = reg ∨
    ∃ c : EffectConfig, c.name = name ∧
      ensureEffect env reg name path = { reg with effects := reg.effects ++ [c] } := by
  unfold ensureEffect
  by_cases h : hasEffectLoop name reg.effects = true
  · left
    simp [h]
  · by_cases hb : isBuiltInEffect name = true
    · right
      exact ⟨builtInInstance env reg.pConfig name, rfl,
        by simp [h, hb, initBuiltInEffect, builtInInstance]⟩
    · simp only [h, hb, initReshadeEffect]
      split_ifs
      all_goals first
        | exact Or.inl rfl
        | exact Or.inr ⟨_, rfl, rfl⟩

/-- Without an explicit path, on a registry that has no instance with the name,
`ensureEffect` pushes the instance prescribed for the name under the stored configuration,
or nothing when there is none. -/
theorem ensureEffect_no_path (env : Env) (reg : EffectRegistry) (name : String)
    (h : hasEffectLoop name reg.effects = false) :
    ensureEffect env reg name ""
      = { reg with effects := reg.effects ++ (instanceFor env reg.pConfig name).toList } := by
  have hstep : ensureEffect env reg name "" = initializeStep env reg.pConfig reg name := by
    unfold ensureEffect initializeStep
    simp only [h]
    by_cases hb : isBuiltInEffect name = true
    · simp [hb]
    · by_cases ho : reg.pConfig.getOptionString name "" = ""
      · simp [hb, ho]
      · simp [hb, ho]
  rw [hstep, initializeStep_eq env reg.pConfig reg name rfl]

/-- C10: `hasEffect(name)` is true exactly when an instance with that name exists, and then
`ensureEffect(name, path)` leaves the registry unchanged; calling `ensureEffect` twice in
succession with the same arguments gives the same registry as calling it once; from a
registry with no instance named `cas`, two calls of `ensureEffect("cas")` leave exactly one
instance named `cas`. -/
theorem ensureEffect_idempotent (env : Env) (reg : EffectRegistry) (name path : String) :
    (hasEffect reg name = true ↔ ∃ e ∈ reg.effects, e.name = name) ∧
    (hasEffect reg name = true → ensureEffect env reg name path = reg) ∧
    ensureEffect env (ensureEffect env reg name path) name path
      = ensureEffect env reg name path ∧
    (hasEffect reg "cas" = false → ∀ path1 path2 : String,
      ((ensureEffect env (ensureEffect env reg "cas" path1) "cas" path2).effects.filter
        (fun e => e.name = "cas")).length = 1) := by
  have hpresent : ∀ (r : EffectRegistry) (n p : String),
      hasEffectLoop n r.effects = true → ensureEffect env r n p = r := by
    intro r n p h
    simp [ensureEffect, h]
  refine ⟨hasEffectLoop_iff name reg.effects, hpresent reg name path, ?_, ?_⟩
  · rcases ensureEffect_cases env reg name path with h | ⟨c, hc, h⟩
    · rw [h]
      exact h
    · rw [h]
      exact hpresent _ name path (hasEffectLoop_push name reg.effects c hc)
  · intro hno path1 path2
    have hno2 : hasEffectLoop "cas" reg.effects = false := hno
    have hb : isBuiltInEffect "cas" = true := by decide
    have hfirst : ensureEffect env reg "cas" path1
        = { reg with effects := reg.effects ++ [builtInInstance env reg.pConfig "cas"] } := by
      simp [ensureEffect, hno2, hb, initBuiltInEffect, builtInInstance]
    have hnone : ∀ e ∈ reg.effects, e.name ≠ "cas" := by
      intro e he hn
      have htrue := (hasEffectLoop_iff "cas" reg.effects).mpr ⟨e, he, hn⟩
      rw [hno2] at htrue
      cases htrue
    have hfilter : reg.effects.filter (fun e => e.name = "cas") = [] := by
      rw [List.filter_eq_nil_iff]
      intro e he
      simpa using hnone e he
    rw [hfirst, hpresent _ "cas" path2 (hasEffectLoop_push "cas" reg.effects _ rfl)]
    simp [List.filter_append, hfilter, builtInInstance]

/-- Witness of C10 on `sampleRegistry`: it has an instance named `lut`, which `ensureEffect`
leaves alone, and none named `cas`, of which two calls create exactly one. -/
theorem ensureEffect_idempotent_witness :
    (hasEffect sampleRegistry "lut" = true ∧
      ensureEffect emptyEnv sampleRegistry "lut" "" = sampleRegistry) ∧
    (hasEffect sampleRegistry "cas" = false ∧
      ((ensureEffect emptyEnv (ensureEffect emptyEnv sampleRegistry "cas" "") "cas" "").effects.filter
        (fun e => e.name = "cas")).length = 1) :=
  ⟨⟨rfl, (ensureEffect_idempotent emptyEnv sampleRegistry "lut" "").2.1 rfl⟩,
   ⟨rfl, (ensureEffect_idempotent emptyEnv sampleRegistry "cas" "").2.2.2 rfl "" ""⟩⟩

/-! ## `ensureEffect` against `initialize` -/

/-- The instance prescribed for a name depends on the string, float, integer and boolean
views of the configuration only, not on its list view. -/
theorem instanceFor_congr_views (env : Env) (cfg cfg2 : Config) (name : String)
    (hs : cfg2.strings = cfg.strings) (hf : cfg2.floats = cfg.floats)
    (hi : cfg2.ints = cfg.ints) (hb : cfg2.bools = cfg.bools) :
    instanceFor env cfg2 name = instanceFor env cfg name := by
  cases cfg
  cases cfg2
  simp only at hs hf hi hb
  subst hs hf hi hb
  rfl

/-- C11: on a registry with no instance named `name`, `ensureEffect(name)` without an
explicit path appends at the end of the list exactly the instance list that `initialize`
builds for the one-element effect list `[name]` under the same configuration (same string,
float, integer and boolean entries) and filesystem, which has at most one instance and none
when `initialize` skips the name; the existing instances and the configuration reference are
unchanged. -/
theorem ensureEffect_appends_initialize_instance (env : Env) (reg : EffectRegistry)
    (name : String) (cfg : Config) (hno : hasEffect reg name = false)
    (hs : cfg.strings = reg.pConfig.strings) (hf : cfg.floats = reg.pConfig.floats)
    (hi : cfg.ints = reg.pConfig.ints) (hb : cfg.bools = reg.pConfig.bools)
    (hlist : cfg.getOptionList "effects" = [name]) (reg0 : EffectRegistry) :
    ensureEffect env reg name ""
      = { reg with effects := reg.effects ++ (initializeRegistry env reg0 cfg).effects } ∧
    (initializeRegistry env reg0 cfg).effects.length ≤ 1 := by
  have hinit : (initializeRegistry env reg0 cfg).effects
      = (instanceFor env reg.pConfig name).toList := by
    rw [initializeRegistry_eq]
    simp only [hlist, List.filterMap_cons, List.filterMap_nil,
      instanceFor_congr_views env reg.pConfig cfg name hs hf hi hb]
    cases instanceFor env reg.pConfig name <;> rfl
  refine ⟨?_, ?_⟩
  · rw [hinit]
    exact ensureEffect_no_path env reg name hno
  · rw [hinit]
    cases instanceFor env reg.pConfig name <;> simp

/-- Witness of C11: `sampleRegistry` has no instance named `cas`; `ensureEffect("cas")`
appends what `initialize` builds for the effect list `cas`. -/
theorem ensureEffect_appends_initialize_instance_witness :
    hasEffect sampleRegistry "cas" = false ∧
    casOnlyConfig.getOptionList "effects" = ["cas"] ∧
    ensureEffect emptyEnv sampleRegistry "cas" ""
      = { sampleRegistry with effects := sampleRegistry.effects ++
            (initializeRegistry emptyEnv sampleRegistry casOnlyConfig).effects } :=
  ⟨rfl, rfl, (ensureEffect_appends_initialize_instance emptyEnv sampleRegistry "cas"
    casOnlyConfig rfl rfl rfl rfl rfl rfl sampleRegistry).1⟩

/-! ## Uniqueness of instance names -/

/-- The method `ensureEffect` keeps instance names pairwise distinct: it pushes an instance
only after its existence loop found no instance with the name. -/
theorem ensureEffect_preserves_nodup (env : Env) (reg : EffectRegistry) (name path : String)
    (h : (reg.effects.map (fun e => e.name)).Nodup) :
    ((ensureEffect env reg name path).effects.map (fun e => e.name)).Nodup := by
  by_cases hhas : hasEffectLoop name reg.effects = true
  · have hsame : ensureEffect env reg name path = reg := by simp [ensureEffect, hhas]
    rw [hsame]
    exact h
  · rcases ensureEffect_cases env reg name path with hsame | ⟨c, hc, hpush⟩
    · rw [hsame]
      exact h
    · rw [hpush]
      have hnot : name ∉ reg.effects.map (fun e => e.name) := by
        intro hmem
        obtain ⟨e, he, hen⟩ := List.mem_map.mp hmem
        exact hhas ((hasEffectLoop_iff name reg.effects).mpr ⟨e, he, hen⟩)
      simp only [List.map_append, List.map_cons, List.map_nil, hc]
      exact List.Nodup.append h (List.nodup_singleton name)
        (by simpa [List.Disjoint] using hnot)

/-- C12 (the code at the failing input): `initialize` on the empty registry with the effect
list `cas`, `cas` gives a reachable state whose instance list holds two instances named
`cas`, so instance names are not pairwise distinct there. -/
theorem initialize_duplicate_names :
    Reachable emptyEnv (initializeRegistry emptyEnv emptyRegistry dupConfig) ∧
    (initializeRegistry emptyEnv emptyRegistry dupConfig).effects.map (fun e => e.name)
      = ["cas", "cas"] ∧
    ¬ ((initializeRegistry emptyEnv emptyRegistry dupConfig).effects.map
        (fun e => e.name)).Nodup := by
  have hnames : (initializeRegistry emptyEnv emptyRegistry dupConfig).effects.map
      (fun e => e.name) = ["cas", "cas"] := rfl
  refine ⟨Reachable.init emptyRegistry dupConfig (Reachable.empty emptyConfig), hnames, ?_⟩
  rw [hnames]
  decide

/-! ## The extractor -/

/-- A loop that pushes at most one element per pass, started from `acc`, gives `acc`
followed by the pushed elements, in order. -/
theorem foldl_push_option_eq_filterMap {α β : Type} (f : α → Option β)
    (g : List β → α → List β) (hg : ∀ acc x, g acc x = acc ++ (f x).toList) (l : List α)
    (acc : List β) : l.foldl g acc = acc ++ l.filterMap f := by
  induction l generalizing acc with
  | nil => simp
  | cons x xs ih =>
    rw [List.foldl_cons, ih, hg]
    cases hx : f x <;> simp [List.filterMap_cons, hx]

/-- On a file that loads and parses into a module, the extractor returns, in declaration
order, the parameters of the constants its loop body keeps. -/
theorem parseReshadeEffect_eq_filterMap (env : Env) (effectName effectPath : String)
    (cfg : Config) (cs : List FxUniform)
    (h : env.loadModule effectPath (cfg.getOptionString "reshadeIncludePath" "")
      = LoadResult.module cs) :
    parseReshadeEffect env effectName effectPath cfg
      = cs.filterMap (parseSpecConstant env cfg effectName) := by
  unfold parseReshadeEffect
  simp only [h]
  rw [foldl_push_option_eq_filterMap (parseSpecConstant env cfg effectName) _ _ cs []]
  · simp
  · intro acc x
    cases parseSpecConstant env cfg effectName x <;> simp

/-- The loop body keeps a constant exactly when it carries no annotation named `source` and
has a non-empty name. -/
theorem parseSpecConstant_isSome (env : Env) (cfg : Config) (effectName : String)
    (spec : FxUniform) :
    (parseSpecConstant env cfg effectName spec).isSome = keepsConstant spec := by
  unfold parseSpecConstant keepsConstant findAnnotationNamed
  cases hsrc : spec.annotations.find? (fun a => a.name == "source") with
  | some a =>
    have hany : spec.annotations.any (fun a => a.name == "source") = true := by
      rw [List.any_eq_true]
      exact ⟨a, List.mem_of_find?_eq_some hsrc,
        @List.find?_some _ (fun b : FxAnnotation => b.name == "source") a _ hsrc⟩
    simp [hany]
  | none =>
    have hany : spec.annotations.any (fun a => a.name == "source") = false := by
      rw [List.any_eq_false]
      intro a ha
      exact List.find?_eq_none.mp hsrc a ha
    by_cases hname : spec.name = ""
    · simp [hany, hname]
    · simp [hany, hname]

/-- A parameter the loop body produces is the outcome of the type-dependent block applied to
a default parameter carrying the effect name, the name and the label, except that `step`,
`uiType` and `items` are then taken from the first `ui_step`, `ui_type` and `ui_items`
annotations when present. -/
theorem parseSpecConstant_eq_some (env : Env) (cfg : Config) (effectName : String)
    (spec : FxUniform) (p : EffectParameter)
    (h : parseSpecConstant env cfg effectName spec = some p) :
    ∃ q : EffectParameter,
      q = classifySpecConstant cfg spec (decide (cfg.getOptionString spec.name "" ≠ ""))
        { env.defaultParameter with
          effectName := effectName, name := spec.name,
          label := match findAnnotationNamed spec.annotations "ui_label" with
            | some a => a.value.string_data
            | none => spec.name } ∧
      p = { q with
        step := match findAnnotationNamed spec.annotations "ui_step" with
          | some a => annotationAsFloat a
          | none => q.step,
        uiType := match findAnnotationNamed spec.annotations "ui_type" with
          | some a => a.value.string_data
          | none => q.uiType,
        items := match findAnnotationNamed spec.annotations "ui_items" with
          | some a => splitItems a.value.string_data q.items
          | none => q.items } := by
  unfold parseSpecConstant at h
  by_cases hsrc : (findAnnotationNamed spec.annotations "source").isSome = true
  · simp [hsrc] at h
  · by_cases hname : spec.name = ""
    · simp [hsrc, hname] at h
    · rw [if_neg hsrc, if_neg hname] at h
      have hp := Option.some.inj h
      subst hp
      refine ⟨_, rfl, ?_⟩
      generalize classifySpecConstant cfg spec _ _ = q
      cases findAnnotationNamed spec.annotations "ui_step" <;>
        cases findAnnotationNamed spec.annotations "ui_type" <;>
        cases findAnnotationNamed spec.annotations "ui_items" <;> rfl

/-- The elements kept by a filter correspond, in order, to the elements produced by a
partial map that is defined exactly on the kept elements. -/
theorem forall₂_filter_filterMap {α β : Type} (f : α → Option β) (keep : α → Bool)
    (R : α → β → Prop) (hsome : ∀ x, (f x).isSome = keep x)
    (hR : ∀ x y, f x = some y → R x y) (l : List α) :
    List.Forall₂ R (l.filter keep) (l.filterMap f) := by
  induction l with
  | nil => exact List.Forall₂.nil
  | cons x xs ih =>
    cases hx : f x with
    | none =>
      have hk : keep x = false := by rw [← hsome x, hx]; rfl
      simpa [List.filterMap_cons, List.filter_cons, hx, hk] using ih
    | some y =>
      have hk : keep x = true := by rw [← hsome x, hx]; rfl
      simpa [List.filterMap_cons, List.filter_cons, hx, hk] using
        List.Forall₂.cons (hR x y hx) ih

/-- A property of the parameter produced from each kept constant holds, constant by
constant and in declaration order, between the kept constants of the module and the list
the extractor returns. -/
theorem parseReshadeEffect_forall₂ (env : Env) (effectName effectPath : String)
    (cfg : Config) (cs : List FxUniform) (R : FxUniform → EffectParameter → Prop)
    (h : env.loadModule effectPath (cfg.getOptionString "reshadeIncludePath" "")
      = LoadResult.module cs)
    (hR : ∀ spec p, parseSpecConstant env cfg effectName spec = some p → R spec p) :
    List.Forall₂ R (cs.filter keepsConstant)
      (parseReshadeEffect env effectName effectPath cfg) := by
  rw [parseReshadeEffect_eq_filterMap env effectName effectPath cfg cs h]
  exact forall₂_filter_filterMap _ keepsConstant R
    (parseSpecConstant_isSome env cfg effectName) hR cs

/-- Two lists in correspondence through a relation that forces two projections to agree
have the same projections. -/
theorem map_eq_of_forall₂ {α β γ : Type} (R : α → β → Prop) (k : α → γ) (g : β → γ)
    (hR : ∀ x y, R x y → g y = k x) (l1 : List α) (l2 : List β)
    (h : List.Forall₂ R l1 l2) : l2.map g = l1.map k := by
  induction h with
  | nil => rfl
  | cons hxy _ ih => simp [hR _ _ hxy, ih]

/-- The type-dependent block leaves the effect name, the name, the label, the step, the
interface type and the items alone. -/
theorem classifySpecConstant_frame (cfg : Config) (spec : FxUniform) (hasConfig : Bool)
    (p : EffectParameter) :
    (classifySpecConstant cfg spec hasConfig p).effectName = p.effectName ∧
    (classifySpecConstant cfg spec hasConfig p).name = p.name ∧
    (classifySpecConstant cfg spec hasConfig p).label = p.label ∧
    (classifySpecConstant cfg spec hasConfig p).step = p.step ∧
    (classifySpecConstant cfg spec hasConfig p).uiType = p.uiType ∧
    (classifySpecConstant cfg spec hasConfig p).items = p.items := by
  unfold classifySpecConstant
  cases findAnnotationNamed spec.annotations "ui_min" <;>
    cases findAnnotationNamed spec.annotations "ui_max" <;>
    cases spec.type.is_floating_point <;> cases spec.type.is_integral <;>
    cases spec.type.is_boolean <;> exact ⟨rfl, rfl, rfl, rfl, rfl, rfl⟩

/-- The effect name, the name and the label of a parameter the loop body produces. -/
theorem parseSpecConstant_names (env : Env) (cfg : Config) (effectName : String)
    (spec : FxUniform) (p : EffectParameter)
    (h : parseSpecConstant env cfg effectName spec = some p) :
    p.effectName = effectName ∧ p.name = spec.name ∧ p.label = labelOf spec := by
  obtain ⟨q, hq, hp⟩ := parseSpecConstant_eq_some env cfg effectName spec p h
  have hc := classifySpecConstant_frame cfg spec
    (decide (cfg.getOptionString spec.name "" ≠ ""))
    { env.defaultParameter with
      effectName := effectName, name := spec.name,
      label := match findAnnotationNamed spec.annotations "ui_label" with
        | some a => a.value.string_data
        | none => spec.name }
  rw [← hq] at hc
  subst hp
  refine ⟨hc.1, hc.2.1, ?_⟩
  show q.label = labelOf spec
  rw [hc.2.2.1]
  unfold labelOf findAnnotationNamed
  cases spec.annotations.find? (fun a => a.name == "ui_label") <;> rfl

/-- C16: for a file that lowers to a module with declared constants `cs`, the names of the
parameters the extractor returns are the names of the constants of `cs`, in declaration
order, that carry no annotation named `source` and have a non-empty name, one parameter
per such constant. -/
theorem extractor_parameter_names (env : Env) (effectName effectPath : String)
    (cfg : Config) (cs : List FxUniform)
    (h : env.loadModule effectPath (cfg.getOptionString "reshadeIncludePath" "")
      = LoadResult.module cs) :
    (parseReshadeEffect env effectName effectPath cfg).map (fun p => p.name)
      = (cs.filter
          (fun spec => !(spec.annotations.any (fun a => a.name == "source"))
            && spec.name != "")).map (fun spec => spec.name) ∧
    (parseReshadeEffect env effectName effectPath cfg).length
      = (cs.filter
          (fun spec => !(spec.annotations.any (fun a => a.name == "source"))
            && spec.name != "")).length := by
  have hcorr := parseReshadeEffect_forall₂ env effectName effectPath cfg cs
    (fun spec p => p.name = spec.name) h
    (fun spec p hp => (parseSpecConstant_names env cfg effectName spec p hp).2.1)
  have hkeep : (fun spec : FxUniform =>
      !(spec.annotations.any (fun a => a.name == "source")) && spec.name != "")
      = keepsConstant := rfl
  rw [hkeep]
  exact ⟨map_eq_of_forall₂ (fun (spec : FxUniform) (p : EffectParameter) => p.name = spec.name)
      (fun spec => spec.name) (fun p => p.name) (fun _ _ hxy => hxy) _ _ hcorr,
    hcorr.length_eq.symm⟩

/-- Witness of C16: the module with the one float uniform annotated `ui_min=0`,
`ui_max=10`, `ui_label="Foo"` yields exactly one parameter, named after the uniform; the
same uniform additionally annotated `source="frametime"` yields none. -/
theorem extractor_parameter_names_witness :
    (fooModuleEnv.loadModule "/inc/foo.fx" (emptyConfig.getOptionString "reshadeIncludePath" "")
        = LoadResult.module [fooUniform] ∧
      (parseReshadeEffect fooModuleEnv "foo" "/inc/foo.fx" emptyConfig).map (fun p => p.name)
        = ["Strength"] ∧
      (parseReshadeEffect fooModuleEnv "foo" "/inc/foo.fx" emptyConfig).length = 1) ∧
    (frametimeModuleEnv.loadModule "/inc/foo.fx"
        (emptyConfig.getOptionString "reshadeIncludePath" "")
        = LoadResult.module [frametimeUniform] ∧
      (parseReshadeEffect frametimeModuleEnv "foo" "/inc/foo.fx" emptyConfig).length = 0) :=
  ⟨⟨rfl, extractor_parameter_names fooModuleEnv "foo" "/inc/foo.fx" emptyConfig
      [fooUniform] rfl⟩,
   ⟨rfl, (extractor_parameter_names frametimeModuleEnv "foo" "/inc/foo.fx" emptyConfig
      [frametimeUniform] rfl).2⟩⟩

/-- C17: for a file that lowers to a module, each parameter the extractor returns
corresponds to a kept constant, in declaration order, and has as effect name the effect
identifier passed to the extractor, as name the name of the constant, and as label the
string value of the first `ui_label` annotation of the constant when there is one and the
name of the constant otherwise. -/
theorem extractor_identity_and_label (env : Env) (effectName effectPath : String)
    (cfg : Config) (cs : List FxUniform)
    (h : env.loadModule effectPath (cfg.getOptionString "reshadeIncludePath" "")
      = LoadResult.module cs) :
    List.Forall₂
      (fun spec p =>
        p.effectName = effectName ∧ p.name = spec.name ∧
        p.label = match spec.annotations.find? (fun a => a.name == "ui_label") with
          | some a => a.value.string_data
          | none => spec.name)
      (cs.filter keepsConstant) (parseReshadeEffect env effectName effectPath cfg) :=
  parseReshadeEffect_forall₂ env effectName effectPath cfg cs _ h
    (fun spec p hp => parseSpecConstant_names env cfg effectName spec p hp)

/-- Witness of C17: the parameter extracted for effect `foo` from the uniform `Strength`
labelled `Foo`. -/
theorem extractor_identity_and_label_witness :
    fooModuleEnv.loadModule "/inc/foo.fx" (emptyConfig.getOptionString "reshadeIncludePath" "")
      = LoadResult.module [fooUniform] ∧
    List.Forall₂
      (fun spec p =>
        p.effectName = "foo" ∧ p.name = spec.name ∧
        p.label = match spec.annotations.find? (fun a => a.name == "ui_label") with
          | some a => a.value.string_data
          | none => spec.name)
      [fooUniform] (parseReshadeEffect fooModuleEnv "foo" "/inc/foo.fx" emptyConfig) ∧
    (parseReshadeEffect fooModuleEnv "foo" "/inc/foo.fx" emptyConfig).map
      (fun p => (p.effectName, p.name, p.label)) = [("foo", "Strength", "Foo")] :=
  ⟨rfl, extractor_identity_and_label fooModuleEnv "foo" "/inc/foo.fx" emptyConfig
    [fooUniform] rfl, by decide⟩

/-- The type-dependent block on a floating-point constant: kind Float, default from the
float view of the initializer, value from the configuration when `hasConfig`, bounds from
the first `ui_min` and `ui_max` annotations when present. -/
theorem classifySpecConstant_float (cfg : Config) (spec : FxUniform) (hasConfig : Bool)
    (p : EffectParameter) (hf : spec.type.is_floating_point = true) :
    (classifySpecConstant cfg spec hasConfig p).type = ParamType.Float ∧
    (classifySpecConstant cfg spec hasConfig p).defaultFloat
      = spec.initializer_value.as_float ∧
    (classifySpecConstant cfg spec hasConfig p).valueFloat
      = (if hasConfig then cfg.getOptionFloat spec.name 0
          else spec.initializer_value.as_float) ∧
    (classifySpecConstant cfg spec hasConfig p).minFloat
      = (match findAnnotationNamed spec.annotations "ui_min" with
          | some a => annotationAsFloat a
          | none => p.minFloat) ∧
    (classifySpecConstant cfg spec hasConfig p).maxFloat
      = (match findAnnotationNamed spec.annotations "ui_max" with
          | some a => annotationAsFloat a
          | none => p.maxFloat) := by
  unfold classifySpecConstant
  simp only [hf, if_true]
  cases findAnnotationNamed spec.annotations "ui_min" <;>
    cases findAnnotationNamed spec.annotations "ui_max" <;>
    exact ⟨rfl, rfl, rfl, rfl, rfl⟩

/-- The type-dependent block on an integral boolean constant: kind Bool, default true
exactly when the unsigned view of the initializer is not zero, value from the configuration
when `hasConfig`. -/
theorem classifySpecConstant_bool (cfg : Config) (spec : FxUniform) (hasConfig : Bool)
    (p : EffectParameter) (hf : spec.type.is_floating_point = false)
    (hi : spec.type.is_integral = true) (hb : spec.type.is_boolean = true) :
    (classifySpecConstant cfg spec hasConfig p).type = ParamType.Bool ∧
    (classifySpecConstant cfg spec hasConfig p).defaultBool
      = decide (spec.initializer_value.as_uint ≠ 0) ∧
    (classifySpecConstant cfg spec hasConfig p).valueBool
      = (if hasConfig then cfg.getOptionBool spec.name false
          else decide (spec.initializer_value.as_uint ≠ 0)) := by
  unfold classifySpecConstant
  simp only [hf, hi, hb, if_true]
  exact ⟨rfl, rfl, rfl⟩

/-- The type-dependent block on an integral constant that is not boolean: kind Int, default
from the integer view of the initializer, value from the configuration when `hasConfig`,
bounds from the first `ui_min` and `ui_max` annotations when present. -/
theorem classifySpecConstant_int (cfg : Config) (spec : FxUniform) (hasConfig : Bool)
    (p : EffectParameter) (hf : spec.type.is_floating_point = false)
    (hi : spec.type.is_integral = true) (hb : spec.type.is_boolean = false) :
    (classifySpecConstant cfg spec hasConfig p).type = ParamType.Int ∧
    (classifySpecConstant cfg spec hasConfig p).defaultInt
      = spec.initializer_value.as_int ∧
    (classifySpecConstant cfg spec hasConfig p).valueInt
      = (if hasConfig then cfg.getOptionInt spec.name 0
          else spec.initializer_value.as_int) ∧
    (classifySpecConstant cfg spec hasConfig p).minInt
      = (match findAnnotationNamed spec.annotations "ui_min" with
          | some a => annotationAsInt a
          | none => p.minInt) ∧
    (classifySpecConstant cfg spec hasConfig p).maxInt
      = (match findAnnotationNamed spec.annotations "ui_max" with
          | some a => annotationAsInt a
          | none => p.maxInt) := by
  unfold classifySpecConstant
  simp only [hf, hi, hb, if_true]
  cases findAnnotationNamed spec.annotations "ui_min" <;>
    cases findAnnotationNamed spec.annotations "ui_max" <;>
    exact ⟨rfl, rfl, rfl, rfl, rfl⟩

/-- The kind and the default of a parameter the loop body produces, by scalar type. -/
theorem parseSpecConstant_kind (env : Env) (cfg : Config) (effectName : String)
    (spec : FxUniform) (p : EffectParameter)
    (h : parseSpecConstant env cfg effectName spec = some p) :
    (spec.type.is_floating_point = true →
      p.type = ParamType.Float ∧ p.defaultFloat = spec.initializer_value.as_float) ∧
    (spec.type.is_floating_point = false → spec.type.is_integral = true →
      spec.type.is_boolean = true →
      p.type = ParamType.Bool ∧ (p.defaultBool = true ↔ spec.initializer_value.as_uint ≠ 0)) ∧
    (spec.type.is_floating_point = false → spec.type.is_integral = true →
      spec.type.is_boolean = false →
      p.type = ParamType.Int ∧ p.defaultInt = spec.initializer_value.as_int) := by
  obtain ⟨q, hq, hp⟩ := parseSpecConstant_eq_some env cfg effectName spec p h
  subst hp
  subst hq
  refine ⟨fun hf => ?_, fun hf hi hb => ?_, fun hf hi hb => ?_⟩
  · exact ⟨(classifySpecConstant_float cfg spec _ _ hf).1,
      (classifySpecConstant_float cfg spec _ _ hf).2.1⟩
  · refine ⟨(classifySpecConstant_bool cfg spec _ _ hf hi hb).1, ?_⟩
    have hd := (classifySpecConstant_bool cfg spec
      (decide (cfg.getOptionString spec.name "" ≠ ""))
      { env.defaultParameter with
        effectName := effectName, name := spec.name,
        label := match findAnnotationNamed spec.annotations "ui_label" with
          | some a => a.value.string_data
          | none => spec.name } hf hi hb).2.1
    constructor
    · intro htrue
      have hdec : decide (spec.initializer_value.as_uint ≠ 0) = true := hd.symm.trans htrue
      exact of_decide_eq_true hdec
    · intro hne
      exact hd.trans (decide_eq_true hne)
  · exact ⟨(classifySpecConstant_int cfg spec _ _ hf hi hb).1,
      (classifySpecConstant_int cfg spec _ _ hf hi hb).2.1⟩

/-- C18: for a file that lowers to a module, the parameter produced from each kept constant
has kind Float and default the first float component of the initializer when the scalar
type is floating-point; kind Bool and default true exactly when the first component of the
initializer is non-zero when the type is integral and boolean; kind Int and default the
first integer component of the initializer when the type is integral and not boolean. -/
theorem extractor_kind_and_default (env : Env) (effectName effectPath : String)
    (cfg : Config) (cs : List FxUniform)
    (h : env.loadModule effectPath (cfg.getOptionString "reshadeIncludePath" "")
      = LoadResult.module cs) :
    List.Forall₂
      (fun spec p =>
        (spec.type.is_floating_point = true →
          p.type = ParamType.Float ∧ p.defaultFloat = spec.initializer_value.as_float) ∧
        (spec.type.is_floating_point = false → spec.type.is_integral = true →
          spec.type.is_boolean = true →
          p.type = ParamType.Bool ∧
          (p.defaultBool = true ↔ spec.initializer_value.as_uint ≠ 0)) ∧
        (spec.type.is_floating_point = false → spec.type.is_integral = true →
          spec.type.is_boolean = false →
          p.type = ParamType.Int ∧ p.defaultInt = spec.initializer_value.as_int))
      (cs.filter keepsConstant) (parseReshadeEffect env effectName effectPath cfg) :=
  parseReshadeEffect_forall₂ env effectName effectPath cfg cs _ h
    (fun spec p hp => parseSpecConstant_kind env cfg effectName spec p hp)

/-- Witness of C18: a module with a float, a boolean and an integer uniform gives
parameters of kind Float, Bool and Int with the defaults of the initialisers. -/
theorem extractor_kind_and_default_witness :
    mixedModuleEnv.loadModule "/inc/mix.fx"
        (emptyConfig.getOptionString "reshadeIncludePath" "")
      = LoadResult.module [fooUniform, toggleUniform, countUniform] ∧
    List.Forall₂
      (fun spec p =>
        (spec.type.is_floating_point = true →
          p.type = ParamType.Float ∧ p.defaultFloat = spec.initializer_value.as_float) ∧
        (spec.type.is_floating_point = false → spec.type.is_integral = true →
          spec.type.is_boolean = true →
          p.type = ParamType.Bool ∧
          (p.defaultBool = true ↔ spec.initializer_value.as_uint ≠ 0)) ∧
        (spec.type.is_floating_point = false → spec.type.is_integral = true →
          spec.type.is_boolean = false →
          p.type = ParamType.Int ∧ p.defaultInt = spec.initializer_value.as_int))
      [fooUniform, toggleUniform, countUniform]
      (parseReshadeEffect mixedModuleEnv "mix" "/inc/mix.fx" emptyConfig) ∧
    (parseReshadeEffect mixedModuleEnv "mix" "/inc/mix.fx" emptyConfig).map
      (fun p => (p.type, p.defaultFloat, p.defaultBool, p.defaultInt))
      = [(ParamType.Float, 5, false, 0), (ParamType.Bool, 0, true, 0),
         (ParamType.Int, 0, false, 4)] :=
  ⟨rfl, extractor_kind_and_default mixedModuleEnv "mix" "/inc/mix.fx" emptyConfig
    [fooUniform, toggleUniform, countUniform] rfl, by decide⟩

/-- A magnitude below `2 ^ 24` fits the significand: no bit is lost. -/
theorem floatShift_small (fuel m : Nat) (h : m < 2 ^ 24) : floatShift fuel m = 0 := by
  cases fuel with
  | zero => rfl
  | succ k =>
    unfold floatShift
    rw [if_pos h]

/-- The cast `(float)` is exact on every integer of magnitude at most `2 ^ 24`. -/
theorem intToFloat_exact (n : Int) (h : n.natAbs ≤ 2 ^ 24) : intToFloat n = n := by
  rcases Nat.lt_or_ge n.natAbs (2 ^ 24) with hlt | hge
  · unfold intToFloat
    simp only [floatShift_small _ _ hlt, pow_zero, Nat.mod_one, Nat.div_one, mul_zero,
      Nat.mul_one]
    have hif : ¬ (1 < 0 ∨ (0 = 1 ∧ n.natAbs % 2 = 1)) := by omega
    rw [if_neg hif, Int.sign_mul_natAbs]
  · have heq : n.natAbs = 2 ^ 24 := le_antisymm h hge
    rcases Int.natAbs_eq n with hn | hn
    · rw [hn, heq]; rfl
    · rw [hn, heq]; rfl

/-- The step of a parameter the loop body produces. -/
theorem parseSpecConstant_step (env : Env) (cfg : Config) (effectName : String)
    (spec : FxUniform) (p : EffectParameter)
    (h : parseSpecConstant env cfg effectName spec = some p) :
    ∀ a, spec.annotations.find? (fun a => a.name == "ui_step") = some a →
      p.step = if a.type.is_floating_point then a.value.as_float
        else intToFloat a.value.as_int := by
  obtain ⟨q, _, hp⟩ := parseSpecConstant_eq_some env cfg effectName spec p h
  subst hp
  intro a ha
  have hfind : findAnnotationNamed spec.annotations "ui_step" = some a := ha
  show (match findAnnotationNamed spec.annotations "ui_step" with
    | some a => annotationAsFloat a
    | none => q.step) = _
  rw [hfind]
  rfl

/-- C20 (as stated, refuted): the integer uniform `Count` annotated `ui_step=0.5` gives a
parameter of kind Int whose step is 1/2, which is not an integer. -/
theorem extractor_step_of_int_parameter :
    (parseReshadeEffect mixedModuleEnv "mix" "/inc/mix.fx" emptyConfig).filterMap
      (fun p => if p.name = "Count" then some (p.type, p.step) else none)
      = [(ParamType.Int, 1 / 2)] ∧
    ¬ ∃ n : Int, (n : Rat) = 1 / 2 := by
  constructor
  · rfl
  · rintro ⟨n, hn⟩
    have hden := congrArg Rat.den hn
    rw [Rat.den_intCast] at hden
    norm_num at hden

/-- C20 (amended): for a file that lowers to a module, the parameter produced from each
kept constant that carries a `ui_step` annotation has as step the value of the first such
annotation as a floating-point number, whatever the kind of the parameter: the float value
when the annotation was authored as a float literal, the integer value converted to float
by the cast `(float)` otherwise, which is the integer itself whenever its magnitude is at
most `2 ^ 24`. -/
theorem extractor_step (env : Env) (effectName effectPath : String)
    (cfg : Config) (cs : List FxUniform)
    (h : env.loadModule effectPath (cfg.getOptionString "reshadeIncludePath" "")
      = LoadResult.module cs) :
    List.Forall₂
      (fun spec p =>
        ∀ a, spec.annotations.find? (fun a => a.name == "ui_step") = some a →
          p.step = if a.type.is_floating_point then a.value.as_float
            else intToFloat a.value.as_int)
      (cs.filter keepsConstant) (parseReshadeEffect env effectName effectPath cfg) ∧
    (∀ n : Int, n.natAbs ≤ 2 ^ 24 → intToFloat n = n) :=
  ⟨parseReshadeEffect_forall₂ env effectName effectPath cfg cs _ h
    (fun spec p hp => parseSpecConstant_step env cfg effectName spec p hp),
   intToFloat_exact⟩

/-- Witness of the amended C20 on the module declaring `fooUniform`, `toggleUniform` and
`countUniform`. -/
theorem extractor_step_witness :
    mixedModuleEnv.loadModule "/inc/mix.fx"
        (emptyConfig.getOptionString "reshadeIncludePath" "")
      = LoadResult.module [fooUniform, toggleUniform, countUniform] ∧
    List.Forall₂
      (fun spec p =>
        ∀ a, spec.annotations.find? (fun a => a.name == "ui_step") = some a →
          p.step = if a.type.is_floating_point then a.value.as_float
            else intToFloat a.value.as_int)
      [fooUniform, toggleUniform, countUniform]
      (parseReshadeEffect mixedModuleEnv "mix" "/inc/mix.fx" emptyConfig) ∧
    (∀ n : Int, n.natAbs ≤ 2 ^ 24 → intToFloat n = n) :=
  ⟨rfl, extractor_step mixedModuleEnv "mix" "/inc/mix.fx" emptyConfig
    [fooUniform, toggleUniform, countUniform] rfl⟩

/-! ## The built-in catalog -/

/-- The parameter names of every branch of `initBuiltInEffect` are pairwise distinct. -/
theorem builtInParameters_names_nodup (env : Env) (cfg : Config) (name : String) :
    ((builtInParameters env cfg name).map (fun p => p.name)).Nodup := by
  unfold builtInParameters
  split_ifs <;> simp [builtInFloat, builtInInt]

/-- C13 (as stated, refuted): a module that declares two kept constants with the same name
gives, through the extractor, an instance with two parameters of the same name. -/
theorem extractor_duplicate_parameter_names :
    (parseReshadeEffect dupModuleEnv "dup" "/inc/dup.fx" emptyConfig).map (fun p => p.name)
      = ["Strength", "Strength"] ∧
    (initReshadeEffect dupModuleEnv emptyRegistry "dup" "/inc/dup.fx").effects.map
      (fun e => (e.name, e.parameters.map (fun p => p.name)))
      = [("dup", ["Strength", "Strength"])] ∧
    ¬ ((parseReshadeEffect dupModuleEnv "dup" "/inc/dup.fx" emptyConfig).map
        (fun p => p.name)).Nodup := by
  have hnames : (parseReshadeEffect dupModuleEnv "dup" "/inc/dup.fx" emptyConfig).map
      (fun p => p.name) = ["Strength", "Strength"] := by decide
  refine ⟨hnames, by decide, ?_⟩
  rw [hnames]
  decide

/-- C13 (amended): the parameters of every built-in instance (cas, dls, fxaa, smaa, deband,
lut) have pairwise distinct names; the parameters the extractor returns for a module have
pairwise distinct names whenever the kept constants of the module (no `source` annotation,
non-empty name) have pairwise distinct names. -/
theorem parameter_names_distinct (env : Env) (cfg : Config) :
    (∀ name : String, ((builtInParameters env cfg name).map (fun p => p.name)).Nodup) ∧
    (∀ (effectName effectPath : String) (cs : List FxUniform),
      env.loadModule effectPath (cfg.getOptionString "reshadeIncludePath" "")
        = LoadResult.module cs →
      ((cs.filter keepsConstant).map (fun spec => spec.name)).Nodup →
      ((parseReshadeEffect env effectName effectPath cfg).map (fun p => p.name)).Nodup) := by
  refine ⟨builtInParameters_names_nodup env cfg, ?_⟩
  intro effectName effectPath cs h hnodup
  have hcorr := parseReshadeEffect_forall₂ env effectName effectPath cfg cs
    (fun spec p => p.name = spec.name) h
    (fun spec p hp => (parseSpecConstant_names env cfg effectName spec p hp).2.1)
  rw [map_eq_of_forall₂ (fun (spec : FxUniform) (p : EffectParameter) => p.name = spec.name)
    (fun spec => spec.name) (fun p => p.name) (fun _ _ hxy => hxy) _ _ hcorr]
  exact hnodup

/-- Witness of the amended C13: the module declaring `fooUniform`, `toggleUniform` and
`countUniform` has kept constants with distinct names, and so has the extracted list. -/
theorem parameter_names_distinct_witness :
    mixedModuleEnv.loadModule "/inc/mix.fx"
        (emptyConfig.getOptionString "reshadeIncludePath" "")
      = LoadResult.module [fooUniform, toggleUniform, countUniform] ∧
    (([fooUniform, toggleUniform, countUniform].filter keepsConstant).map
      (fun spec => spec.name)).Nodup ∧
    ((parseReshadeEffect mixedModuleEnv "mix" "/inc/mix.fx" emptyConfig).map
      (fun p => p.name)).Nodup :=
  ⟨rfl, by decide,
   (parameter_names_distinct mixedModuleEnv emptyConfig).2 "mix" "/inc/mix.fx"
    [fooUniform, toggleUniform, countUniform] rfl (by decide)⟩

/-- For one built-in name, `collectEffectParameters` returns the list that
`initBuiltInEffect` stores in the instance. -/
theorem collectEffectParameters_single_builtIn (env : Env) (cfg : Config) (name : String)
    (effects : List (List EffectParameter)) (h : isBuiltInEffect name = true) :
    collectEffectParameters env cfg [name] effects = builtInParameters env cfg name := by
  have hmem : name = "cas" ∨ name = "dls" ∨ name = "fxaa" ∨ name = "smaa" ∨
      name = "deband" ∨ name = "lut" := by
    simpa [isBuiltInEffect, builtInEffects] using h
  rcases hmem with rfl | rfl | rfl | rfl | rfl | rfl <;> rfl

/-- C14: for every configuration, the catalog list for `cas` is exactly one Float parameter
`casSharpness` with default 0.4 and range [0, 1]; the list for `deband` is exactly five
parameters in order, four Float then one Int, with defaults 3.4, 6.8, 3.3, 16.0, 4 and
ranges [0, 255], [0, 255], [0, 255], [1, 64], [1, 16]; `collectEffectParameters` returns
the same two lists. -/
theorem catalog_reference_table (env : Env) (cfg : Config) :
    (builtInParameters env cfg "cas").map
        (fun p => (p.name, p.type, p.defaultFloat, p.minFloat, p.maxFloat))
      = [("casSharpness", ParamType.Float, 0.4, 0, 1)] ∧
    (builtInParameters env cfg "deband").length = 5 ∧
    ((builtInParameters env cfg "deband").take 4).map
        (fun p => (p.name, p.type, p.defaultFloat, p.minFloat, p.maxFloat))
      = [("debandAvgdiff", ParamType.Float, 3.4, 0, 255),
         ("debandMaxdiff", ParamType.Float, 6.8, 0, 255),
         ("debandMiddiff", ParamType.Float, 3.3, 0, 255),
         ("debandRange", ParamType.Float, 16, 1, 64)] ∧
    ((builtInParameters env cfg "deband").drop 4).map
        (fun p => (p.name, p.type, p.defaultInt, p.minInt, p.maxInt))
      = [("debandIterations", ParamType.Int, 4, 1, 16)] ∧
    (∀ effects : List (List EffectParameter),
      collectEffectParameters env cfg ["cas"] effects = builtInParameters env cfg "cas" ∧
      collectEffectParameters env cfg ["deband"] effects
        = builtInParameters env cfg "deband") := by
  refine ⟨?_, rfl, ?_, rfl, fun effects => ⟨rfl, rfl⟩⟩
  · simp [builtInParameters, builtInFloat]
    norm_num
  · simp [builtInParameters, builtInFloat]
    norm_num

/-- A float parameter of the catalog has kind Float, its name as configuration key, the
configured float as value when the key is present and its default otherwise. -/
theorem builtInFloat_value (env : Env) (cfg : Config) (effectName name label : String)
    (dflt lo hi : Rat) :
    (builtInFloat env cfg effectName name label dflt lo hi).type = ParamType.Float ∧
    (∀ v, cfg.floats (builtInFloat env cfg effectName name label dflt lo hi).name = some v →
      (builtInFloat env cfg effectName name label dflt lo hi).valueFloat = v) ∧
    (cfg.floats (builtInFloat env cfg effectName name label dflt lo hi).name = none →
      (builtInFloat env cfg effectName name label dflt lo hi).valueFloat
        = (builtInFloat env cfg effectName name label dflt lo hi).defaultFloat) := by
  refine ⟨rfl, fun v hv => ?_, fun hnone => ?_⟩
  · have hkey : cfg.floats name = some v := hv
    show (cfg.floats name).getD dflt = v
    rw [hkey]
    rfl
  · have hkey : cfg.floats name = none := hnone
    show (cfg.floats name).getD dflt = dflt
    rw [hkey]
    rfl

/-- An integer parameter of the catalog has kind Int, its name as configuration key, the
configured integer as value when the key is present and its default otherwise. -/
theorem builtInInt_value (env : Env) (cfg : Config) (effectName name label : String)
    (dflt lo hi : Int) :
    (builtInInt env cfg effectName name label dflt lo hi).type = ParamType.Int ∧
    (∀ v, cfg.ints (builtInInt env cfg effectName name label dflt lo hi).name = some v →
      (builtInInt env cfg effectName name label dflt lo hi).valueInt = v) ∧
    (cfg.ints (builtInInt env cfg effectName name label dflt lo hi).name = none →
      (builtInInt env cfg effectName name label dflt lo hi).valueInt
        = (builtInInt env cfg effectName name label dflt lo hi).defaultInt) := by
  refine ⟨rfl, fun v hv => ?_, fun hnone => ?_⟩
  · have hkey : cfg.ints name = some v := hv
    show (cfg.ints name).getD dflt = v
    rw [hkey]
    rfl
  · have hkey : cfg.ints name = none := hnone
    show (cfg.ints name).getD dflt = dflt
    rw [hkey]
    rfl

/-- C15 (as stated, refuted): under a configuration that holds the float 1 under the key
`lutFile`, the parameter `lutFile` of the built-in `lut` has kind Float and current value 0,
not the configured value. -/
theorem lut_value_ignores_configuration :
    lutConfig.floats "lutFile" = some 1 ∧
    (builtInParameters emptyEnv lutConfig "lut").map
        (fun p => (p.name, p.type, p.valueFloat))
      = [("lutFile", ParamType.Float, 0)] ∧
    (collectEffectParameters emptyEnv lutConfig ["lut"] []).map
        (fun p => (p.name, p.type, p.valueFloat))
      = [("lutFile", ParamType.Float, 0)] :=
  ⟨rfl, by decide, by decide⟩

/-- C15 (amended): for each of cas, dls, fxaa, smaa and deband, every parameter of the
catalog list and every configuration, the current value (the float value of a Float
parameter, the integer value of an Int parameter) is the value the configuration holds under
the key equal to the name of the parameter when that key is present, and the hardcoded
default of the parameter when the key is absent; for lut the single parameter `lutFile` has
current value 0 for every configuration; `collectEffectParameters` returns the same
lists. -/
theorem catalog_current_values (env : Env) (cfg : Config) :
    (∀ name ∈ ["cas", "dls", "fxaa", "smaa", "deband"],
      ∀ p ∈ builtInParameters env cfg name,
        (p.type = ParamType.Float ∧
          (∀ v, cfg.floats p.name = some v → p.valueFloat = v) ∧
          (cfg.floats p.name = none → p.valueFloat = p.defaultFloat)) ∨
        (p.type = ParamType.Int ∧
          (∀ v, cfg.ints p.name = some v → p.valueInt = v) ∧
          (cfg.ints p.name = none → p.valueInt = p.defaultInt))) ∧
    (builtInParameters env cfg "lut").map (fun p => (p.name, p.type, p.valueFloat))
      = [("lutFile", ParamType.Float, 0)] ∧
    (∀ name ∈ ["cas", "dls", "fxaa", "smaa", "deband", "lut"],
      ∀ effects : List (List EffectParameter),
        collectEffectParameters env cfg [name] effects = builtInParameters env cfg name) := by
  refine ⟨?_, rfl, ?_⟩
  · intro name hname p hp
    simp only [List.mem_cons, List.mem_singleton, List.not_mem_nil, or_false] at hname
    rcases hname with rfl | rfl | rfl | rfl | rfl
    all_goals
      simp only [builtInParameters, List.mem_cons, List.mem_singleton, List.not_mem_nil,
        or_false, if_true, if_false, reduceCtorEq, String.reduceEq] at hp
    · subst hp
      exact Or.inl (builtInFloat_value env cfg _ _ _ _ _ _)
    · rcases hp with rfl | rfl <;> exact Or.inl (builtInFloat_value env cfg _ _ _ _ _ _)
    · rcases hp with rfl | rfl | rfl <;> exact Or.inl (builtInFloat_value env cfg _ _ _ _ _ _)
    · rcases hp with rfl | rfl | rfl | rfl
      · exact Or.inl (builtInFloat_value env cfg _ _ _ _ _ _)
      · exact Or.inr (builtInInt_value env cfg _ _ _ _ _ _)
      · exact Or.inr (builtInInt_value env cfg _ _ _ _ _ _)
      · exact Or.inr (builtInInt_value env cfg _ _ _ _ _ _)
    · rcases hp with rfl | rfl | rfl | rfl | rfl
      · exact Or.inl (builtInFloat_value env cfg _ _ _ _ _ _)
      · exact Or.inl (builtInFloat_value env cfg _ _ _ _ _ _)
      · exact Or.inl (builtInFloat_value env cfg _ _ _ _ _ _)
      · exact Or.inl (builtInFloat_value env cfg _ _ _ _ _ _)
      · exact Or.inr (builtInInt_value env cfg _ _ _ _ _ _)
  · intro name hname effects
    exact collectEffectParameters_single_builtIn env cfg name effects
      (by
        simp only [List.mem_cons, List.mem_singleton, List.not_mem_nil, or_false] at hname
        rcases hname with rfl | rfl | rfl | rfl | rfl | rfl <;> decide)

/-- Witness of the amended C15 on `smaa` under `smaaConfig`: the two configured keys give
the current values 1 and 8, the two absent keys give the defaults 16 and 25. -/
theorem catalog_current_values_witness :
    "smaa" ∈ ["cas", "dls", "fxaa", "smaa", "deband"] ∧
    (∀ p ∈ builtInParameters emptyEnv smaaConfig "smaa",
      (p.type = ParamType.Float ∧
        (∀ v, smaaConfig.floats p.name = some v → p.valueFloat = v) ∧
        (smaaConfig.floats p.name = none → p.valueFloat = p.defaultFloat)) ∨
      (p.type = ParamType.Int ∧
        (∀ v, smaaConfig.ints p.name = some v → p.valueInt = v) ∧
        (smaaConfig.ints p.name = none → p.valueInt = p.defaultInt))) ∧
    (builtInParameters emptyEnv smaaConfig "smaa").map
        (fun p => (p.name, p.valueFloat, p.valueInt))
      = [("smaaThreshold", 1, 0), ("smaaMaxSearchSteps", 0, 8),
         ("smaaMaxSearchStepsDiag", 0, 16), ("smaaCornerRounding", 0, 25)] :=
  ⟨by decide, (catalog_current_values emptyEnv smaaConfig).1 "smaa" (by decide), by decide⟩

/-! ## Path override -/

/-- C30: when the configuration holds a non-empty per-name path override for a name that is
not built-in and no file exists at that path, `initialize` creates no instance for the name
and `ensureEffect` without an explicit path leaves the registry unchanged, whatever exists
in the search directory (also when `<dir>/<name>.fx` or `<dir>/<name>` exists). -/
theorem override_without_file_skips (env : Env) (reg : EffectRegistry) (cfg : Config)
    (N : String) (hN : isBuiltInEffect N = false) (hover : cfg.getOptionString N "" ≠ "")
    (hmiss : env.pathExists (cfg.getOptionString N "") = false) :
    (∀ e ∈ (initializeRegistry env reg cfg).effects, e.name ≠ N) ∧
    (reg.pConfig = cfg → ensureEffect env reg N "" = reg) := by
  have hnone : instanceFor env cfg N = none := by
    simp [instanceFor, resolvedPath, hN, hover, hmiss]
  constructor
  · intro e he hname
    rw [initializeRegistry_eq] at he
    obtain ⟨n, _, hn⟩ := List.mem_filterMap.mp he
    have hen := instanceFor_name env cfg n e hn
    rw [hname] at hen
    rw [← hen, hnone] at hn
    cases hn
  · intro hcfg
    by_cases hhas : hasEffectLoop N reg.effects = true
    · simp [ensureEffect, hhas]
    · have hfalse : hasEffectLoop N reg.effects = false := by simpa using hhas
      subst hcfg
      rw [ensureEffect_no_path env reg N hfalse, hnone]
      simp

/-- Witness of C30: with the override `/missing/foo.fx` for `foo` and no file there, no
instance is created although `/inc/foo.fx` and `/inc/foo` exist in the search directory. -/
theorem override_without_file_skips_witness :
    (isBuiltInEffect "foo" = false ∧ overrideConfig.getOptionString "foo" "" ≠ "" ∧
      bothEnv.pathExists (overrideConfig.getOptionString "foo" "") = false ∧
      bothEnv.pathExists "/inc/foo.fx" = true) ∧
    (∀ e ∈ (initializeRegistry bothEnv sampleRegistry overrideConfig).effects, e.name ≠ "foo") ∧
    (initializeRegistry bothEnv sampleRegistry overrideConfig).effects = [] ∧
    ensureEffect bothEnv { effects := [], pConfig := overrideConfig } "foo" ""
      = { effects := [], pConfig := overrideConfig } :=
  ⟨⟨by decide, by decide, by decide, by decide⟩,
   (override_without_file_skips bothEnv sampleRegistry overrideConfig "foo" (by decide)
      (by decide) (by decide)).1,
   rfl,
   (override_without_file_skips bothEnv { effects := [], pConfig := overrideConfig }
      overrideConfig "foo" (by decide) (by decide) (by decide)).2 rfl⟩

/-! ## Created instances -/

/-- A prescribed instance is enabled. -/
theorem instanceFor_enabled (env : Env) (cfg : Config) (name : String) (e : EffectConfig)
    (h : instanceFor env cfg name = some e) : e.enabled = true := by
  unfold instanceFor at h
  by_cases hb : isBuiltInEffect name = true
  · simp [hb] at h
    subst h
    rfl
  · simp [hb] at h
    obtain ⟨path, _, rfl⟩ := h
    rfl

/-- The method `ensureEffect` either leaves the registry as it is, or pushes the built-in
instance of the name, or pushes the shader instance of the name at some path, each under
the stored configuration. -/
theorem ensureEffect_shape (env : Env) (reg : EffectRegistry) (name path : String) :
    ensureEffect env reg name path = reg ∨
    ensureEffect env reg name path
      = { reg with effects := reg.effects ++ [builtInInstance env reg.pConfig name] } ∨
    ∃ p : String, ensureEffect env reg name path
      = { reg with effects := reg.effects ++ [shaderInstance env reg.pConfig name p] } := by
  unfold ensureEffect
  by_cases h : hasEffectLoop name reg.effects = true
  · left
    simp [h]
  · by_cases hb : isBuiltInEffect name = true
    · right
      left
      simp [h, hb, initBuiltInEffect, builtInInstance]
    · simp only [h, hb, initReshadeEffect]
      split_ifs
      all_goals first
        | exact Or.inl rfl
        | exact Or.inr (Or.inr ⟨_, rfl⟩)

/-- C28: every instance that `initialize` creates has `enabled = true`, so right after
`initialize(config)`, for every prior registry state and configuration, `getEnabledEffects`
returns the entire instance list; an instance that `ensureEffect` creates has
`enabled = true` as well. -/
theorem created_instances_enabled (env : Env) (reg : EffectRegistry) (cfg : Config) :
    (∀ e ∈ (initializeRegistry env reg cfg).effects, e.enabled = true) ∧
    getEnabledEffects (initializeRegistry env reg cfg)
      = (initializeRegistry env reg cfg).effects ∧
    (∀ name path : String,
      ensureEffect env reg name path = reg ∨
      ∃ c : EffectConfig, c.enabled = true ∧ c.name = name ∧
        ensureEffect env reg name path = { reg with effects := reg.effects ++ [c] }) := by
  have hall : ∀ e ∈ (initializeRegistry env reg cfg).effects, e.enabled = true := by
    intro e he
    rw [initializeRegistry_eq] at he
    obtain ⟨n, _, hn⟩ := List.mem_filterMap.mp he
    exact instanceFor_enabled env cfg n e hn
  refine ⟨hall, ?_, ?_⟩
  · unfold getEnabledEffects
    rw [foldl_push_if_eq_filter (fun e : EffectConfig => e.enabled)]
    rw [List.nil_append, List.filter_eq_self]
    exact hall
  · intro name path
    rcases ensureEffect_shape env reg name path with h | h | ⟨p, h⟩
    · exact Or.inl h
    · exact Or.inr ⟨_, rfl, rfl, h⟩
    · exact Or.inr ⟨_, rfl, rfl, h⟩

/-! ## The two copies of the catalog -/

/-- C27: for every configuration, every built-in name (cas, dls, fxaa, smaa, deband, lut)
and every `effects` argument, the list `collectEffectParameters(config, [n], effects)`
returns is the parameter list of the instance that `initBuiltInEffect(n)` pushes under the
same configuration, element for element and field for field. -/
theorem collect_matches_initBuiltIn (env : Env) (cfg : Config) (n : String)
    (hn : n ∈ ["cas", "dls", "fxaa", "smaa", "deband", "lut"])
    (effects : List (List EffectParameter)) (reg : EffectRegistry) (hcfg : reg.pConfig = cfg) :
    (initBuiltInEffect env reg n).effects
      = reg.effects ++
          [{ EffectConfig.fresh with
             name := n, type := EffectType.BuiltIn, enabled := true,
             parameters := collectEffectParameters env cfg [n] effects }] := by
  have hb : isBuiltInEffect n = true := by
    simp only [List.mem_cons, List.mem_singleton, List.not_mem_nil, or_false] at hn
    rcases hn with rfl | rfl | rfl | rfl | rfl | rfl <;> decide
  rw [collectEffectParameters_single_builtIn env cfg n effects hb, ← hcfg]
  rfl

/-- Witness of C27 on `smaa` under `smaaConfig`, with an `effects` argument that reports a
parameter of its own. -/
theorem collect_matches_initBuiltIn_witness :
    "smaa" ∈ ["cas", "dls", "fxaa", "smaa", "deband", "lut"] ∧
    (initBuiltInEffect emptyEnv { effects := [], pConfig := smaaConfig } "smaa").effects
      = [] ++
          [{ EffectConfig.fresh with
             name := "smaa", type := EffectType.BuiltIn, enabled := true,
             parameters := collectEffectParameters emptyEnv smaaConfig ["smaa"]
               [[floatParameter]] }] :=
  ⟨by decide, collect_matches_initBuiltIn emptyEnv smaaConfig "smaa" (by decide)
    [[floatParameter]] { effects := [], pConfig := smaaConfig } rfl⟩

/-- A float parameter of the catalog keeps the bounds and the default it is given, in
order when they are given in order. -/
theorem builtInFloat_bounds (env : Env) (cfg : Config) (effectName name label : String)
    (dflt lo hi : Rat) (h1 : lo ≤ dflt) (h2 : dflt ≤ hi) :
    (builtInFloat env cfg effectName name label dflt lo hi).type = ParamType.Float ∧
    (builtInFloat env cfg effectName name label dflt lo hi).minFloat
      ≤ (builtInFloat env cfg effectName name label dflt lo hi).defaultFloat ∧
    (builtInFloat env cfg effectName name label dflt lo hi).defaultFloat
      ≤ (builtInFloat env cfg effectName name label dflt lo hi).maxFloat :=
  ⟨rfl, h1, h2⟩

/-- An integer parameter of the catalog keeps the bounds and the default it is given, in
order when they are given in order. -/
theorem builtInInt_bounds (env : Env) (cfg : Config) (effectName name label : String)
    (dflt lo hi : Int) (h1 : lo ≤ dflt) (h2 : dflt ≤ hi) :
    (builtInInt env cfg effectName name label dflt lo hi).type = ParamType.Int ∧
    (builtInInt env cfg effectName name label dflt lo hi).minInt
      ≤ (builtInInt env cfg effectName name label dflt lo hi).defaultInt ∧
    (builtInInt env cfg effectName name label dflt lo hi).defaultInt
      ≤ (builtInInt env cfg effectName name label dflt lo hi).maxInt :=
  ⟨rfl, h1, h2⟩

/-- C24: for every parameter of cas, dls, fxaa, smaa and deband and every configuration,
`min ≤ default ≤ max` holds (on the float fields of a Float parameter, as decimal values,
and on the integer fields of an Int parameter); the effect name, name, label, kind,
default, minimum and maximum of every catalog parameter are the same under any two
configurations. -/
theorem catalog_bounds (env : Env) (cfg : Config) :
    (∀ name ∈ ["cas", "dls", "fxaa", "smaa", "deband"],
      ∀ p ∈ builtInParameters env cfg name,
        (p.type = ParamType.Float ∧ p.minFloat ≤ p.defaultFloat ∧
          p.defaultFloat ≤ p.maxFloat) ∨
        (p.type = ParamType.Int ∧ p.minInt ≤ p.defaultInt ∧ p.defaultInt ≤ p.maxInt)) ∧
    (∀ (cfg2 : Config) (name : String),
      (builtInParameters env cfg name).map
          (fun p => (p.effectName, p.name, p.label, p.type, p.defaultFloat, p.minFloat,
            p.maxFloat, p.defaultInt, p.minInt, p.maxInt))
        = (builtInParameters env cfg2 name).map
          (fun p => (p.effectName, p.name, p.label, p.type, p.defaultFloat, p.minFloat,
            p.maxFloat, p.defaultInt, p.minInt, p.maxInt))) := by
  constructor
  · intro name hname p hp
    simp only [List.mem_cons, List.mem_singleton, List.not_mem_nil, or_false] at hname
    rcases hname with rfl | rfl | rfl | rfl | rfl
    all_goals
      simp only [builtInParameters, List.mem_cons, List.mem_singleton, List.not_mem_nil,
        or_false, if_true, if_false, reduceCtorEq, String.reduceEq] at hp
    · subst hp
      exact Or.inl (builtInFloat_bounds env cfg _ _ _ _ _ _ (by norm_num) (by norm_num))
    · rcases hp with rfl | rfl <;>
        exact Or.inl (builtInFloat_bounds env cfg _ _ _ _ _ _ (by norm_num) (by norm_num))
    · rcases hp with rfl | rfl | rfl <;>
        exact Or.inl (builtInFloat_bounds env cfg _ _ _ _ _ _ (by norm_num) (by norm_num))
    · rcases hp with rfl | rfl | rfl | rfl
      · exact Or.inl (builtInFloat_bounds env cfg _ _ _ _ _ _ (by norm_num) (by norm_num))
      · exact Or.inr (builtInInt_bounds env cfg _ _ _ _ _ _ (by norm_num) (by norm_num))
      · exact Or.inr (builtInInt_bounds env cfg _ _ _ _ _ _ (by norm_num) (by norm_num))
      · exact Or.inr (builtInInt_bounds env cfg _ _ _ _ _ _ (by norm_num) (by norm_num))
    · rcases hp with rfl | rfl | rfl | rfl | rfl
      · exact Or.inl (builtInFloat_bounds env cfg _ _ _ _ _ _ (by norm_num) (by norm_num))
      · exact Or.inl (builtInFloat_bounds env cfg _ _ _ _ _ _ (by norm_num) (by norm_num))
      · exact Or.inl (builtInFloat_bounds env cfg _ _ _ _ _ _ (by norm_num) (by norm_num))
      · exact Or.inl (builtInFloat_bounds env cfg _ _ _ _ _ _ (by norm_num) (by norm_num))
      · exact Or.inr (builtInInt_bounds env cfg _ _ _ _ _ _ (by norm_num) (by norm_num))
  · intro cfg2 name
    unfold builtInParameters
    split_ifs <;> rfl

/-- Witness of C24 on `deband`: the five parameters have their default within their
bounds, under `smaaConfig` as under the empty configuration. -/
theorem catalog_bounds_witness :
    "deband" ∈ ["cas", "dls", "fxaa", "smaa", "deband"] ∧
    (∀ p ∈ builtInParameters emptyEnv smaaConfig "deband",
      (p.type = ParamType.Float ∧ p.minFloat ≤ p.defaultFloat ∧
        p.defaultFloat ≤ p.maxFloat) ∨
      (p.type = ParamType.Int ∧ p.minInt ≤ p.defaultInt ∧ p.defaultInt ≤ p.maxInt)) ∧
    (builtInParameters emptyEnv smaaConfig "deband").length = 5 :=
  ⟨by decide, (catalog_bounds emptyEnv smaaConfig).1 "deband" (by decide), rfl⟩

/-! ## Files that cannot be loaded or parsed -/

/-- The current value of a parameter the loop body produces, by scalar type. -/
theorem parseSpecConstant_value (env : Env) (cfg : Config) (effectName : String)
    (spec : FxUniform) (p : EffectParameter)
    (h : parseSpecConstant env cfg effectName spec = some p) :
    (spec.type.is_floating_point = true →
      (cfg.getOptionString spec.name "" ≠ "" →
        p.valueFloat = cfg.getOptionFloat spec.name 0) ∧
      (cfg.getOptionString spec.name "" = "" → p.valueFloat = p.defaultFloat)) ∧
    (spec.type.is_floating_point = false → spec.type.is_integral = true →
      spec.type.is_boolean = true →
      (cfg.getOptionString spec.name "" ≠ "" →
        p.valueBool = cfg.getOptionBool spec.name false) ∧
      (cfg.getOptionString spec.name "" = "" → p.valueBool = p.defaultBool)) ∧
    (spec.type.is_floating_point = false → spec.type.is_integral = true →
      spec.type.is_boolean = false →
      (cfg.getOptionString spec.name "" ≠ "" →
        p.valueInt = cfg.getOptionInt spec.name 0) ∧
      (cfg.getOptionString spec.name "" = "" → p.valueInt = p.defaultInt)) := by
  obtain ⟨q, hq, hp⟩ := parseSpecConstant_eq_some env cfg effectName spec p h
  subst hp
  subst hq
  refine ⟨fun hf => ⟨fun hc => ?_, fun hc => ?_⟩,
    fun hf hi hb => ⟨fun hc => ?_, fun hc => ?_⟩,
    fun hf hi hb => ⟨fun hc => ?_, fun hc => ?_⟩⟩
  · refine ((classifySpecConstant_float cfg spec _ _ hf).2.2.1).trans ?_
    simp [hc]
  · refine ((classifySpecConstant_float cfg spec _ _ hf).2.2.1).trans ?_
    rw [show (classifySpecConstant cfg spec _ _).defaultFloat = _ from
      (classifySpecConstant_float cfg spec _ _ hf).2.1]
    simp [hc]
  · refine ((classifySpecConstant_bool cfg spec _ _ hf hi hb).2.2).trans ?_
    simp [hc]
  · refine ((classifySpecConstant_bool cfg spec _ _ hf hi hb).2.2).trans ?_
    rw [show (classifySpecConstant cfg spec _ _).defaultBool = _ from
      (classifySpecConstant_bool cfg spec _ _ hf hi hb).2.1]
    simp [hc]
  · refine ((classifySpecConstant_int cfg spec _ _ hf hi hb).2.2.1).trans ?_
    simp [hc]
  · refine ((classifySpecConstant_int cfg spec _ _ hf hi hb).2.2.1).trans ?_
    rw [show (classifySpecConstant cfg spec _ _).defaultInt = _ from
      (classifySpecConstant_int cfg spec _ _ hf hi hb).2.1]
    simp [hc]

/-- C22: for a file that lowers to a module, the current value of the parameter produced
from each kept constant is, when the configuration holds a (non-empty) value under the name
of the constant, the value read from the configuration under that name as a float, a
boolean or a 32-bit integer according to the kind of the parameter, and the default of the
parameter otherwise. -/
theorem extractor_current_value (env : Env) (effectName effectPath : String)
    (cfg : Config) (cs : List FxUniform)
    (h : env.loadModule effectPath (cfg.getOptionString "reshadeIncludePath" "")
      = LoadResult.module cs) :
    List.Forall₂
      (fun spec p =>
        (spec.type.is_floating_point = true →
          (cfg.getOptionString spec.name "" ≠ "" →
            p.valueFloat = cfg.getOptionFloat spec.name 0) ∧
          (cfg.getOptionString spec.name "" = "" → p.valueFloat = p.defaultFloat)) ∧
        (spec.type.is_floating_point = false → spec.type.is_integral = true →
          spec.type.is_boolean = true →
          (cfg.getOptionString spec.name "" ≠ "" →
            p.valueBool = cfg.getOptionBool spec.name false) ∧
          (cfg.getOptionString spec.name "" = "" → p.valueBool = p.defaultBool)) ∧
        (spec.type.is_floating_point = false → spec.type.is_integral = true →
          spec.type.is_boolean = false →
          (cfg.getOptionString spec.name "" ≠ "" →
            p.valueInt = cfg.getOptionInt spec.name 0) ∧
          (cfg.getOptionString spec.name "" = "" → p.valueInt = p.defaultInt)))
      (cs.filter keepsConstant) (parseReshadeEffect env effectName effectPath cfg) :=
  parseReshadeEffect_forall₂ env effectName effectPath cfg cs _ h
    (fun spec p hp => parseSpecConstant_value env cfg effectName spec p hp)

/-- Witness of C22 under `strengthConfig`: `Strength` takes the configured value 7, `Toggle`
and `Count` keep their defaults. -/
theorem extractor_current_value_witness :
    mixedModuleEnv.loadModule "/inc/mix.fx"
        (strengthConfig.getOptionString "reshadeIncludePath" "")
      = LoadResult.module [fooUniform, toggleUniform, countUniform] ∧
    List.Forall₂
      (fun spec p =>
        (spec.type.is_floating_point = true →
          (strengthConfig.getOptionString spec.name "" ≠ "" →
            p.valueFloat = strengthConfig.getOptionFloat spec.name 0) ∧
          (strengthConfig.getOptionString spec.name "" = "" →
            p.valueFloat = p.defaultFloat)) ∧
        (spec.type.is_floating_point = false → spec.type.is_integral = true →
          spec.type.is_boolean = true →
          (strengthConfig.getOptionString spec.name "" ≠ "" →
            p.valueBool = strengthConfig.getOptionBool spec.name false) ∧
          (strengthConfig.getOptionString spec.name "" = "" →
            p.valueBool = p.defaultBool)) ∧
        (spec.type.is_floating_point = false → spec.type.is_integral = true →
          spec.type.is_boolean = false →
          (strengthConfig.getOptionString spec.name "" ≠ "" →
            p.valueInt = strengthConfig.getOptionInt spec.name 0) ∧
          (strengthConfig.getOptionString spec.name "" = "" →
            p.valueInt = p.defaultInt)))
      [fooUniform, toggleUniform, countUniform]
      (parseReshadeEffect mixedModuleEnv "mix" "/inc/mix.fx" strengthConfig) ∧
    (parseReshadeEffect mixedModuleEnv "mix" "/inc/mix.fx" strengthConfig).map
      (fun p => (p.name, p.valueFloat, p.valueBool, p.valueInt))
      = [("Strength", 7, false, 0), ("Toggle", 0, true, 0), ("Count", 0, false, 4)] :=
  ⟨rfl, extractor_current_value mixedModuleEnv "mix" "/inc/mix.fx" strengthConfig
    [fooUniform, toggleUniform, countUniform] rfl, by decide⟩

/-! ## Splitting of `ui_items` -/

/-- Prefixing the head twice is prefixing it once with the concatenation. -/
theorem modifyHead_append_cons (cur : List Char) (c : Char) (L : List (List Char)) :
    List.modifyHead (fun seg => cur ++ seg) (List.modifyHead (List.cons c) L)
      = List.modifyHead (fun seg => (cur ++ [c]) ++ seg) L := by
  cases L with
  | nil => rfl
  | cons seg rest => simp [List.modifyHead_cons]

/-- Prefixing the head with nothing changes nothing. -/
theorem modifyHead_nil_append (L : List (List Char)) :
    List.modifyHead (fun seg => ([] : List Char) ++ seg) L = L := by
  cases L with
  | nil => rfl
  | cons seg rest => simp [List.modifyHead_cons]

/-- The splitting loop, with `cur` the characters read since the last separator, pushes the
non-empty segments of `cur` followed by the rest of the string. -/
theorem splitItemsLoop_eq (rest cur : List Char) (items : List String) :
    splitItemsLoop rest cur items
      = items ++
          ((List.modifyHead (fun seg => cur ++ seg)
              (rest.splitOnP (fun x => x == Char.ofNat 0))).filter
            (fun seg => !seg.isEmpty)).map String.mk := by
  induction rest generalizing cur items with
  | nil =>
    cases cur with
    | nil => simp [splitItemsLoop, List.splitOnP_nil, List.modifyHead_cons]
    | cons c cs => simp [splitItemsLoop, List.splitOnP_nil, List.modifyHead_cons]
  | cons c r ih =>
    by_cases hc : c = Char.ofNat 0
    · subst hc
      rw [splitItemsLoop, if_pos rfl, ih, List.splitOnP_cons]
      simp only [beq_self_eq_true, if_true, List.modifyHead_cons, modifyHead_nil_append,
        List.append_nil, List.filter_cons]
      cases cur with
      | nil => simp
      | cons d ds => simp
    · have hbeq : (c == Char.ofNat 0) = false := by simpa using hc
      rw [splitItemsLoop, if_neg hc, ih, List.splitOnP_cons]
      simp only [hbeq, Bool.false_eq_true, if_false, modifyHead_append_cons]

/-- The `ui_items` block pushes the items the specification prescribes after the items the
parameter already has. -/
theorem splitItems_eq (s : String) (items : List String) :
    splitItems s items = items ++ nonEmptySegments s := by
  unfold splitItems nonEmptySegments List.splitOn
  rw [splitItemsLoop_eq, modifyHead_nil_append]

/-- No segment of a split contains the separator. -/
theorem not_mem_of_mem_splitOnP (l : List Char) :
    ∀ seg ∈ l.splitOnP (fun x => x == Char.ofNat 0), Char.ofNat 0 ∉ seg := by
  induction l with
  | nil =>
    intro seg hseg
    simp [List.splitOnP_nil] at hseg
    subst hseg
    simp
  | cons c r ih =>
    intro seg hseg
    rw [List.splitOnP_cons] at hseg
    by_cases hc : c = Char.ofNat 0
    · have hbeq : (c == Char.ofNat 0) = true := by simpa using hc
      simp only [hbeq, if_true, List.mem_cons] at hseg
      rcases hseg with rfl | hseg
      · simp
      · exact ih seg hseg
    · have hbeq : (c == Char.ofNat 0) = false := by simpa using hc
      simp only [hbeq, Bool.false_eq_true, if_false] at hseg
      cases hL : r.splitOnP (fun x => x == Char.ofNat 0) with
      | nil => exact absurd hL (List.splitOnP_ne_nil _ _)
      | cons first others =>
        rw [hL, List.modifyHead_cons, List.mem_cons] at hseg
        rcases hseg with rfl | hseg
        · intro hmem
          rcases List.mem_cons.mp hmem with h0 | h0
          · exact hc h0.symm
          · exact ih first (by rw [hL]; exact List.mem_cons_self _ _) h0
        · exact ih seg (by rw [hL]; exact List.mem_cons_of_mem _ hseg)

/-- Splitting a string with a separator in the middle gives the segments of the part before
it followed by the segments of the part after it. -/
theorem splitOnP_append_sep (l1 l2 : List Char) :
    (l1 ++ Char.ofNat 0 :: l2).splitOnP (fun x => x == Char.ofNat 0)
      = l1.splitOnP (fun x => x == Char.ofNat 0)
          ++ l2.splitOnP (fun x => x == Char.ofNat 0) := by
  induction l1 with
  | nil => simp [List.splitOnP_cons, List.splitOnP_nil]
  | cons c r ih =>
    by_cases hc : c = Char.ofNat 0
    · have hbeq : (c == Char.ofNat 0) = true := by simpa using hc
      simp only [List.cons_append, List.splitOnP_cons, hbeq, if_true, ih]
    · have hbeq : (c == Char.ofNat 0) = false := by simpa using hc
      simp only [List.cons_append, List.splitOnP_cons, hbeq, Bool.false_eq_true, if_false, ih]
      cases hL : r.splitOnP (fun x => x == Char.ofNat 0) with
      | nil => exact absurd hL (List.splitOnP_ne_nil _ _)
      | cons first others => simp [List.modifyHead_cons]

/-- The prescribed items of a string with a separator in the middle are those of the part
before it followed by those of the part after it. -/
theorem nonEmptySegments_append_sep (l1 l2 : List Char) :
    nonEmptySegments (String.mk (l1 ++ Char.ofNat 0 :: l2))
      = nonEmptySegments (String.mk l1) ++ nonEmptySegments (String.mk l2) := by
  unfold nonEmptySegments List.splitOn
  simp only [splitOnP_append_sep, List.filter_append, List.map_append]

/-- The prescribed items of the empty string: none. -/
theorem nonEmptySegments_empty : nonEmptySegments (String.mk []) = [] := by
  simp [nonEmptySegments, List.splitOn, List.splitOnP_nil]

/-- The items of a parameter the loop body produces from a constant that carries a
`ui_items` annotation: the items of a default parameter, then the prescribed items of the
string of the first such annotation. -/
theorem parseSpecConstant_items (env : Env) (cfg : Config) (effectName : String)
    (spec : FxUniform) (p : EffectParameter)
    (h : parseSpecConstant env cfg effectName spec = some p) :
    ∀ a, spec.annotations.find? (fun a => a.name == "ui_items") = some a →
      p.items = env.defaultParameter.items ++ nonEmptySegments a.value.string_data := by
  obtain ⟨q, hq, hp⟩ := parseSpecConstant_eq_some env cfg effectName spec p h
  subst hp
  intro a ha
  have hfind : findAnnotationNamed spec.annotations "ui_items" = some a := ha
  have hitems : q.items = env.defaultParameter.items := by
    rw [hq]
    exact (classifySpecConstant_frame cfg spec _ _).2.2.2.2.2
  show (match findAnnotationNamed spec.annotations "ui_items" with
    | some a => splitItems a.value.string_data q.items
    | none => q.items) = _
  rw [hfind]
  show splitItems a.value.string_data q.items = _
  rw [splitItems_eq, hitems]

/-- C21: with a default-constructed parameter that has no item, for a file that lowers to a
module, the items of the parameter produced from each kept constant that carries a
`ui_items` annotation are exactly the segments obtained by splitting the string of the
first such annotation at the NUL separator and discarding the empty segments, in order; no
item is empty, no item contains the separator, and a leading separator, a trailing
separator or a separator that follows a separator can be removed from the string without
changing the items. -/
theorem extractor_items (env : Env) (effectName effectPath : String)
    (cfg : Config) (cs : List FxUniform)
    (h : env.loadModule effectPath (cfg.getOptionString "reshadeIncludePath" "")
      = LoadResult.module cs)
    (hdefault : env.defaultParameter.items = []) :
    List.Forall₂
      (fun spec p =>
        ∀ a, spec.annotations.find? (fun a => a.name == "ui_items") = some a →
          p.items
            = ((a.value.string_data.data.splitOn (Char.ofNat 0)).filter
                (fun seg => !seg.isEmpty)).map String.mk)
      (cs.filter keepsConstant) (parseReshadeEffect env effectName effectPath cfg) ∧
    (∀ s : String, ∀ item ∈ nonEmptySegments s, item ≠ "" ∧ Char.ofNat 0 ∉ item.data) ∧
    (∀ l : List Char,
      nonEmptySegments (String.mk (Char.ofNat 0 :: l)) = nonEmptySegments (String.mk l)) ∧
    (∀ l : List Char,
      nonEmptySegments (String.mk (l ++ [Char.ofNat 0])) = nonEmptySegments (String.mk l)) ∧
    (∀ l1 l2 : List Char,
      nonEmptySegments (String.mk (l1 ++ Char.ofNat 0 :: Char.ofNat 0 :: l2))
        = nonEmptySegments (String.mk (l1 ++ Char.ofNat 0 :: l2))) := by
  refine ⟨?_, ?_, ?_, ?_, ?_⟩
  · refine parseReshadeEffect_forall₂ env effectName effectPath cfg cs _ h ?_
    intro spec p hp a ha
    have hitems := parseSpecConstant_items env cfg effectName spec p hp a ha
    rw [hdefault, List.nil_append] at hitems
    exact hitems
  · intro s item hitem
    unfold nonEmptySegments List.splitOn at hitem
    obtain ⟨seg, hseg, rfl⟩ := List.mem_map.mp hitem
    obtain ⟨hmem, hne⟩ := List.mem_filter.mp hseg
    constructor
    · intro hempty
      have hdata : seg = [] := congrArg String.data hempty
      rw [hdata] at hne
      simp at hne
    · exact not_mem_of_mem_splitOnP s.data seg hmem
  · intro l
    have hsplit := nonEmptySegments_append_sep [] l
    rw [nonEmptySegments_empty, List.nil_append, List.nil_append] at hsplit
    exact hsplit
  · intro l
    have hsplit := nonEmptySegments_append_sep l []
    rw [nonEmptySegments_empty, List.append_nil] at hsplit
    exact hsplit
  · intro l1 l2
    rw [nonEmptySegments_append_sep l1 (Char.ofNat 0 :: l2), nonEmptySegments_append_sep l1 l2]
    have hsplit := nonEmptySegments_append_sep [] l2
    rw [nonEmptySegments_empty, List.nil_append, List.nil_append] at hsplit
    rw [hsplit]

/-- Witness of C21: the `ui_items` string `a`, NUL, `b`, NUL, NUL, `cd`, NUL gives the items
`a`, `b`, `cd`. -/
theorem extractor_items_witness :
    (comboModuleEnv.loadModule "/inc/combo.fx"
        (emptyConfig.getOptionString "reshadeIncludePath" "")
      = LoadResult.module [comboUniform] ∧ comboModuleEnv.defaultParameter.items = []) ∧
    List.Forall₂
      (fun spec p =>
        ∀ a, spec.annotations.find? (fun a => a.name == "ui_items") = some a →
          p.items
            = ((a.value.string_data.data.splitOn (Char.ofNat 0)).filter
                (fun seg => !seg.isEmpty)).map String.mk)
      [comboUniform] (parseReshadeEffect comboModuleEnv "combo" "/inc/combo.fx" emptyConfig) ∧
    (parseReshadeEffect comboModuleEnv "combo" "/inc/combo.fx" emptyConfig).map
      (fun p => p.items) = [["a", "b", "cd"]] :=
  ⟨⟨rfl, rfl⟩,
   (extractor_items comboModuleEnv "combo" "/inc/combo.fx" emptyConfig [comboUniform]
      rfl rfl).1,
   by decide⟩

/-! ## Effect names of stored parameters -/

/-- Every parameter of a branch of `initBuiltInEffect` carries the name of the branch. -/
theorem builtInParameters_effectName (env : Env) (cfg : Config) (name : String) :
    ∀ p ∈ builtInParameters env cfg name, p.effectName = name := by
  intro p hp
  unfold builtInParameters at hp
  split_ifs at hp with h1 h2 h3 h4 h5 h6
  · subst h1
    simp only [List.mem_singleton] at hp
    subst hp
    rfl
  · subst h2
    simp only [List.mem_cons, List.mem_singleton, List.not_mem_nil, or_false] at hp
    rcases hp with rfl | rfl <;> rfl
  · subst h3
    simp only [List.mem_cons, List.mem_singleton, List.not_mem_nil, or_false] at hp
    rcases hp with rfl | rfl | rfl <;> rfl
  · subst h4
    simp only [List.mem_cons, List.mem_singleton, List.not_mem_nil, or_false] at hp
    rcases hp with rfl | rfl | rfl | rfl <;> rfl
  · subst h5
    simp only [List.mem_cons, List.mem_singleton, List.not_mem_nil, or_false] at hp
    rcases hp with rfl | rfl | rfl | rfl | rfl <;> rfl
  · subst h6
    simp only [List.mem_singleton] at hp
    subst hp
    rfl
  · cases hp

/-- Every parameter the extractor returns carries the effect name it was given. -/
theorem parseReshadeEffect_effectName (env : Env) (effectName effectPath : String)
    (cfg : Config) : ∀ p ∈ parseReshadeEffect env effectName effectPath cfg,
      p.effectName = effectName := by
  intro p hp
  cases hload : env.loadModule effectPath (cfg.getOptionString "reshadeIncludePath" "") with
  | appendFailed =>
    have hempty : parseReshadeEffect env effectName effectPath cfg = [] := by
      unfold parseReshadeEffect
      simp only [hload]
    rw [hempty] at hp
    cases hp
  | parseFailed =>
    have hempty : parseReshadeEffect env effectName effectPath cfg = [] := by
      unfold parseReshadeEffect
      simp only [hload]
    rw [hempty] at hp
    cases hp
  | module cs =>
    rw [parseReshadeEffect_eq_filterMap env effectName effectPath cfg cs hload] at hp
    obtain ⟨spec, _, hspec⟩ := List.mem_filterMap.mp hp
    exact (parseSpecConstant_names env cfg effectName spec p hspec).1

/-- The inner update loop keeps the effect names of the parameters when the assignment
does. -/
theorem setParamLoop_effectName (write : EffectParameter → EffectParameter)
    (hw : ∀ q, (write q).effectName = q.effectName) (paramName n : String)
    (ps ps2 : List EffectParameter) (h : ∀ p ∈ ps, p.effectName = n)
    (hset : setParamLoop write paramName ps = some ps2) : ∀ p ∈ ps2, p.effectName = n := by
  induction ps generalizing ps2 with
  | nil => simp [setParamLoop] at hset
  | cons q qs ih =>
    have hq : q.effectName = n := h q (List.mem_cons_self _ _)
    have hqs : ∀ p ∈ qs, p.effectName = n := fun p hp => h p (List.mem_cons_of_mem _ hp)
    by_cases hname : q.name = paramName
    · simp only [setParamLoop, hname, if_true, Option.some.injEq] at hset
      subst hset
      intro p hp
      rcases List.mem_cons.mp hp with rfl | hp
      · exact (hw q).trans hq
      · exact hqs p hp
    · simp only [setParamLoop, hname, if_false] at hset
      cases hrest : setParamLoop write paramName qs with
      | none => simp [hrest] at hset
      | some rest =>
        simp only [hrest, Option.map_some', Option.some.injEq] at hset
        subst hset
        intro p hp
        rcases List.mem_cons.mp hp with rfl | hp
        · exact hq
        · exact ih rest hqs hrest p hp

/-- The outer update loop keeps the property that every parameter carries the name of its
instance, when the assignment keeps effect names. -/
theorem setEffectParamLoop_effectName (write : EffectParameter → EffectParameter)
    (hw : ∀ q, (write q).effectName = q.effectName) (effectName paramName : String)
    (es : List EffectConfig) (h : ∀ e ∈ es, ∀ p ∈ e.parameters, p.effectName = e.name) :
    ∀ e ∈ setEffectParamLoop write effectName paramName es,
      ∀ p ∈ e.parameters, p.effectName = e.name := by
  induction es with
  | nil =>
    intro e he
    simp [setEffectParamLoop] at he
  | cons x xs ih =>
    have hx : ∀ p ∈ x.parameters, p.effectName = x.name := h x (List.mem_cons_self _ _)
    have hxs : ∀ e ∈ xs, ∀ p ∈ e.parameters, p.effectName = e.name :=
      fun e he => h e (List.mem_cons_of_mem _ he)
    intro e he
    by_cases hname : x.name = effectName
    · cases hset : setParamLoop write paramName x.parameters with
      | none =>
        simp only [setEffectParamLoop, hname, if_true, hset, List.mem_cons] at he
        rcases he with rfl | he
        · exact hx
        · exact ih hxs e he
      | some ps2 =>
        simp only [setEffectParamLoop, hname, if_true, hset, List.mem_cons] at he
        rcases he with rfl | he
        · intro p hp
          exact (setParamLoop_effectName write hw paramName x.name x.parameters ps2 hx hset
            p hp).trans hname
        · exact hxs e he
    · simp only [setEffectParamLoop, hname, if_false, List.mem_cons] at he
      rcases he with rfl | he
      · exact hx
      · exact ih hxs e he

/-- The loop of `setEffectEnabled` keeps the property that every parameter carries the name
of its instance. -/
theorem setEnabledLoop_effectName (name : String) (b : Bool) (es : List EffectConfig)
    (h : ∀ e ∈ es, ∀ p ∈ e.parameters, p.effectName = e.name) :
    ∀ e ∈ setEnabledLoop name b es, ∀ p ∈ e.parameters, p.effectName = e.name := by
  induction es with
  | nil =>
    intro e he
    simp [setEnabledLoop] at he
  | cons x xs ih =>
    have hx : ∀ p ∈ x.parameters, p.effectName = x.name := h x (List.mem_cons_self _ _)
    have hxs : ∀ e ∈ xs, ∀ p ∈ e.parameters, p.effectName = e.name :=
      fun e he => h e (List.mem_cons_of_mem _ he)
    intro e he
    by_cases hname : x.name = name
    · simp only [setEnabledLoop, hname, if_true, List.mem_cons] at he
      rcases he with rfl | he
      · intro p hp
        exact (hx p hp).trans hname
      · exact hxs e he
    · simp only [setEnabledLoop, hname, if_false, List.mem_cons] at he
      rcases he with rfl | he
      · exact hx
      · exact ih hxs e he

/-- In every reachable registry state every stored parameter carries the name of its
instance. -/
theorem reachable_effectName_inv (env : Env) (reg : EffectRegistry)
    (hr : Reachable env reg) :
    ∀ e ∈ reg.effects, ∀ p ∈ e.parameters, p.effectName = e.name := by
  induction hr with
  | empty cfg =>
    intro e he
    cases he
  | init reg cfg _ _ =>
    intro e he
    rw [initializeRegistry_eq] at he
    obtain ⟨n, _, hn⟩ := List.mem_filterMap.mp he
    unfold instanceFor at hn
    by_cases hb : isBuiltInEffect n = true
    · simp only [hb, if_true, Option.some.injEq] at hn
      subst hn
      exact builtInParameters_effectName env cfg n
    · simp only [hb, Bool.false_eq_true, if_false, Option.map_eq_some'] at hn
      obtain ⟨path, _, rfl⟩ := hn
      exact parseReshadeEffect_effectName env n path cfg
  | ensure reg name path _ ih =>
    intro e he
    rcases ensureEffect_shape env reg name path with h | h | ⟨p, h⟩
    · rw [h] at he
      exact ih e he
    · rw [h] at he
      rcases List.mem_append.mp he with he | he
      · exact ih e he
      · rw [List.mem_singleton] at he
        subst he
        exact builtInParameters_effectName env reg.pConfig name
    · rw [h] at he
      rcases List.mem_append.mp he with he | he
      · exact ih e he
      · rw [List.mem_singleton] at he
        subst he
        exact parseReshadeEffect_effectName env name p reg.pConfig
  | setEnabled reg name b _ ih => exact setEnabledLoop_effectName name b reg.effects ih
  | setFloat reg effectName paramName v _ ih =>
    exact setEffectParamLoop_effectName (fun param => { param with valueFloat := v })
      (fun _ => rfl) effectName paramName reg.effects ih
  | setInt reg effectName paramName v _ ih =>
    exact setEffectParamLoop_effectName (fun param => { param with valueInt := v })
      (fun _ => rfl) effectName paramName reg.effects ih
  | setBool reg effectName paramName v _ ih =>
    exact setEffectParamLoop_effectName (fun param => { param with valueBool := v })
      (fun _ => rfl) effectName paramName reg.effects ih

/-- A parameter is returned by `getAllParameters` exactly when it is stored in some
instance. -/
theorem mem_getAllParameters (reg : EffectRegistry) (p : EffectParameter) :
    p ∈ getAllParameters reg ↔ ∃ e ∈ reg.effects, p ∈ e.parameters := by
  unfold getAllParameters
  rw [foldl_push_all_eq_flatten, List.nil_append, List.mem_flatten]
  constructor
  · rintro ⟨ps, hps, hp⟩
    obtain ⟨e, he, rfl⟩ := List.mem_map.mp hps
    exact ⟨e, he, hp⟩
  · rintro ⟨e, he, hp⟩
    exact ⟨e.parameters, List.mem_map.mpr ⟨e, he, rfl⟩, hp⟩

/-- In a parameter list with pairwise distinct names, no parameter before a given one has
its name. -/
theorem split_parameters_of_nodup (ps : List EffectParameter) (p : EffectParameter)
    (hp : p ∈ ps) (hnd : (ps.map (fun q => q.name)).Nodup) :
    ∃ ps1 ps2, ps = ps1 ++ p :: ps2 ∧ ∀ q ∈ ps1, q.name ≠ p.name := by
  obtain ⟨ps1, ps2, rfl⟩ := List.append_of_mem hp
  refine ⟨ps1, ps2, rfl, ?_⟩
  intro q hq hname
  rw [List.map_append, List.map_cons] at hnd
  have hdisj := (List.nodup_append.mp hnd).2.2
  exact hdisj (List.mem_map.mpr ⟨q, hq, hname⟩) (List.mem_cons_self _ _)

/-- In an instance list with pairwise distinct names, no instance before a given one has
its name. -/
theorem split_effects_of_nodup (es : List EffectConfig) (e : EffectConfig)
    (he : e ∈ es) (hnd : (es.map (fun x => x.name)).Nodup) :
    ∃ pre post, es = pre ++ e :: post ∧ ∀ x ∈ pre, x.name ≠ e.name := by
  obtain ⟨pre, post, rfl⟩ := List.append_of_mem he
  refine ⟨pre, post, rfl, ?_⟩
  intro x hx hname
  rw [List.map_append, List.map_cons] at hnd
  have hdisj := (List.nodup_append.mp hnd).2.2
  exact hdisj (List.mem_map.mpr ⟨x, hx, hname⟩) (List.mem_cons_self _ _)

/-- C29: in every registry state reachable from an empty registry by calls of `initialize`,
`ensureEffect`, `setEffectEnabled` and `setParameterValue`, every parameter stored in an
instance has its `effectName` equal to the name of that instance; so for every parameter
`p` returned by `getAllParameters`, the lookup `getParameter(p.effectName, p.name)` succeeds
and returns a parameter with that effect name and that name, which is `p` itself when
instance names, and parameter names within each instance, are pairwise distinct. -/
theorem reachable_parameters_lookup (env : Env) (reg : EffectRegistry)
    (hr : Reachable env reg) :
    (∀ e ∈ reg.effects, ∀ p ∈ e.parameters, p.effectName = e.name) ∧
    (∀ p ∈ getAllParameters reg, ∃ q,
      getParameter reg p.effectName p.name = some q ∧
      q.effectName = p.effectName ∧ q.name = p.name) ∧
    ((reg.effects.map (fun e => e.name)).Nodup →
      (∀ e ∈ reg.effects, (e.parameters.map (fun q => q.name)).Nodup) →
      ∀ p ∈ getAllParameters reg, getParameter reg p.effectName p.name = some p) := by
  have hinv := reachable_effectName_inv env reg hr
  refine ⟨hinv, ?_, ?_⟩
  · intro p hp
    obtain ⟨e, he, hpe⟩ := (mem_getAllParameters reg p).mp hp
    have hen : e.name = p.effectName := (hinv e he p hpe).symm
    cases hget : getParameter reg p.effectName p.name with
    | none =>
      have hnone := getEffectParamLoop_none_imp p.effectName p.name reg.effects hget
      exact absurd rfl (hnone e he hen p hpe)
    | some q =>
      obtain ⟨hqn, e2, he2, hen2, hq2⟩ :=
        getEffectParamLoop_eq_some p.effectName p.name reg.effects q hget
      exact ⟨q, rfl, (hinv e2 he2 q hq2).trans hen2, hqn⟩
  · intro hnames hparams p hp
    obtain ⟨e, he, hpe⟩ := (mem_getAllParameters reg p).mp hp
    have hen : e.name = p.effectName := (hinv e he p hpe).symm
    obtain ⟨pre, post, hsplit, hpre⟩ := split_effects_of_nodup reg.effects e he hnames
    obtain ⟨ps1, ps2, hps, hps1⟩ := split_parameters_of_nodup e.parameters p hpe (hparams e he)
    unfold getParameter
    rw [hsplit]
    refine getEffectParamLoop_located p.effectName p.name pre e post ps1 p ps2 hen hps rfl
      hps1 ?_
    intro x hx hxn
    exact absurd (hxn.trans hen.symm) (hpre x hx)

/-- Witness of C29: the registry obtained from the empty registry by `initialize` with the
effect list `cas` and then `ensureEffect("smaa")` is reachable; its five parameters carry
the names of their instances and are found again by the lookup. -/
theorem reachable_parameters_lookup_witness :
    Reachable emptyEnv
      (ensureEffect emptyEnv (initializeRegistry emptyEnv emptyRegistry casOnlyConfig)
        "smaa" "") ∧
    (∀ e ∈ (ensureEffect emptyEnv (initializeRegistry emptyEnv emptyRegistry casOnlyConfig)
        "smaa" "").effects, ∀ p ∈ e.parameters, p.effectName = e.name) ∧
    (getAllParameters
      (ensureEffect emptyEnv (initializeRegistry emptyEnv emptyRegistry casOnlyConfig)
        "smaa" "")).map (fun p => (p.effectName, p.name))
      = [("cas", "casSharpness"), ("smaa", "smaaThreshold"), ("smaa", "smaaMaxSearchSteps"),
         ("smaa", "smaaMaxSearchStepsDiag"), ("smaa", "smaaCornerRounding")] :=
  ⟨Reachable.ensure _ "smaa" "" (Reachable.init emptyRegistry casOnlyConfig
      (Reachable.empty emptyConfig)),
   (reachable_parameters_lookup emptyEnv _
      (Reachable.ensure _ "smaa" "" (Reachable.init emptyRegistry casOnlyConfig
        (Reachable.empty emptyConfig)))).1,
   by decide⟩

/-! ## The effects line of `saveConfig` -/

/-- A string that ends with a non-empty string is not empty. -/
theorem append_ne_empty_right (a b : String) (h : b ≠ "") : a ++ b ≠ "" := by
  intro hab
  apply h
  have hdata := congrArg String.data hab
  simp at hdata
  exact String.ext (by simpa using hdata.2)

/-- Joining with a one-character separator puts the separator in front of every element but
the first. -/
theorem intercalate_singleton_cons (c : Char) (x : List Char) (xs : List (List Char)) :
    [c].intercalate (x :: xs) = x ++ (xs.map (fun y => c :: y)).flatten := by
  induction xs generalizing x with
  | nil => simp [List.intercalate]
  | cons y ys ih =>
    have hstep : [c].intercalate (x :: y :: ys) = x ++ [c] ++ [c].intercalate (y :: ys) := by
      simp [List.intercalate, List.intersperse]
    rw [hstep, ih y]
    simp

/-- After the first pass, the loop that builds `effectsList` appends a separator and a name
for every remaining name. -/
theorem joinEffectsLoop_succ (rest : List String) (i : Nat) (acc : String) :
    (joinEffectsLoop rest (i + 1) acc).data
      = acc.data ++ (rest.map (fun e => ':' :: e.data)).flatten := by
  induction rest generalizing i acc with
  | nil => simp [joinEffectsLoop]
  | cons e es ih =>
    rw [joinEffectsLoop]
    simp only [Nat.succ_pos, gt_iff_lt, if_true, Nat.zero_lt_succ]
    rw [ih]
    simp [String.data_append]

/-- The loop that builds `effectsList` joins the names with `:`. -/
theorem joinEffectsLoop_data (effects : List String) :
    (joinEffectsLoop effects 0 "").data = [':'].intercalate (effects.map String.data) := by
  cases effects with
  | nil => simp [joinEffectsLoop, List.intercalate]
  | cons e es =>
    rw [joinEffectsLoop]
    simp only [gt_iff_lt, Nat.lt_irrefl, if_false, Nat.zero_add]
    rw [joinEffectsLoop_succ, List.map_cons, intercalate_singleton_cons]
    simp [String.data_append, List.map_map, Function.comp_def]

/-- The library join `String.intercalate` with `:` has the same characters as the list join
of the character lists. -/
theorem intercalate_go_data (rest : List String) (acc : String) :
    (String.intercalate.go acc ":" rest).data
      = acc.data ++ (rest.map (fun e => ':' :: e.data)).flatten := by
  induction rest generalizing acc with
  | nil => simp [String.intercalate.go]
  | cons e es ih =>
    rw [String.intercalate.go, ih]
    simp [String.data_append]

/-- The loop that builds `effectsList` computes `String.intercalate ":"`. -/
theorem joinEffectsLoop_eq_intercalate (effects : List String) :
    joinEffectsLoop effects 0 "" = String.intercalate ":" effects := by
  apply String.ext
  rw [joinEffectsLoop_data]
  cases effects with
  | nil => simp [String.intercalate, List.intercalate]
  | cons e es =>
    rw [String.intercalate, intercalate_go_data, List.map_cons, intercalate_singleton_cons]
    simp [List.map_map, Function.comp_def]

/-- The text written by the parameter loop, appended to a text that is empty or ends with a
newline, is empty or ends with a newline. -/
theorem writeParams_ends_with_newline (m : List (String × List EffectParam)) (text : String)
    (h : text = "" ∨ ∃ t, text = t ++ "\n") :
    writeParams m text = "" ∨ ∃ t, writeParams m text = t ++ "\n" := by
  induction m generalizing text with
  | nil => exact h
  | cons entry rest ih =>
    unfold writeParams
    rw [List.foldl_cons]
    exact ih _ (Or.inr ⟨_, rfl⟩)

/-- C25: whenever `saveConfig` writes a file, for every effect list and parameter list, its
text is a text that is empty or ends with a newline, followed by the single line
`effects = ` and the effect names joined by `:` in the given order (no leading or trailing
separator, the empty value for an empty list); it does write the file when `HOME` is set
and the file can be opened; and splitting the joined value at `:` returns the original list
whenever the list is not empty and no name contains `:`. -/
theorem saveConfig_effects_line (home : Option String) (canOpen : String → Bool)
    (configName : String) (effects : List String) (params : List EffectParam) :
    (∀ path text : String,
      (saveConfig home canOpen configName effects params).2 = some (path, text) →
      ∃ pre : String,
        text = pre ++ "effects = " ++ String.intercalate ":" effects ++ "\n" ∧
        (pre = "" ∨ ∃ t, pre = t ++ "\n")) ∧
    (∀ h : String, home = some h →
      canOpen (h ++ "/.config/vkBasalt/configs" ++ "/" ++ configName ++ ".conf") = true →
      ∃ text : String, saveConfig home canOpen configName effects params
        = (true, some (h ++ "/.config/vkBasalt/configs" ++ "/" ++ configName ++ ".conf",
            text))) ∧
    (String.intercalate ":" effects).data = [':'].intercalate (effects.map String.data) ∧
    String.intercalate ":" [] = "" ∧
    (effects ≠ [] → (∀ name ∈ effects, ':' ∉ name.data) →
      ((String.intercalate ":" effects).data.splitOn ':').map String.mk = effects) := by
  have hdata : (String.intercalate ":" effects).data
      = [':'].intercalate (effects.map String.data) := by
    rw [← joinEffectsLoop_eq_intercalate, joinEffectsLoop_data]
  refine ⟨?_, ?_, hdata, rfl, ?_⟩
  · intro path text hsave
    unfold saveConfig at hsave
    by_cases hdir : getConfigsDir home = ""
    · simp [hdir] at hsave
    · by_cases hopen : canOpen (getConfigsDir home ++ "/" ++ configName ++ ".conf") = true
      · simp only [hdir, hopen, if_false, Bool.not_true, Bool.false_eq_true,
          Option.some.injEq, Prod.mk.injEq] at hsave
        refine ⟨writeParams (groupParams params) "", ?_,
          writeParams_ends_with_newline _ "" (Or.inl rfl)⟩
        rw [← hsave.2, joinEffectsLoop_eq_intercalate]
      · simp [hdir, hopen] at hsave
  · intro h hhome hopen
    subst hhome
    have hdir : getConfigsDir (some h) ≠ "" :=
      append_ne_empty_right h "/.config/vkBasalt/configs" (by decide)
    have hopen2 : canOpen (getConfigsDir (some h) ++ "/" ++ configName ++ ".conf") = true :=
      hopen
    refine ⟨writeParams (groupParams params) "" ++ "effects = "
      ++ joinEffectsLoop effects 0 "" ++ "\n", ?_⟩
    unfold saveConfig
    simp only [hdir, if_false, hopen2, Bool.not_true, Bool.false_eq_true]
    rfl
  · intro hne hsep
    rw [hdata, List.splitOn_intercalate]
    · simp [List.map_map, Function.comp_def]
    · intro l hl
      obtain ⟨name, hname, rfl⟩ := List.mem_map.mp hl
      exact hsep name hname
    · simpa using hne

/-- Witness of C25: the file written for the effect list `cas`, `smaa`, `Clarity` and two
parameters, and the split of the joined value. -/
theorem saveConfig_effects_line_witness :
    (saveConfig (some "/home/u") (fun _ => true) "game" ["cas", "smaa", "Clarity"]
        sampleParams).2
      = some ("/home/u/.config/vkBasalt/configs/game.conf",
          "# cas\ncasSharpness = 0.4\n\n# smaa\nsmaaThreshold = 0.05\n\n"
            ++ "effects = cas:smaa:Clarity\n") ∧
    (∃ pre : String,
      "# cas\ncasSharpness = 0.4\n\n# smaa\nsmaaThreshold = 0.05\n\n"
          ++ "effects = cas:smaa:Clarity\n"
        = pre ++ "effects = " ++ String.intercalate ":" ["cas", "smaa", "Clarity"] ++ "\n" ∧
      (pre = "" ∨ ∃ t, pre = t ++ "\n")) ∧
    ((["cas", "smaa", "Clarity"] : List String) ≠ [] ∧
      (∀ name ∈ ["cas", "smaa", "Clarity"], ':' ∉ name.data) ∧
      ((String.intercalate ":" ["cas", "smaa", "Clarity"]).data.splitOn ':').map String.mk
        = ["cas", "smaa", "Clarity"]) :=
  ⟨by decide,
   (saveConfig_effects_line (some "/home/u") (fun _ => true) "game"
      ["cas", "smaa", "Clarity"] sampleParams).1
      "/home/u/.config/vkBasalt/configs/game.conf"
      ("# cas\ncasSharpness = 0.4\n\n# smaa\nsmaaThreshold = 0.05\n\n"
        ++ "effects = cas:smaa:Clarity\n") (by decide),
   by decide, by decide,
   (saveConfig_effects_line (some "/home/u") (fun _ => true) "game"
      ["cas", "smaa", "Clarity"] sampleParams).2.2.2.2 (by decide) (by decide)⟩

/-! ## Lock discipline -/

/-- The method `ensureEffect` with its lock scope computes the registry that `ensureEffect`
computes. -/
theorem ensureEffectGuarded_reg (env : Env) (name effectPath : String) (s : Guarded) :
    (ensureEffectGuarded env name effectPath s).reg = ensureEffect env s.reg name effectPath := by
  unfold ensureEffectGuarded ensureEffect
  simp only [Guarded.lock, Guarded.unlock, Guarded.touch, if_true]
  by_cases hfound : hasEffectLoop name s.reg.effects = true
  · simp only [hfound, if_true]
  · by_cases hb : isBuiltInEffect name = true
    · simp only [hfound, hb, if_true, if_false, Bool.false_eq_true]
    · simp only [hfound, hb, if_false, Bool.false_eq_true]
      split_ifs <;> rfl

/-- C26 (the code at the failing input): a call of `ensureEffect("cas")` on a registry with
no instance named `cas`, started with the mutex free, pushes the new instance onto the
instance list after its `lock_guard` was destroyed: one access to the list is made while
the mutex is not held, and the mutex is free when the push happens; a call of `initialize`
makes no access to the list without the mutex. -/
theorem ensureEffect_pushes_without_lock (env : Env) (reg : EffectRegistry) (path : String)
    (hno : hasEffect reg "cas" = false) :
    (ensureEffectGuarded env "cas" path
        { reg := reg, locked := false, unguarded := 0 }).unguarded = 1 ∧
    (ensureEffectGuarded env "cas" path { reg := reg, locked := false, unguarded := 0 }).reg
      = { reg with effects := reg.effects ++ [builtInInstance env reg.pConfig "cas"] } ∧
    (∀ cfg : Config,
      (initializeGuarded env cfg { reg := reg, locked := false, unguarded := 0 }).unguarded
        = 0) := by
  have hno2 : hasEffectLoop "cas" reg.effects = false := hno
  have hb : isBuiltInEffect "cas" = true := by decide
  refine ⟨?_, ?_, fun cfg => rfl⟩
  · simp [ensureEffectGuarded, Guarded.lock, Guarded.unlock, Guarded.touch, hno2, hb]
  · simp [ensureEffectGuarded, Guarded.lock, Guarded.unlock, Guarded.touch, hno2, hb,
      initBuiltInEffect, builtInInstance]

/-- Witness of the C26 evaluation on `sampleRegistry`, which has no instance named `cas`. -/
theorem ensureEffect_pushes_without_lock_witness :
    hasEffect sampleRegistry "cas" = false ∧
    (ensureEffectGuarded emptyEnv "cas" ""
        { reg := sampleRegistry, locked := false, unguarded := 0 }).unguarded = 1 :=
  ⟨rfl, (ensureEffect_pushes_without_lock emptyEnv sampleRegistry "" rfl).1⟩

end vkBasalt
